import Mathlib

/-!
# Flight plan export (`src/route/routeexport.cpp`)

A shallow embedding of the text encoders and merge appenders of `RouteExport`
(`minToHourMinStr`, `exportFlighplanAsUFmc`, `exportFlighplanAsCorteIn`,
`exportFlighplanAsProSim`, `exportFlighplanAsIvap`, `exportFlighplanAsVfp`,
`createRouteExportData`, the file name builders, `routeValidate` and the export
operations `routeExport...`) together with the properties established for them.

Conventions of the embedding:

* a `QString` (and the `QByteArray` of a text line) is a list of characters;
* C++ `int` values are integers (`Int`), division truncates as in C++;
* a file is an optional content (`none`: the file does not exist) together with
  the outcome of opening it for reading or writing;
* results that the functions obtain from collaborators outside of
  `routeexport.cpp` (the route string of `RouteStringWriter`, the current route of
  `NavApp`) are arguments of the embedded function.
-/

namespace RouteExport

/-! ## Qt strings -/

/-- Contents of a `QString`, and of the `QByteArray` holding one line of text. -/
abbrev QString := List Char

/-- The decimal digit with value `d` (for `d < 10`). -/
def digitChar (d : Nat) : Char := Char.ofNat (48 + d)

/-- Decimal text of a signed integer, `QString::number(n, 10)`. -/
def number (n : Int) : QString :=
  if n < 0 then '-' :: Nat.toDigits 10 n.natAbs else Nat.toDigits 10 n.natAbs

/-- Text substituted by `QString::arg(int a, int fieldWidth, 10, fillChar)` for a
non-negative field width: the decimal text of `a`, right aligned, padded on the
left with `fillChar` up to `fieldWidth` characters and never shortened. -/
def argInt (a : Int) (fieldWidth : Nat) (fillChar : Char) : QString :=
  List.replicate (fieldWidth - (number a).length) fillChar ++ number a

/-- Value of `QString("%1%2").arg(str).arg(a, fieldWidth, 10, fillChar)`: marker
`%1` receives `str` and marker `%2` the padded number. The text `str` is taken
literally (the idents and names routed through here carry no `%` place marker
of their own). -/
def arg12 (str : QString) (a : Int) (fieldWidth : Nat) (fillChar : Char) : QString :=
  str ++ argInt a fieldWidth fillChar

/-- `QString::left(n)`: the first `n` characters, the whole string when shorter. -/
def left (s : QString) (n : Nat) : QString := s.take n

/-! ## `RouteExport::minToHourMinStr` (routeexport.cpp 1506-1510) -/

/-- Embedding of `minToHourMinStr`: hours and remaining minutes, each formatted with
field width 2 and fill character `0`. -/
def minToHourMinStr (minutes : Int) : QString :=
  let enrouteHours : Int := Int.tdiv minutes 60
  argInt enrouteHours 2 '0' ++ argInt (minutes - enrouteHours * 60) 2 '0'

/-! ## Outcomes and files -/

/-- How a call of an export function ends: it returns its `bool`, an
`atools::Exception` leaves it, or a container is accessed outside of its range
(`QList::at`, `QList::first` on an empty list), where Qt asserts. -/
inductive Outcome where
  | returned (value : Bool)
  | threw (message : QString)
  | aborted
  deriving DecidableEq, Repr

/-- A text file on disk: `content = none` when the file does not exist; `readable`
and `writable` tell whether `QFile::open` succeeds for reading an existing file and
for writing or appending (which creates a missing file). -/
structure TextFile where
  content : Option QString
  readable : Bool
  writable : Bool
  deriving DecidableEq, Repr

/-- The file after its content has been written anew. -/
def TextFile.write (file : TextFile) (content : QString) : TextFile :=
  ⟨some content, file.readable, file.writable⟩

/-- Text produced by `stream << line << endl` for each line in turn. -/
def streamLines (lines : List QString) : QString :=
  lines.flatMap fun line => line ++ ['\n']

/-! ## `RouteExport::exportFlighplanAsUFmc` (routeexport.cpp 1009-1052) -/

/-- The literal token `DCT`. -/
def DCT : QString := "DCT".toList

/-- One string under `replaceInStrings(QRegularExpression("^DCT$"), "DIRECT")`:
the token that is exactly `DCT` becomes `DIRECT` (route tokens hold no line
break, where `$` could match early). -/
def replaceInString (s : QString) : QString :=
  if s = DCT then "DIRECT".toList else s

/-- The token list after "Remove last DCT" and "Replace DCT with DIRECT". -/
def ufmcList (list : List QString) : List QString :=
  let list :=
    if 2 ≤ list.length ∧ list.getD (list.length - 2) [] = DCT then
      list.eraseIdx (list.length - 2)
    else list
  list.map replaceInString

/-- The lines streamed to the file: `list.first()`, `list.last()`, the items
`1 .. size - 2`, then `99`. `none` when the list is empty (`first()` asserts). -/
def ufmcLines (list : List QString) : Option (List QString) :=
  match list.head?, list.getLast? with
  | some first, some last =>
    some ([first, last] ++ (list.drop 1).take (list.length - 2) ++ ["99".toList])
  | _, _ => none

/-- Embedding of `exportFlighplanAsUFmc`; `list` is the result of
`createStringForRouteList`. -/
def exportFlighplanAsUFmc (file : TextFile) (list : List QString) : TextFile × Outcome :=
  if file.writable then
    match ufmcLines (ufmcList list) with
    | some lines => (file.write (streamLines lines), Outcome.returned true)
    | none => (file.write [], Outcome.aborted)
  else (file, Outcome.returned false)

/-! ## Flight plan and route (the fields read by the exporters) -/

/-- Flight plan type, `atools::fs::pln::FlightplanType`. -/
inductive FlightplanType where
  | IFR
  | VFR
  | other
  deriving DecidableEq, Repr

/-- One entry of the flight plan; only the ident is read here. -/
structure FlightplanEntry where
  icaoIdent : QString
  deriving DecidableEq, Repr

/-- The part of `atools::fs::pln::Flightplan` that `routeexport.cpp` reads. -/
structure Flightplan where
  entries : List FlightplanEntry
  departureIdent : QString
  destinationIdent : QString
  departureAiportName : QString
  destinationAiportName : QString
  flightplanType : FlightplanType
  deriving DecidableEq, Repr

/-- The part of `Route` that `routeexport.cpp` reads. -/
structure Route where
  flightplan : Flightplan
  departureAirportLegIndex : Int
  destinationAirportLegIndex : Int
  deriving DecidableEq, Repr

/-- Read access `QList::at(i)`: `none` outside of the range, where Qt asserts. -/
def listAt {α : Type} (l : List α) (i : Int) : Option α :=
  if 0 ≤ i then l.get? i.toNat else none

/-- Modelled from the spec: the characters taken as illegal in file paths; the list
used by `atools::cleanFilename` is not part of `routeexport.cpp`. -/
def illegalFilenameChars : List Char := "\\/:*?\"<>|".toList

/-- Modelled from the spec: `atools::cleanFilename` is not part of
`routeexport.cpp`; the specification says that filesystem-illegal characters are
stripped from the file name. -/
def cleanFilename (filename : QString) : QString :=
  filename.filter fun c => !(illegalFilenameChars.contains c)

/-- Embedding of `buildDefaultFilenameShort` (routeexport.cpp 945-961): departure
ident, separator, destination ident and suffix, cleaned. `none` when a leg index
is outside of the entry list. -/
def buildDefaultFilenameShort (route : Route) (sep suffix : QString) : Option QString :=
  match listAt route.flightplan.entries route.departureAirportLegIndex,
        listAt route.flightplan.entries route.destinationAirportLegIndex with
  | some departure, some destination =>
    some (cleanFilename (departure.icaoIdent ++ sep ++ destination.icaoIdent ++ suffix))
  | _, _ => none

/-! ## `RouteExport::exportFlighplanAsCorteIn` (routeexport.cpp 1288-1351) -/

/-- White space in the sense of `QByteArray::simplified` (space, `\t`, `\n`, `\v`,
`\f`, `\r`). -/
def isSpace (c : Char) : Bool :=
  c = ' ' || c = '\t' || c = '\n' || c = Char.ofNat 11 || c = Char.ofNat 12 || c = '\r'

/-- The maximal runs of characters that are not white space; `cur` is the run
being collected. -/
def splitWords : QString → QString → List QString
  | [], cur => if cur = [] then [] else [cur]
  | c :: cs, cur =>
    if isSpace c then
      if cur = [] then splitWords cs [] else cur :: splitWords cs []
    else splitWords cs (cur ++ [c])

/-- `simplified()`: white space removed at both ends, every inner run of white
space replaced by one space. -/
def simplified (s : QString) : QString :=
  [' '].intercalate (splitWords s [])

/-- `toUpper()` of a line of the file (letters `a`-`z`). -/
def toUpper (s : QString) : QString := s.map Char.toUpper

/-- The fields of `s` between occurrences of `sep`, empty fields included. -/
def splitFields (sep : Char) : QString → QString → List QString
  | [], cur => [cur]
  | c :: cs, cur =>
    if c = sep then cur :: splitFields sep cs [] else splitFields sep cs (cur ++ [c])

/-- `QString::section(sep, start, end)` for a one character separator and
non-negative field numbers: the fields `start .. end` joined by the separator,
empty when the string has fewer fields. -/
def sectionOf (s : QString) (sep : Char) (start stop : Nat) : QString :=
  [sep].intercalate (((splitFields sep s []).drop start).take (stop + 1 - start))

/-- The lines that successive `readLine()` calls return until `atEnd()`: each line
ends with its `\n`, except possibly the last one. -/
def readLines : QString → QString → List QString
  | [], cur => if cur = [] then [] else [cur]
  | c :: cs, cur =>
    if c = '\n' then (cur ++ [c]) :: readLines cs [] else readLines cs (cur ++ [c])

/-- The names inserted into `routeNames` by the read loop, in file order: for
every line that is not blank, field 1 of the upper-cased, simplified line. -/
def corteInRouteNames (content : QString) : List QString :=
  (readLines content []).filterMap fun raw =>
    let line := simplified (toUpper raw)
    if line = [] then none else some (sectionOf line ' ' 1 1)

/-- One pass of the body of the name loop: the first six characters of the current
name, then the counter padded with zeros to the remaining width of eight. -/
def corteInNextName (name : QString) (i : Nat) : QString :=
  let str := left name 6
  arg12 str (Int.ofNat i) (8 - str.length) '0'

/-- The loop `while(routeNames.contains(name) && i < 99)`. The first argument
bounds the number of passes; 99 is never used up since `i` starts at 1. -/
def corteInUniqueLoop (routeNames : List QString) : Nat → QString → Nat → QString
  | 0, name, _ => name
  | fuel + 1, name, i =>
    if name ∈ routeNames ∧ i < 99 then
      corteInUniqueLoop routeNames fuel (corteInNextName name i) (i + 1)
    else name

/-- The name chosen for the new record. -/
def corteInUniqueName (routeNames : List QString) (name : QString) : QString :=
  corteInUniqueLoop routeNames 99 name 1

/-- Modelled from the spec: `atools::fileEndsWithEol` is not part of
`routeexport.cpp`; the specification inserts a line break first "only if the
existing file does not already end with one". -/
def fileEndsWithEol (content : QString) : Bool :=
  match content.getLast? with
  | some c => c = '\n' || c = '\r'
  | none => false

/-- The record line `QString("RTE %1 ").arg(name)` prepended to the route string. -/
def corteInRecord (name txt : QString) : QString :=
  "RTE ".toList ++ name ++ " ".toList ++ txt

/-- Embedding of `exportFlighplanAsCorteIn`; `txt` is the route string of
`createStringForRoute`. Opening for reading fails for a missing file. -/
def exportFlighplanAsCorteIn (file : TextFile) (flightplan : Flightplan) (txt : QString) :
    TextFile × Outcome :=
  match file.content with
  | some content =>
    if file.readable then
      let routeNames := corteInRouteNames content
      let name := corteInUniqueName routeNames
        (flightplan.departureIdent ++ flightplan.destinationIdent)
      let txt := corteInRecord name txt
      let endsWithEol := fileEndsWithEol content
      if file.writable then
        (file.write (content ++ (if endsWithEol then [] else ['\n']) ++ txt),
          Outcome.returned true)
      else (file, Outcome.returned false)
    else (file, Outcome.returned false)
  | none => (file, Outcome.returned false)

/-! ## `RouteExport::exportFlighplanAsProSim` (routeexport.cpp 1353-1452)

The XML text layer (escaping, encoding, tokenising) belongs to `QXmlStreamReader`
and `QXmlStreamWriter`. A companyroutes.xml file is represented by the sequence of
tokens that `QXmlStreamReader::readNext` delivers for it; the empty sequence is the
file of size zero. -/

/-- Tokens of `QXmlStreamReader::TokenType`, with the data read from them. -/
inductive Token where
  | NoToken
  | Invalid
  | StartDocument
  | EndDocument
  | StartElement (name : QString) (attributes : List (QString × QString))
  | EndElement (name : QString)
  | Characters (text : QString)
  | Comment (text : QString)
  | DTD (text : QString)
  | EntityReference (name : QString) (text : QString)
  | ProcessingInstruction (target : QString) (data : QString)
  deriving DecidableEq, Repr

/-- One `<route name="...">text</route>` record: name and route text. -/
abbrev RouteEntry := QString × QString

/-- State of a `QXmlStreamReader`: the tokens still to be delivered and whether
`error()` differs from `NoError`. -/
structure QXmlStreamReader where
  pending : List Token
  error : Bool
  deriving DecidableEq, Repr

/-- `QXmlStreamReader::atEnd()`: the document has been read to its end, or an error
has occurred and reading has been aborted. -/
def QXmlStreamReader.atEnd (reader : QXmlStreamReader) : Bool :=
  reader.error || reader.pending.isEmpty

/-- `QXmlStreamReader::readNext()`: the next token; `Invalid` raises the error
state, as does running out of input before the document is complete. -/
def QXmlStreamReader.readNext (reader : QXmlStreamReader) : Token × QXmlStreamReader :=
  if reader.error then (Token.Invalid, reader)
  else
    match reader.pending with
    | [] => (Token.Invalid, ⟨[], true⟩)
    | Token.Invalid :: _ => (Token.Invalid, ⟨[], true⟩)
    | token :: rest => (token, ⟨rest, false⟩)

/-- `QXmlStreamReader::readElementText()` with the default behaviour
`ErrorOnUnexpectedElement`, started right after a start element: character data
and entity references are collected up to the end element, comments and
processing instructions are skipped, anything else raises an error and what was
collected so far is returned. -/
def readElementText : List Token → QString → QString × QXmlStreamReader
  | [], result => (result, ⟨[], true⟩)
  | Token.Characters text :: rest, result => readElementText rest (result ++ text)
  | Token.EntityReference _ text :: rest, result => readElementText rest (result ++ text)
  | Token.EndElement _ :: rest, result => (result, ⟨rest, false⟩)
  | Token.ProcessingInstruction _ _ :: rest, result => readElementText rest result
  | Token.Comment _ :: rest, result => readElementText rest result
  | _ :: _, result => (result, ⟨[], true⟩)

/-- `reader.attributes().value(name).toString()`: the value of the first attribute
with that name, empty when there is none. -/
def attributeValue (attributes : List (QString × QString)) (name : QString) : QString :=
  match attributes.find? fun a => a.1 = name with
  | some a => a.2
  | none => []

/-- The reader loop `while(!reader.atEnd())` of the read phase. The error test at
the head of the body throws; every `route` start element appends its name attribute
and element text. The first argument bounds the number of passes. -/
def readRoutesLoop : Nat → QXmlStreamReader → List RouteEntry → Except QString (List RouteEntry)
  | 0, _, routes => Except.ok routes
  | fuel + 1, reader, routes =>
    if reader.atEnd then Except.ok routes
    else if reader.error then Except.error "Error reading".toList
    else
      match reader.readNext with
      | (Token.StartElement elementName attributes, reader) =>
        if elementName = "route".toList then
          let name := attributeValue attributes "name".toList
          match readElementText reader.pending [] with
          | (route, reader) => readRoutesLoop fuel reader (routes ++ [(name, route)])
        else readRoutesLoop fuel reader routes
      | (_, reader) => readRoutesLoop fuel reader routes

/-- The routes kept by the read phase for a file with the given tokens. Every pass
of the loop consumes a token, so the bound is never used up. -/
def readRoutes (content : List Token) : Except QString (List RouteEntry) :=
  readRoutesLoop (content.length + 1) ⟨content, false⟩ []

/-- What the writer emits for one entry: `writeStartElement("route")`,
`writeAttribute("name", entry.first)`, `writeCharacters(entry.second)`,
`writeEndElement()`, preceded by the line break and the indent of two blanks of
`setAutoFormatting(true)`; an empty text leaves no character token. -/
def writeRouteElement (entry : RouteEntry) : List Token :=
  [Token.Characters "\n  ".toList, Token.StartElement "route".toList [("name".toList, entry.1)]]
    ++ (if entry.2 = [] then [] else [Token.Characters entry.2])
    ++ [Token.EndElement "route".toList]

/-- The document written by the write phase: start of document, the root element
`companyroutes` with one `route` element per entry, end of document. -/
def writeCompanyRoutes (routes : List RouteEntry) : List Token :=
  [Token.StartDocument, Token.StartElement "companyroutes".toList []]
    ++ routes.flatMap writeRouteElement
    ++ (if routes.isEmpty then [] else [Token.Characters "\n".toList])
    ++ [Token.EndElement "companyroutes".toList, Token.EndDocument]

/-- The files touched by the ProSim export: the destination `filename`, the backup
`filename + "_lnm_backup"` and the older backups the roller retains. -/
structure ProSimFiles where
  file : Option (List Token)
  readable : Bool
  writable : Bool
  backupFile : Option (List Token)
  rolled : List (List Token)
  deriving DecidableEq, Repr

/-- Modelled from the spec: `atools::io::FileRoller` is not part of
`routeexport.cpp`; the specification describes "up to one rolling backup copy of
the destination file (rotating, max 1 retained backup)". Rolling frees the backup
name and retains older backups so that, with the copy made next, at most `maxFiles`
backups remain. -/
def rollFile (maxFiles : Nat) (fs : ProSimFiles) : ProSimFiles :=
  ⟨fs.file, fs.readable, fs.writable, none,
    (fs.backupFile.toList ++ fs.rolled).take (maxFiles - 1)⟩

/-- `QFile(filename).copy(backupFile)`: copies an existing, readable file to a name
that is not in use; otherwise nothing changes and the result is `false`. -/
def copyToBackup (fs : ProSimFiles) : ProSimFiles × Bool :=
  match fs.file, fs.backupFile with
  | some content, none =>
    if fs.readable then (⟨fs.file, fs.readable, fs.writable, some content, fs.rolled⟩, true)
    else (fs, false)
  | _, _ => (fs, false)

/-- The loop `while(routeNames.contains(newname) && i < 99)`: every new candidate is
`name` followed by the counter on two digits. The first argument bounds the number
of passes; 99 is never used up since `i` starts at 1. -/
def proSimUniqueLoop (routeNames : List QString) (name : QString) :
    Nat → QString → Nat → QString
  | 0, newname, _ => newname
  | fuel + 1, newname, i =>
    if newname ∈ routeNames ∧ i < 99 then
      proSimUniqueLoop routeNames name fuel (arg12 name (Int.ofNat i) 2 '0') (i + 1)
    else newname

/-- The name chosen for the new entry. -/
def proSimUniqueName (routeNames : List QString) (name : QString) : QString :=
  proSimUniqueLoop routeNames name 99 name 1

/-- The read phase: no routes for a missing file or a file of size zero, `returned
false` when the file cannot be opened, otherwise the result of the reader loop. -/
def proSimReadPhase (fs : ProSimFiles) : Except Outcome (List RouteEntry) :=
  match fs.file with
  | some content =>
    if content ≠ [] then
      if fs.readable then
        match readRoutes content with
        | Except.ok routes => Except.ok routes
        | Except.error message => Except.error (Outcome.threw message)
      else Except.error (Outcome.returned false)
    else Except.ok []
  | none => Except.ok []

/-- Embedding of `exportFlighplanAsProSim`; `route` is the current route of `NavApp`
and `routeString` the result of `createStringForRoute`. -/
def exportFlighplanAsProSim (fs : ProSimFiles) (route : Route) (routeString : QString) :
    ProSimFiles × Outcome :=
  match proSimReadPhase fs with
  | Except.error outcome => (fs, outcome)
  | Except.ok routes =>
    let routeNames := routes.map Prod.fst
    let fs := (copyToBackup (rollFile 1 fs)).1
    match buildDefaultFilenameShort route [] [] with
    | none => (fs, Outcome.aborted)
    | some name =>
      let newname := proSimUniqueName routeNames name
      let routes := routes ++ [(newname, routeString)]
      if fs.writable then
        (⟨some (writeCompanyRoutes routes), fs.readable, fs.writable, fs.backupFile, fs.rolled⟩,
          Outcome.returned true)
      else (fs, Outcome.returned false)

/-! ## Notions used to state the properties -/

/-- The `k`-th candidate name of the corte.in appender: the base name for `k = 0`,
afterwards the loop body applied to the previous candidate with counter `k`. -/
def corteInCandidate (name : QString) : Nat → QString
  | 0 => name
  | k + 1 => corteInNextName (corteInCandidate name k) (k + 1)

/-- The `k`-th candidate name of the companyroutes.xml appender: the base name for
`k = 0`, afterwards the base name followed by the counter on two digits. -/
def proSimCandidate (name : QString) : Nat → QString
  | 0 => name
  | k + 1 => arg12 name (Int.ofNat (k + 1)) 2 '0'

/-- The name of a line in the words of the specification: its second
whitespace-separated token, if it has one. -/
def lineName (line : QString) : Option QString :=
  (splitWords line []).get? 1

/-- The names of the existing lines in the words of the specification. -/
def existingLineNames (content : QString) : List QString :=
  (readLines content []).filterMap lineName

/-- The routes the read phase of the ProSim export keeps for the existing file (none
when it does not get to the end of the read phase). -/
def proSimExistingRoutes (fs : ProSimFiles) : List RouteEntry :=
  match proSimReadPhase fs with
  | Except.ok routes => routes
  | Except.error _ => []

/-- Number of backup files of the destination that exist. -/
def backupCount (fs : ProSimFiles) : Nat :=
  fs.backupFile.toList.length + fs.rolled.length

/-- A word: not empty and free of white space. -/
def IsWord (w : QString) : Prop := w ≠ [] ∧ ∀ c ∈ w, isSpace c = false

/-- The name that the read loop takes from one line, in plain words: nothing for a
blank line, otherwise the second whitespace-separated token in upper case, and the
empty name when the line has one token only. -/
def upperLineName (raw : QString) : Option QString :=
  match splitWords raw [] with
  | [] => none
  | words => some (toUpper ((words.get? 1).getD []))

/-- A name in upper case made of one word. -/
def IsUpperWord (w : QString) : Prop := IsWord w ∧ toUpper w = w

/-! ## Export data of the ATC filing dialects (`RouteExportData`) -/

/-- A `QTime`: hour and minute of a valid time, `none` for the null time. -/
abbrev QTime := Option (Nat × Nat)

/-- `QTime::toString("HHmm")`: hour and minute on two digits each, empty for the null
time. -/
def timeToStringHHmm (time : QTime) : QString :=
  match time with
  | some (hour, minute) => argInt (Int.ofNat hour) 2 '0' ++ argInt (Int.ofNat minute) 2 '0'
  | none => []

/-- The dialect an export data record is written for, `re::RouteExportType`. -/
inductive RouteExportType where
  | UNKNOWN
  | VFP
  | IVAP
  | XIVAP
  deriving DecidableEq, Repr

/-- The fields of `RouteExportData` read by `exportFlighplanAsVfp` and
`exportFlighplanAsIvap`, named after their getters. -/
structure RouteExportData where
  callsign : QString
  livery : QString
  airline : QString
  pilotInCommand : QString
  alternate : QString
  alternate2 : QString
  passengers : Int
  enduranceMinutes : Int
  enrouteMinutes : Int
  remarks : QString
  departure : QString
  destination : QString
  route : QString
  cruiseAltitude : Int
  speed : Int
  departureTime : QTime
  departureTimeActual : QTime
  transponder : QString
  equipment : QString
  equipmentPrefix : QString
  equipmentSuffix : QString
  wakeCategory : QString
  aircraftType : QString
  flightType : QString
  flightRules : QString
  voiceType : QString
  heavy : Bool
  deriving DecidableEq, Repr

/-! ## `RouteExport::exportFlighplanAsIvap` and `writeIvapLine` (routeexport.cpp 1181-1262, 1512-1524) -/

/-- Embedding of `writeIvapLine` for a string value: the line `key=value`, followed
by an empty line for X-IvAp. -/
def writeIvapLine (key value : QString) (type : RouteExportType) : List QString :=
  [key ++ "=".toList ++ value] ++ (if type = RouteExportType.XIVAP then [[]] else [])

/-- Embedding of `writeIvapLine` for an `int` value, streamed in decimal. -/
def writeIvapLineInt (key : QString) (value : Int) (type : RouteExportType) : List QString :=
  [key ++ "=".toList ++ number value] ++ (if type = RouteExportType.XIVAP then [[]] else [])

/-- The lines common to both dialects, from `SPEEDTYPE` to `RULES`. -/
def ivapCommonLines (exportData : RouteExportData) (type : RouteExportType) : List QString :=
  writeIvapLine "SPEEDTYPE".toList "N".toList type
    ++ writeIvapLineInt "POB".toList exportData.passengers type
    ++ writeIvapLine "ENDURANCE".toList (minToHourMinStr exportData.enduranceMinutes) type
    ++ writeIvapLine "OTHER".toList exportData.remarks type
    ++ writeIvapLine "ALTICAO".toList exportData.alternate type
    ++ writeIvapLine "EET".toList (minToHourMinStr exportData.enrouteMinutes) type
    ++ writeIvapLine "DESTICAO".toList exportData.destination type
    ++ writeIvapLine "ROUTE".toList exportData.route type
    ++ writeIvapLineInt "LEVEL".toList (Int.tdiv exportData.cruiseAltitude 100) type
    ++ writeIvapLine "LEVELTYPE".toList "F".toList type
    ++ writeIvapLineInt "SPEED".toList exportData.speed type
    ++ writeIvapLine "DEPTIME".toList (timeToStringHHmm exportData.departureTime) type
    ++ writeIvapLine "DEPICAO".toList exportData.departure type
    ++ writeIvapLine "TRANSPONDER".toList exportData.transponder type
    ++ writeIvapLine "EQUIPMENT".toList exportData.equipment type
    ++ writeIvapLine "WAKECAT".toList exportData.wakeCategory type
    ++ writeIvapLine "ACTYPE".toList exportData.aircraftType type
    ++ writeIvapLine "NUMBER".toList "1".toList type
    ++ writeIvapLine "FLIGHTTYPE".toList exportData.flightType type
    ++ writeIvapLine "RULES".toList exportData.flightRules type

/-- The lines streamed by `exportFlighplanAsIvap`, each one followed by `endl`: the
header, the lines special to the dialect, the common lines. -/
def ivapLines (exportData : RouteExportData) (type : RouteExportType) : List QString :=
  ["[FLIGHTPLAN]".toList]
    ++ (if type = RouteExportType.XIVAP then
          [[]]
            ++ writeIvapLine "CALLSIGN".toList exportData.callsign type
            ++ writeIvapLine "LIVERY".toList exportData.livery type
            ++ writeIvapLine "AIRLINE".toList exportData.airline type
            ++ writeIvapLine "PIC".toList exportData.pilotInCommand type
            ++ writeIvapLine "ALT2ICAO".toList exportData.alternate2 type
            ++ writeIvapLine "FMCROUTE".toList [] type
        else
          writeIvapLine "ID".toList exportData.callsign type
            ++ writeIvapLine "ALTICAO2".toList exportData.alternate2 type)
    ++ ivapCommonLines exportData type

/-- Embedding of `exportFlighplanAsIvap`: the lines are written when the file can be
opened for writing, otherwise the IO error is reported and the result is `false`. -/
def exportFlighplanAsIvap (file : TextFile) (exportData : RouteExportData)
    (type : RouteExportType) : TextFile × Outcome :=
  if file.writable then
    (file.write (streamLines (ivapLines exportData type)), Outcome.returned true)
  else (file, Outcome.returned false)

/-! ## `RouteExport::exportFlighplanAsVfp` (routeexport.cpp 1107-1179) -/

/-- The calls made on a `QXmlStreamWriter`, in the order they are made. -/
inductive WriterCall where
  | writeStartDocument (version : QString)
  | writeStartElement (name : QString)
  | writeAttribute (name : QString) (value : QString)
  | writeCharacters (text : QString)
  | writeEndElement
  | writeEndDocument
  deriving DecidableEq, Repr

/-- The writer calls of `exportFlighplanAsVfp`. -/
def vfpWriterCalls (exportData : RouteExportData) : List WriterCall :=
  let enrouteHours : Int := Int.tdiv exportData.enrouteMinutes 60
  let enduranceHours : Int := Int.tdiv exportData.enduranceMinutes 60
  [WriterCall.writeStartDocument "1.0".toList,
   WriterCall.writeStartElement "FlightPlan".toList,
   WriterCall.writeAttribute "xmlns:xsi".toList
     "http://www.w3.org/2001/XMLSchema-instance".toList,
   WriterCall.writeAttribute "xmlns:xsd".toList "http://www.w3.org/2001/XMLSchema".toList,
   WriterCall.writeAttribute "FlightType".toList exportData.flightRules,
   WriterCall.writeAttribute "Equipment".toList exportData.equipment,
   WriterCall.writeAttribute "CruiseAltitude".toList (number exportData.cruiseAltitude),
   WriterCall.writeAttribute "CruiseSpeed".toList (number exportData.speed),
   WriterCall.writeAttribute "DepartureAirport".toList exportData.departure,
   WriterCall.writeAttribute "DestinationAirport".toList exportData.destination,
   WriterCall.writeAttribute "AlternateAirport".toList exportData.alternate,
   WriterCall.writeAttribute "Route".toList exportData.route,
   WriterCall.writeAttribute "Remarks".toList exportData.remarks,
   WriterCall.writeAttribute "IsHeavy".toList
     (if exportData.heavy then "true".toList else "false".toList),
   WriterCall.writeAttribute "EquipmentPrefix".toList exportData.equipmentPrefix,
   WriterCall.writeAttribute "EquipmentSuffix".toList exportData.equipmentSuffix,
   WriterCall.writeAttribute "DepartureTime".toList (timeToStringHHmm exportData.departureTime),
   WriterCall.writeAttribute "DepartureTimeAct".toList
     (if exportData.departureTimeActual.isNone then "0".toList
      else timeToStringHHmm exportData.departureTimeActual),
   WriterCall.writeAttribute "EnrouteHours".toList (number enrouteHours),
   WriterCall.writeAttribute "EnrouteMinutes".toList
     (number (exportData.enrouteMinutes - enrouteHours * 60)),
   WriterCall.writeAttribute "FuelHours".toList (number enduranceHours),
   WriterCall.writeAttribute "FuelMinutes".toList
     (number (exportData.enduranceMinutes - enduranceHours * 60)),
   WriterCall.writeAttribute "VoiceType".toList exportData.voiceType,
   WriterCall.writeEndElement,
   WriterCall.writeEndDocument]

/-- Embedding of `exportFlighplanAsVfp`: `canOpen` tells whether the file can be
opened for writing; the result holds the document written to it, if any. -/
def exportFlighplanAsVfp (exportData : RouteExportData) (canOpen : Bool) :
    Option (List WriterCall) × Outcome :=
  if canOpen then (some (vfpWriterCalls exportData), Outcome.returned true)
  else (none, Outcome.returned false)

/-- The value given to the attribute `name` by the writer calls, if it is written. -/
def writtenAttribute (calls : List WriterCall) (name : QString) : Option QString :=
  calls.findSome? fun call =>
    match call with
    | WriterCall.writeAttribute written value => if written = name then some value else none
    | _ => none

/-- The key of a line `key=value`: the text before the first `=`. -/
def lineKey (line : QString) : QString :=
  line.takeWhile fun c => c != '='

/-- The keys of the lines that are not empty, in order. -/
def lineKeys (lines : List QString) : List QString :=
  (lines.filter fun line => !line.isEmpty).map lineKey

/-- A line with its key replaced when the key is `oldKey`. -/
def renameKey (oldKey newKey : QString) (line : QString) : QString :=
  if lineKey line = oldKey then newKey ++ line.drop oldKey.length else line

/-- The keys after the header in the IvAp dialect. -/
def ivapKeys : List QString :=
  ["ID", "ALTICAO2", "SPEEDTYPE", "POB", "ENDURANCE", "OTHER", "ALTICAO", "EET", "DESTICAO",
   "ROUTE", "LEVEL", "LEVELTYPE", "SPEED", "DEPTIME", "DEPICAO", "TRANSPONDER", "EQUIPMENT",
   "WAKECAT", "ACTYPE", "NUMBER", "FLIGHTTYPE", "RULES"].map String.toList

/-- The keys after the header in the X-IvAp dialect. -/
def xivapKeys : List QString :=
  ["CALLSIGN", "LIVERY", "AIRLINE", "PIC", "ALT2ICAO", "FMCROUTE", "SPEEDTYPE", "POB",
   "ENDURANCE", "OTHER", "ALTICAO", "EET", "DESTICAO", "ROUTE", "LEVEL", "LEVELTYPE", "SPEED",
   "DEPTIME", "DEPICAO", "TRANSPONDER", "EQUIPMENT", "WAKECAT", "ACTYPE", "NUMBER",
   "FLIGHTTYPE", "RULES"].map String.toList

/-- Lines after the operations that relate the two dialects: the empty lines are
removed, then the lines whose key is in `removed`, then keys are renamed in turn. -/
def transformLines (removed : List QString) (renames : List (QString × QString))
    (lines : List QString) : List QString :=
  renames.foldl (fun acc rename => acc.map (renameKey rename.1 rename.2))
    ((lines.filter fun line => !line.isEmpty).filter fun line => !(removed.contains (lineKey line)))

/-! ## `RouteExport::buildDefaultFilename` and `buildDefaultFilenameLong` (routeexport.cpp 907-943) -/

/-- Embedding of `buildDefaultFilenameLong`: rules, departure, ` to `, destination,
extension and suffix, cleaned. An airport is written as `Name (Ident)` with the
ident of the flight plan, or as the ident of its flight plan entry when it has no
name; `none` when that entry is outside of the entry list. -/
def buildDefaultFilenameLong (route : Route) (extension suffix : QString) : Option QString :=
  let flightplan := route.flightplan
  let rules : QString :=
    if flightplan.flightplanType = FlightplanType.IFR then "IFR ".toList
    else if flightplan.flightplanType = FlightplanType.VFR then "VFR ".toList
    else []
  let departure : Option QString :=
    if flightplan.departureAiportName = [] then
      (listAt flightplan.entries route.departureAirportLegIndex).map fun entry => entry.icaoIdent
    else
      some (flightplan.departureAiportName ++ " (".toList ++ flightplan.departureIdent
        ++ ")".toList)
  let destination : Option QString :=
    if flightplan.destinationAiportName = [] then
      (listAt flightplan.entries route.destinationAirportLegIndex).map fun entry =>
        entry.icaoIdent
    else
      some (flightplan.destinationAiportName ++ " (".toList ++ flightplan.destinationIdent
        ++ ")".toList)
  match departure, destination with
  | some departurePart, some destinationPart =>
    some (cleanFilename
      (rules ++ departurePart ++ " to ".toList ++ destinationPart ++ extension ++ suffix))
  | _, _ => none

/-- Embedding of `buildDefaultFilename`: `routeSaveShortName` is the option flag
`opts2::ROUTE_SAVE_SHORT_NAME`. -/
def buildDefaultFilename (routeSaveShortName : Bool) (route : Route)
    (sep suffix extension : QString) : Option QString :=
  if routeSaveShortName then buildDefaultFilenameShort route sep suffix
  else buildDefaultFilenameLong route extension suffix

/-! ## `RouteExport::routeValidate` (routeexport.cpp 835-905) -/

/-- The results of a question dialog that `routeValidate` tells apart,
`QMessageBox::StandardButton`; `Other` is any other value. -/
inductive StandardButton where
  | Cancel
  | Yes
  | YesToAll
  | Save
  | Other
  deriving DecidableEq, Repr

/-- What `routeValidate` asks the current route. -/
structure RouteValidity where
  hasValidDeparture : Bool
  hasValidDestination : Bool
  hasValidParking : Bool
  deriving DecidableEq, Repr

/-- What `routeValidate` does besides returning: the splash screen is removed, a
warning is put to the user through `showQuestionMsgBox`, a signal is emitted. -/
inductive ValidateEvent where
  | deleteSplashScreen
  | showRouteWarning
  | showParkingWarning
  | selectDepartureParking
  | showRect
  deriving DecidableEq, Repr

/-- Embedding of `routeValidate`; `result` is the value of `showQuestionMsgBox` when
it is called. A result that no branch returns on leads to the final `return true`. -/
def routeValidate (route : RouteValidity) (validateParking validateDepartureAndDestination : Bool)
    (result : StandardButton) : Bool × List ValidateEvent :=
  if !route.hasValidDeparture || !route.hasValidDestination then
    if validateDepartureAndDestination then
      if result = StandardButton.Save then
        (true, [ValidateEvent.deleteSplashScreen, ValidateEvent.showRouteWarning])
      else if result = StandardButton.Cancel then
        (false, [ValidateEvent.deleteSplashScreen, ValidateEvent.showRouteWarning])
      else (true, [ValidateEvent.deleteSplashScreen, ValidateEvent.showRouteWarning])
    else (true, [])
  else
    if validateParking then
      if !route.hasValidParking then
        if result = StandardButton.Yes then
          (true, [ValidateEvent.deleteSplashScreen, ValidateEvent.showParkingWarning,
            ValidateEvent.selectDepartureParking])
        else if result = StandardButton.YesToAll then
          (false, [ValidateEvent.deleteSplashScreen, ValidateEvent.showParkingWarning,
            ValidateEvent.showRect])
        else if result = StandardButton.Save then
          (true, [ValidateEvent.deleteSplashScreen, ValidateEvent.showParkingWarning])
        else if result = StandardButton.Cancel then
          (false, [ValidateEvent.deleteSplashScreen, ValidateEvent.showParkingWarning])
        else (true, [ValidateEvent.deleteSplashScreen, ValidateEvent.showParkingWarning])
      else (true, [])
    else (true, [])

/-- A warning dialog is put to the user. -/
def warningShown (events : List ValidateEvent) : Bool :=
  events.contains ValidateEvent.showRouteWarning
    || events.contains ValidateEvent.showParkingWarning

/-! ## The encoders and the current route of `NavApp` -/

/-- The encoders of `RouteExport`: `exportFlighplanAsGfp`, `exportFlighplanAsTxt`,
`exportFlighplanAsUFmc`, `exportFlighplanAsRxpGns`, `exportFlighplanAsRxpGtn`,
`exportFlighplanAsVfp` and `exportFlighplanAsIvap` with the export data they are
given, `exportFlighplan` (with a save function of `FlightplanIO`),
`exportFlighplanAsCorteIn`, `exportFlighplanAsProSim`, `exportFlightplanAsGpx`. -/
inductive Encoder where
  | Gfp
  | Txt
  | UFmc
  | RxpGns
  | RxpGtn
  | Vfp (exportData : RouteExportData)
  | Ivap (exportData : RouteExportData) (type : RouteExportType)
  | FlightplanIO
  | CorteIn
  | ProSim
  | Gpx
  deriving DecidableEq, Repr

/-- The export operations `routeExport...` that are called from the menu. -/
inductive ExportOperation where
  | RxpGns
  | RxpGtn
  | Gfp
  | Txt
  | Rte
  | Fpr
  | Fpl
  | CorteIn
  | Fltplan
  | XFmc
  | UFmc
  | ProSim
  | Bbs
  | FeelthereFpl
  | LeveldRte
  | Efbr
  | QwRte
  | Mdr
  | Tfdi
  | Vfp
  | XIvap
  | Ivap
  | Gpx
  | Html
  deriving DecidableEq, Repr

/-- What a save function of `FlightplanIO` does: it returns, it throws an
`atools::Exception`, or it throws something else. -/
inductive SaveResult where
  | saved
  | exception
  | unknownException
  deriving DecidableEq, Repr

/-- What an export operation finds around it: the state of the current route and the
answer to a validation warning, the option flag for short names, the current route,
the export data returned by the export dialog (`none` when the dialog is declined),
the path returned by the file dialog (empty when it is cancelled), the chosen file
as a text file and as a companyroutes.xml ledger, the behaviour of the save function
of `FlightplanIO`, and the route string and token list of `RouteStringWriter`. -/
structure ExportEnvironment where
  validity : RouteValidity
  answer : StandardButton
  routeSaveShortName : Bool
  route : Route
  dialogData : Option RouteExportData
  routeFile : QString
  textFile : TextFile
  proSimFiles : ProSimFiles
  save : SaveResult
  routeString : QString
  routeList : List QString

/-- What an export operation does that a caller can see. -/
inductive ExportEvent where
  | validate (event : ValidateEvent)
  | routeExportDialog
  | saveFileDialog
  | encoderCalled
  | errorHandler
  | setStatusMessage
  deriving DecidableEq, Repr

/-- The default file name handed to the file dialog. -/
inductive DefaultName where
  | short (sep suffix : QString)
  | shortOrLong (sep suffix : QString)
  | literal (name : QString)
  deriving DecidableEq, Repr

/-- Evaluation of the default file name; `none` when a leg index is outside of the
entry list. The parameter `extension` of `buildDefaultFilename` is left to its
default in both calls (routeexport.cpp 790, 815), taken as empty here. -/
def defaultFilename (env : ExportEnvironment) : DefaultName → Option QString
  | DefaultName.short sep suffix => buildDefaultFilenameShort env.route sep suffix
  | DefaultName.shortOrLong sep suffix =>
    buildDefaultFilename env.routeSaveShortName env.route sep suffix []
  | DefaultName.literal name => some name

/-- An encoder that opens the chosen file for writing and writes its text: `true`,
or the IO error is reported and the result is `false`. -/
def writingEncoder (env : ExportEnvironment) : List ExportEvent × Outcome :=
  if env.textFile.writable then ([ExportEvent.encoderCalled], Outcome.returned true)
  else ([ExportEvent.encoderCalled, ExportEvent.errorHandler], Outcome.returned false)

/-- An encoder that calls a save function of `FlightplanIO` in a `try` block: `true`,
or the exception is reported and the result is `false`. -/
def catchingEncoder (env : ExportEnvironment) : List ExportEvent × Outcome :=
  match env.save with
  | SaveResult.saved => ([ExportEvent.encoderCalled], Outcome.returned true)
  | SaveResult.exception =>
    ([ExportEvent.encoderCalled, ExportEvent.errorHandler], Outcome.returned false)
  | SaveResult.unknownException =>
    ([ExportEvent.encoderCalled, ExportEvent.errorHandler], Outcome.returned false)

/-- An encoder embedded above with its files: every `return false` of these encoders
follows a call of the error handler, which is called nowhere else. -/
def embeddedEncoder (outcome : Outcome) : List ExportEvent × Outcome :=
  if outcome = Outcome.returned false then
    ([ExportEvent.encoderCalled, ExportEvent.errorHandler], outcome)
  else ([ExportEvent.encoderCalled], outcome)

/-- An encoder called by an export operation. -/
def runEncoder (env : ExportEnvironment) : Encoder → List ExportEvent × Outcome
  | Encoder.Gfp => writingEncoder env
  | Encoder.Txt => writingEncoder env
  | Encoder.RxpGtn => writingEncoder env
  | Encoder.UFmc => embeddedEncoder (exportFlighplanAsUFmc env.textFile env.routeList).2
  | Encoder.RxpGns => catchingEncoder env
  | Encoder.FlightplanIO => catchingEncoder env
  | Encoder.Gpx => catchingEncoder env
  | Encoder.Vfp exportData =>
    embeddedEncoder (exportFlighplanAsVfp exportData env.textFile.writable).2
  | Encoder.Ivap exportData type =>
    embeddedEncoder (exportFlighplanAsIvap env.textFile exportData type).2
  | Encoder.CorteIn =>
    embeddedEncoder
      (exportFlighplanAsCorteIn env.textFile env.route.flightplan env.routeString).2
  | Encoder.ProSim =>
    embeddedEncoder (exportFlighplanAsProSim env.proSimFiles env.route env.routeString).2

/-- The end of an export operation: the status message is set and `true` returned
when the encoder has returned `true`; `false` is returned when it has returned
`false`; an exception that leaves the encoder leaves the operation. -/
def finishExport (events : List ExportEvent) (run : List ExportEvent × Outcome) :
    List ExportEvent × Outcome :=
  match run.2 with
  | Outcome.returned true =>
    (events ++ run.1 ++ [ExportEvent.setStatusMessage], Outcome.returned true)
  | Outcome.returned false => (events ++ run.1, Outcome.returned false)
  | outcome => (events ++ run.1, outcome)

/-- The file dialog and what follows it: the default name is evaluated, the dialog
is shown, and for a path that is not empty `encode` runs. -/
def exportToChosenFile (env : ExportEnvironment) (events : List ExportEvent)
    (name : DefaultName) (encode : List ExportEvent × Outcome) : List ExportEvent × Outcome :=
  match defaultFilename env name with
  | none => (events, Outcome.aborted)
  | some _ =>
    if env.routeFile ≠ [] then finishExport (events ++ [ExportEvent.saveFileDialog]) encode
    else (events ++ [ExportEvent.saveFileDialog], Outcome.returned false)

/-- An export operation of the common form: `routeValidate(false, ...)`, the file
dialog, the encoder, the status message. -/
def exportValidated (env : ExportEnvironment) (validateDepartureAndDestination : Bool)
    (name : DefaultName) (encode : List ExportEvent × Outcome) : List ExportEvent × Outcome :=
  match routeValidate env.validity false validateDepartureAndDestination env.answer with
  | (true, events) => exportToChosenFile env (events.map ExportEvent.validate) name encode
  | (false, events) => (events.map ExportEvent.validate, Outcome.returned false)

/-- An export operation with export data (`routeExportVfp`,
`routeExportIvapInternal`): validation, the export dialog, the file dialog, the
encoder with the data of the dialog, the status message. -/
def exportWithDialog (env : ExportEnvironment) (name : DefaultName)
    (encoder : RouteExportData → Encoder) : List ExportEvent × Outcome :=
  match routeValidate env.validity false true env.answer with
  | (true, events) =>
    match env.dialogData with
    | some data =>
      exportToChosenFile env (events.map ExportEvent.validate ++ [ExportEvent.routeExportDialog])
        name (runEncoder env (encoder data))
    | none =>
      (events.map ExportEvent.validate ++ [ExportEvent.routeExportDialog],
        Outcome.returned false)
  | (false, events) => (events.map ExportEvent.validate, Outcome.returned false)

/-- Embedding of the export operations. `routeExportTfdi` calls `saveTfdi` in its own
`try` block, `routeExportHtml` does not validate and opens the file itself. -/
def routeExport (env : ExportEnvironment) : ExportOperation → List ExportEvent × Outcome
  | ExportOperation.RxpGns =>
    exportValidated env true (DefaultName.short [] ".fpl".toList)
      (runEncoder env Encoder.RxpGns)
  | ExportOperation.RxpGtn =>
    exportValidated env true (DefaultName.short "_".toList ".gfp".toList)
      (runEncoder env Encoder.RxpGtn)
  | ExportOperation.Gfp =>
    exportValidated env true (DefaultName.short "-".toList ".gfp".toList)
      (runEncoder env Encoder.Gfp)
  | ExportOperation.Txt =>
    exportValidated env true (DefaultName.short [] ".txt".toList)
      (runEncoder env Encoder.Txt)
  | ExportOperation.Rte =>
    exportValidated env true (DefaultName.short [] ".rte".toList)
      (runEncoder env Encoder.FlightplanIO)
  | ExportOperation.Fpr =>
    exportValidated env true (DefaultName.short [] ".fpr".toList)
      (runEncoder env Encoder.FlightplanIO)
  | ExportOperation.Fpl =>
    exportValidated env true (DefaultName.short [] ".fpl".toList)
      (runEncoder env Encoder.Txt)
  | ExportOperation.CorteIn =>
    exportValidated env true (DefaultName.literal "corte.in".toList)
      (runEncoder env Encoder.CorteIn)
  | ExportOperation.Fltplan =>
    exportValidated env true (DefaultName.short [] ".fltplan".toList)
      (runEncoder env Encoder.FlightplanIO)
  | ExportOperation.XFmc =>
    exportValidated env true (DefaultName.short [] ".fpl".toList)
      (runEncoder env Encoder.Txt)
  | ExportOperation.UFmc =>
    exportValidated env true (DefaultName.short [] ".ufmc".toList)
      (runEncoder env Encoder.UFmc)
  | ExportOperation.ProSim =>
    exportValidated env true (DefaultName.literal "companyroutes.xml".toList)
      (runEncoder env Encoder.ProSim)
  | ExportOperation.Bbs =>
    exportValidated env true (DefaultName.short [] ".pln".toList)
      (runEncoder env Encoder.FlightplanIO)
  | ExportOperation.FeelthereFpl =>
    exportValidated env true (DefaultName.short "_".toList ".fpl".toList)
      (runEncoder env Encoder.FlightplanIO)
  | ExportOperation.LeveldRte =>
    exportValidated env true (DefaultName.short "_".toList ".rte".toList)
      (runEncoder env Encoder.FlightplanIO)
  | ExportOperation.Efbr =>
    exportValidated env true (DefaultName.short "_".toList ".efbr".toList)
      (runEncoder env Encoder.FlightplanIO)
  | ExportOperation.QwRte =>
    exportValidated env true (DefaultName.short [] ".rte".toList)
      (runEncoder env Encoder.FlightplanIO)
  | ExportOperation.Mdr =>
    exportValidated env true (DefaultName.short [] ".mdr".toList)
      (runEncoder env Encoder.FlightplanIO)
  | ExportOperation.Tfdi =>
    exportValidated env true (DefaultName.short [] ".xml".toList) (catchingEncoder env)
  | ExportOperation.Vfp =>
    exportWithDialog env (DefaultName.short [] ".vfp".toList) fun data => Encoder.Vfp data
  | ExportOperation.XIvap =>
    exportWithDialog env (DefaultName.short [] ".fpl".toList) fun data =>
      Encoder.Ivap data RouteExportType.XIVAP
  | ExportOperation.Ivap =>
    exportWithDialog env (DefaultName.short [] ".fpl".toList) fun data =>
      Encoder.Ivap data RouteExportType.IVAP
  | ExportOperation.Gpx =>
    exportValidated env false (DefaultName.shortOrLong [] ".gpx".toList)
      (runEncoder env Encoder.Gpx)
  | ExportOperation.Html =>
    exportToChosenFile env [] (DefaultName.shortOrLong [] ".html".toList)
      (if env.textFile.writable then ([ExportEvent.encoderCalled], Outcome.returned true)
       else ([ExportEvent.errorHandler], Outcome.returned false))

/-- The arguments of the call of `routeValidate` in an export operation; none for
`routeExportHtml`. -/
def operationValidation : ExportOperation → Option (Bool × Bool)
  | ExportOperation.Html => none
  | ExportOperation.Gpx => some (false, false)
  | _ => some (false, true)

/-- The export operations that show the export dialog. -/
def operationHasDialog : ExportOperation → Bool
  | ExportOperation.Vfp => true
  | ExportOperation.XIvap => true
  | ExportOperation.Ivap => true
  | _ => false

/-- What holds of an encoder run: it sets no status message, and it has called the
error handler only when it does not return `true`. -/
def EncoderRun (run : List ExportEvent × Outcome) : Prop :=
  ExportEvent.setStatusMessage ∉ run.1
    ∧ (ExportEvent.errorHandler ∈ run.1 → run.2 ≠ Outcome.returned true)

/-- The events before the encoder: no status message, no error handler, no encoder. -/
def BeforeEncoder (events : List ExportEvent) : Prop :=
  ExportEvent.setStatusMessage ∉ events ∧ ExportEvent.errorHandler ∉ events
    ∧ ExportEvent.encoderCalled ∉ events

/-- Status message exactly on `true`, and never together with the error handler. -/
def StatusOrError (run : List ExportEvent × Outcome) : Prop :=
  (ExportEvent.setStatusMessage ∈ run.1 ↔ run.2 = Outcome.returned true)
    ∧ ¬ (ExportEvent.setStatusMessage ∈ run.1 ∧ ExportEvent.errorHandler ∈ run.1)

/-- What is shown of every export operation: the status message exactly on `true`
and never with the error handler; no encoder and no status message after a failed
validation, a declined export dialog or an empty path. -/
def OperationContract (env : ExportEnvironment) (operation : ExportOperation) : Prop :=
  (ExportEvent.setStatusMessage ∈ (routeExport env operation).1
      ↔ (routeExport env operation).2 = Outcome.returned true)
    ∧ ¬ (ExportEvent.setStatusMessage ∈ (routeExport env operation).1
        ∧ ExportEvent.errorHandler ∈ (routeExport env operation).1)
    ∧ (∀ validateParking validateDepartureAndDestination,
        operationValidation operation
          = some (validateParking, validateDepartureAndDestination) →
        (routeValidate env.validity validateParking validateDepartureAndDestination
          env.answer).1 = false →
        ExportEvent.encoderCalled ∉ (routeExport env operation).1
          ∧ ExportEvent.setStatusMessage ∉ (routeExport env operation).1)
    ∧ (operationHasDialog operation = true → env.dialogData = none →
        ExportEvent.encoderCalled ∉ (routeExport env operation).1
          ∧ ExportEvent.setStatusMessage ∉ (routeExport env operation).1)
    ∧ (env.routeFile = [] →
        ExportEvent.encoderCalled ∉ (routeExport env operation).1
          ∧ ExportEvent.setStatusMessage ∉ (routeExport env operation).1)

/-! ## The document of `exportFlighplanAsVfp` -/

/-- The names of the elements that the writer calls start, in order. -/
def startedElements (calls : List WriterCall) : List QString :=
  calls.filterMap fun call =>
    match call with
    | WriterCall.writeStartElement name => some name
    | _ => none

/-- The attributes that the writer calls give to the element they are made in, as
pairs of name and value, in order. -/
def writtenAttributes (calls : List WriterCall) : List (QString × QString) :=
  calls.filterMap fun call =>
    match call with
    | WriterCall.writeAttribute name value => some (name, value)
    | _ => none

/-- The names of the attributes of the VFP root element. -/
def vfpAttributeNames : List QString :=
  ["xmlns:xsi", "xmlns:xsd", "FlightType", "Equipment", "CruiseAltitude", "CruiseSpeed",
   "DepartureAirport", "DestinationAirport", "AlternateAirport", "Route", "Remarks", "IsHeavy",
   "EquipmentPrefix", "EquipmentSuffix", "DepartureTime", "DepartureTimeAct", "EnrouteHours",
   "EnrouteMinutes", "FuelHours", "FuelMinutes", "VoiceType"].map String.toList

/-! ## The text of the key=value dialects -/

/-- The lines of a text in which every line is ended by a line feed: the fields
between the line feeds, without the empty field behind the last line feed. -/
def textLines (text : QString) : List QString :=
  (splitFields '\n' text []).dropLast

/-- The texts of an export data record that `exportFlighplanAsIvap` writes as
values. -/
def ivapTexts (exportData : RouteExportData) : List QString :=
  [exportData.callsign, exportData.livery, exportData.airline, exportData.pilotInCommand,
   exportData.alternate2, exportData.remarks, exportData.alternate, exportData.destination,
   exportData.route, exportData.departure, exportData.transponder, exportData.equipment,
   exportData.wakeCategory, exportData.aircraftType, exportData.flightType,
   exportData.flightRules]

/-! ## `RouteExport::createRouteExportData` (routeexport.cpp 715-764) and the state of the application -/

/-- What the member functions of `RouteExport` can read of the application at the
time of a call, through `NavApp`, `OptionData` and `RouteStringWriter`: the flight
plan of the current route, the route string of the current route with SID and STAR
(`createStringForRoute(route, 0.f, rs::SID_STAR)`), the route string of the route
adjusted by `routeAdjustedToProcedureOptions`, the cruise altitude in feet, the
idents of the alternates, the UTC time, the aircraft type and the cruise speed of the
performance data, the travel time in minutes (these numbers rounded by
`atools::roundToInt`), the options for saving approach and SID/STAR waypoints, and
the text codec of the locale (`QTextCodec::codecForLocale()`), taken as the bytes it
gives for a text. -/
structure Application where
  flightplan : Flightplan
  routeString : QString
  adjustedRouteString : QString
  cruisingAltitudeFeet : Int
  alternateIdents : List QString
  currentTimeUtc : QTime
  aircraftType : QString
  routeCruiseSpeedKts : Int
  travelTimeMinutes : Int
  saveApprWaypoints : Bool
  saveSidStarWaypoints : Bool
  localeCodec : QString → List Nat

/-- Embedding of `createRouteExportData`; `exportData` is the record as its
constructor leaves it. The fields are set from the current route, the clock, the
altitude legs and the performance data of the application. -/
def createRouteExportData (app : Application) (routeExportType : RouteExportType)
    (exportData : RouteExportData) : RouteExportData :=
  let exportData :=
    { exportData with
        route := app.routeString
        departure := app.flightplan.departureIdent
        destination := app.flightplan.destinationIdent
        departureTime := app.currentTimeUtc
        departureTimeActual := app.currentTimeUtc
        cruiseAltitude := app.cruisingAltitudeFeet }
  let exportData :=
    match app.alternateIdents with
    | [] => exportData
    | [first] => { exportData with alternate := first }
    | first :: second :: _ => { exportData with alternate := first, alternate2 := second }
  let exportData :=
    match routeExportType with
    | RouteExportType.UNKNOWN => exportData
    | RouteExportType.VFP =>
      { exportData with
          flightRules :=
            if app.flightplan.flightplanType = FlightplanType.IFR then "IFR".toList
            else "VFR".toList }
    | _ =>
      { exportData with
          flightRules :=
            if app.flightplan.flightplanType = FlightplanType.IFR then "I".toList
            else "V".toList }
  { exportData with
      aircraftType := app.aircraftType
      speed := app.routeCruiseSpeedKts
      enrouteMinutes := app.travelTimeMinutes
      enduranceMinutes := app.travelTimeMinutes + 60 }

/-- The bytes that a call of `exportFlighplanAsIvap` writes to the file while the
application is in the state `app`, `none` when it writes nothing. The text goes
through the `QTextStream` of line 1214, on which `setCodec` is not called (as it is
on the stream of `routeExportHtml`, line 824, and on the writer of
`exportFlighplanAsVfp`, line 1134): a `QTextStream` then encodes with the codec of
the locale. -/
def ivapBytes (app : Application) (file : TextFile) (exportData : RouteExportData)
    (type : RouteExportType) : Option (List Nat) :=
  match exportFlighplanAsIvap file exportData type with
  | (written, Outcome.returned true) => written.content.map app.localeCodec
  | _ => none

/-! ## Sample data -/

/-- A flight plan from EGLL to EHAM. -/
def planEgllEham : Flightplan :=
  ⟨[⟨"EGLL".toList⟩, ⟨"EHAM".toList⟩], "EGLL".toList, "EHAM".toList, [], [],
    FlightplanType.IFR⟩

/-- A flight plan from AAAA to BBBB. -/
def planAaaaBbbb : Flightplan :=
  ⟨[⟨"AAAA".toList⟩, ⟨"BBBB".toList⟩], "AAAA".toList, "BBBB".toList, [], [],
    FlightplanType.IFR⟩

/-- The current route of the samples: EGLL to EHAM. -/
def routeEgllEham : Route := ⟨planEgllEham, 0, 1⟩

/-- A ledger of two entries. -/
def ledgerTwo : List RouteEntry :=
  [("KDSMKOKC".toList, "KDSM DSM J25 TUL KOKC ".toList),
   ("EDDHEDDS".toList, "EDDH IDEKO Y900 TIMEN EDDS".toList)]

/-- The destination holds `ledgerTwo`, no backup exists. -/
def filesTwo : ProSimFiles := ⟨some (writeCompanyRoutes ledgerTwo), true, true, none, []⟩

/-- The files after EGLL to EHAM has been added to `filesTwo`. -/
def filesThree : ProSimFiles :=
  ⟨some (writeCompanyRoutes (ledgerTwo ++ [("EGLLEHAM".toList, "EGLL DCT EHAM".toList)])),
    true, true, some (writeCompanyRoutes ledgerTwo), []⟩

/-- The files after EGLL to EHAM has been added to `filesThree` once more. -/
def filesFour : ProSimFiles :=
  ⟨some (writeCompanyRoutes (ledgerTwo ++ [("EGLLEHAM".toList, "EGLL DCT EHAM".toList),
      ("EGLLEHAM01".toList, "EGLL X EHAM".toList)])),
    true, true,
    some (writeCompanyRoutes (ledgerTwo ++ [("EGLLEHAM".toList, "EGLL DCT EHAM".toList)])), []⟩

/-- A companyroutes.xml file that breaks off after its first route: the reader
delivers the tokens read so far and then reports the error. -/
def malformedLedger : List Token :=
  [Token.StartDocument, Token.StartElement "companyroutes".toList [],
   Token.Characters "\n  ".toList,
   Token.StartElement "route".toList [("name".toList, "KDSMKOKC".toList)],
   Token.Characters "KDSM DSM J25 TUL KOKC".toList, Token.EndElement "route".toList,
   Token.Invalid]

/-- A ledger in which all 99 candidate names for EGLL to EHAM are in use: EGLLEHAM,
EGLLEHAM01, ..., EGLLEHAM98. -/
def ledgerFull : List RouteEntry :=
  (List.range 99).map fun k => (proSimCandidate "EGLLEHAM".toList k, "EGLL EHAM".toList)

/-- Export data of a flight from LFKJ to LFBO: 53 minutes en route, endurance of 2
hours 44 minutes. -/
def sampleExportData : RouteExportData :=
  { callsign := "VPI333".toList, livery := [], airline := "VPI".toList,
    pilotInCommand := "NAME".toList, alternate := "LFMP".toList, alternate2 := "LFMT".toList,
    passengers := 83, enduranceMinutes := 164, enrouteMinutes := 53,
    remarks := "CREW OF 2".toList, departure := "LFKJ".toList, destination := "LFBO".toList,
    route := "TINOT UY268 DIVKO UM731 FJR".toList, cruiseAltitude := 33000, speed := 300,
    departureTime := some (21, 10), departureTimeActual := none, transponder := "S".toList,
    equipment := "SDFGW".toList, equipmentPrefix := [], equipmentSuffix := "L".toList,
    wakeCategory := "M".toList, aircraftType := "B733".toList, flightType := "N".toList,
    flightRules := "I".toList, voiceType := "Full".toList, heavy := false }

/-- A route whose departure and destination idents consist of characters that are
illegal in file names. -/
def routeIllegalIdents : Route :=
  ⟨⟨[⟨"/".toList⟩, ⟨":".toList⟩], "/".toList, ":".toList, [], [], FlightplanType.IFR⟩, 0, 1⟩

/-- An IFR route from Heathrow (EGLL) to EHAM, the destination without a name. -/
def routeHeathrow : Route :=
  ⟨⟨[⟨"EGLL".toList⟩, ⟨"EHAM".toList⟩], "EGLL".toList, "EHAM".toList, "Heathrow".toList, [],
    FlightplanType.IFR⟩, 0, 1⟩

/-- An environment in which everything succeeds: valid route from EGLL to EHAM, the
dialogs are confirmed, the file can be written. -/
def sampleEnvironment : ExportEnvironment :=
  { validity := ⟨true, true, true⟩, answer := StandardButton.Save, routeSaveShortName := true,
    route := routeEgllEham, dialogData := some sampleExportData,
    routeFile := "EGLLEHAM.ufmc".toList, textFile := ⟨none, true, true⟩,
    proSimFiles := filesTwo, save := SaveResult.saved,
    routeString := "EGLL DCT EHAM".toList, routeList := ["EGLL".toList, "EHAM".toList] }

/-- The environment of `sampleEnvironment` with a file that cannot be written. -/
def sampleEnvironmentReadOnly : ExportEnvironment :=
  { validity := ⟨true, true, true⟩, answer := StandardButton.Save, routeSaveShortName := true,
    route := routeEgllEham, dialogData := some sampleExportData,
    routeFile := "EGLLEHAM.ufmc".toList, textFile := ⟨none, true, false⟩,
    proSimFiles := filesTwo, save := SaveResult.saved,
    routeString := "EGLL DCT EHAM".toList, routeList := ["EGLL".toList, "EHAM".toList] }

/-- A flight plan from EGLL to the waypoint REDFA. -/
def planEgllRedfa : Flightplan :=
  ⟨[⟨"EGLL".toList⟩, ⟨"REDFA".toList⟩], "EGLL".toList, "REDFA".toList, [], [],
    FlightplanType.IFR⟩

/-- A flight plan from the radio beacon CH to the radio beacon BPK. -/
def planChBpk : Flightplan :=
  ⟨[⟨"CH".toList⟩, ⟨"BPK".toList⟩], "CH".toList, "BPK".toList, [], [], FlightplanType.VFR⟩

theorem argInt_two_digits : ∀ k : Nat, k < 100 →
    argInt (Int.ofNat k) 2 '0' = [digitChar (k / 10), digitChar (k % 10)] := by
  decide

/-! ## Durations -/

/-- C5: for every duration of `m` minutes with `0 ≤ m ≤ 5999`, `minToHourMinStr`
yields exactly the four decimal digits `HHMM`: `HH` is `m / 60` on two digits, `MM`
is `m % 60` (at most 59) on two digits. -/
theorem minToHourMinStr_hhmm (m : Nat) (hm : m ≤ 5999) :
    minToHourMinStr (Int.ofNat m) =
        [digitChar (m / 60 / 10), digitChar (m / 60 % 10),
         digitChar (m % 60 / 10), digitChar (m % 60 % 10)]
      ∧ (minToHourMinStr (Int.ofNat m)).length = 4
      ∧ m % 60 ≤ 59 := by
  have hh : m / 60 < 100 := by omega
  have hmin : m % 60 < 100 := by omega
  have e1 : Int.tdiv (Int.ofNat m) 60 = Int.ofNat (m / 60) := rfl
  have e2 : Int.ofNat m - Int.ofNat (m / 60) * 60 = Int.ofNat (m % 60) := by
    have := Nat.div_add_mod m 60
    simp only [Int.ofNat_eq_coe]
    omega
  have key : minToHourMinStr (Int.ofNat m) =
      [digitChar (m / 60 / 10), digitChar (m / 60 % 10),
       digitChar (m % 60 / 10), digitChar (m % 60 % 10)] := by
    unfold minToHourMinStr
    simp only [e1, e2, argInt_two_digits _ hh, argInt_two_digits _ hmin]
    rfl
  refine ⟨key, ?_, by omega⟩
  rw [key]
  rfl

/-- Witness for C5: 125 minutes give `0205` and 45 minutes give `0045`. -/
theorem minToHourMinStr_hhmm_witness :
    (125 ≤ 5999 ∧ minToHourMinStr (Int.ofNat 125) = "0205".toList)
      ∧ (45 ≤ 5999 ∧ minToHourMinStr (Int.ofNat 45) = "0045".toList) :=
  ⟨⟨by decide, (minToHourMinStr_hhmm 125 (by decide)).1.trans (by decide)⟩,
   ⟨by decide, (minToHourMinStr_hhmm 45 (by decide)).1.trans (by decide)⟩⟩


/-! ## Lemmas on the name loops -/

theorem corteInUniqueLoop_first_free (routeNames : List QString) (name : QString) :
    ∀ (d fuel j : Nat), j + d ≤ 98 → d ≤ fuel →
      (∀ m, j ≤ m → m < j + d → corteInCandidate name m ∈ routeNames) →
      corteInCandidate name (j + d) ∉ routeNames →
      corteInUniqueLoop routeNames fuel (corteInCandidate name j) (j + 1)
        = corteInCandidate name (j + d) := by
  intro d
  induction d with
  | zero =>
    intro fuel j _ _ _ hfree
    cases fuel with
    | zero => rfl
    | succ f =>
      simp only [Nat.add_zero] at hfree
      simp [corteInUniqueLoop, hfree]
  | succ d ih =>
    intro fuel j hj hfuel hused hfree
    cases fuel with
    | zero => omega
    | succ f =>
      have hmem : corteInCandidate name j ∈ routeNames := hused j (le_refl _) (by omega)
      have hlt : j + 1 < 99 := by omega
      have hstep : corteInNextName (corteInCandidate name j) (j + 1)
          = corteInCandidate name (j + 1) := rfl
      have hrec := ih f (j + 1) (by omega) (by omega)
        (fun m h1 h2 => hused m (by omega) (by omega))
        (by rw [show j + 1 + d = j + (d + 1) by omega]; exact hfree)
      rw [show j + (d + 1) = j + 1 + d by omega]
      rw [← hrec]
      simp [corteInUniqueLoop, hmem, hlt, hstep]

theorem corteInUniqueLoop_exhausted (routeNames : List QString) (name : QString) :
    ∀ (d fuel j : Nat), j + d = 98 → d < fuel →
      (∀ m, j ≤ m → m ≤ 98 → corteInCandidate name m ∈ routeNames) →
      corteInUniqueLoop routeNames fuel (corteInCandidate name j) (j + 1)
        = corteInCandidate name 98 := by
  intro d
  induction d with
  | zero =>
    intro fuel j hj hfuel _
    cases fuel with
    | zero => omega
    | succ f =>
      have : j = 98 := by omega
      subst this
      simp [corteInUniqueLoop]
  | succ d ih =>
    intro fuel j hj hfuel hused
    cases fuel with
    | zero => omega
    | succ f =>
      have hmem : corteInCandidate name j ∈ routeNames := hused j (le_refl _) (by omega)
      have hlt : j + 1 < 99 := by omega
      have hstep : corteInNextName (corteInCandidate name j) (j + 1)
          = corteInCandidate name (j + 1) := rfl
      have hrec := ih f (j + 1) (by omega) (by omega)
        (fun m h1 h2 => hused m (by omega) h2)
      rw [← hrec]
      simp [corteInUniqueLoop, hmem, hlt, hstep]

/-- The bound of the corte.in name loop is never used up: from counter `i` on, any
two bounds of at least `99 - i` passes give the same name. -/
theorem corteInUniqueLoop_fuel (routeNames : List QString) :
    ∀ (n f1 f2 i : Nat) (name : QString), 99 - i ≤ n → n ≤ f1 → n ≤ f2 →
      corteInUniqueLoop routeNames f1 name i = corteInUniqueLoop routeNames f2 name i := by
  intro n
  induction n with
  | zero =>
    intro f1 f2 i name hi _ _
    have h99 : ¬ i < 99 := by omega
    cases f1 <;> cases f2 <;> simp [corteInUniqueLoop, h99]
  | succ n ih =>
    intro f1 f2 i name hi h1 h2
    obtain ⟨g1, rfl⟩ : ∃ g, f1 = g + 1 := ⟨f1 - 1, by omega⟩
    obtain ⟨g2, rfl⟩ : ∃ g, f2 = g + 1 := ⟨f2 - 1, by omega⟩
    simp only [corteInUniqueLoop]
    rw [ih g1 g2 (i + 1) _ (by omega) (by omega) (by omega)]

/-- The bound of the companyroutes.xml name loop is never used up. -/
theorem proSimUniqueLoop_fuel (routeNames : List QString) (name : QString) :
    ∀ (n f1 f2 i : Nat) (newname : QString), 99 - i ≤ n → n ≤ f1 → n ≤ f2 →
      proSimUniqueLoop routeNames name f1 newname i
        = proSimUniqueLoop routeNames name f2 newname i := by
  intro n
  induction n with
  | zero =>
    intro f1 f2 i newname hi _ _
    have h99 : ¬ i < 99 := by omega
    cases f1 <;> cases f2 <;> simp [proSimUniqueLoop, h99]
  | succ n ih =>
    intro f1 f2 i newname hi h1 h2
    obtain ⟨g1, rfl⟩ : ∃ g, f1 = g + 1 := ⟨f1 - 1, by omega⟩
    obtain ⟨g2, rfl⟩ : ∃ g, f2 = g + 1 := ⟨f2 - 1, by omega⟩
    simp only [proSimUniqueLoop]
    rw [ih g1 g2 (i + 1) _ (by omega) (by omega) (by omega)]

/-- The corte.in name loop stops at the first candidate that is not in use. -/
theorem corteInUniqueName_first_free (routeNames : List QString) (name : QString)
    (h : ∃ k, k ≤ 98 ∧ corteInCandidate name k ∉ routeNames) :
    ∃ k, k ≤ 98 ∧ corteInUniqueName routeNames name = corteInCandidate name k
      ∧ corteInCandidate name k ∉ routeNames
      ∧ ∀ j, j < k → corteInCandidate name j ∈ routeNames := by
  classical
  let P : Nat → Prop := fun k => k ≤ 98 ∧ corteInCandidate name k ∉ routeNames
  have hex : ∃ k, P k := h
  have hk : P (Nat.find hex) := Nat.find_spec hex
  have hmin : ∀ j, j < Nat.find hex → corteInCandidate name j ∈ routeNames := by
    intro j hj
    by_contra hne
    exact Nat.find_min hex hj ⟨by have := hk.1; omega, hne⟩
  refine ⟨Nat.find hex, hk.1, ?_, hk.2, hmin⟩
  have := corteInUniqueLoop_first_free routeNames name (Nat.find hex) 99 0
    (by have := hk.1; omega) (by have := hk.1; omega)
    (fun m _ h2 => hmin m (by omega)) (by simpa using hk.2)
  simpa [corteInUniqueName, corteInCandidate] using this


theorem proSimUniqueLoop_first_free (routeNames : List QString) (name : QString) :
    ∀ (d fuel j : Nat), j + d ≤ 98 → d ≤ fuel →
      (∀ m, j ≤ m → m < j + d → proSimCandidate name m ∈ routeNames) →
      proSimCandidate name (j + d) ∉ routeNames →
      proSimUniqueLoop routeNames name fuel (proSimCandidate name j) (j + 1)
        = proSimCandidate name (j + d) := by
  intro d
  induction d with
  | zero =>
    intro fuel j _ _ _ hfree
    cases fuel with
    | zero => rfl
    | succ f =>
      simp only [Nat.add_zero] at hfree
      simp [proSimUniqueLoop, hfree]
  | succ d ih =>
    intro fuel j hj hfuel hused hfree
    cases fuel with
    | zero => omega
    | succ f =>
      have hmem : proSimCandidate name j ∈ routeNames := hused j (le_refl _) (by omega)
      have hlt : j + 1 < 99 := by omega
      have hstep : arg12 name (Int.ofNat (j + 1)) 2 '0' = proSimCandidate name (j + 1) := rfl
      have hrec := ih f (j + 1) (by omega) (by omega)
        (fun m h1 h2 => hused m (by omega) (by omega))
        (by rw [show j + 1 + d = j + (d + 1) by omega]; exact hfree)
      rw [show j + (d + 1) = j + 1 + d by omega]
      rw [← hrec]
      simp only [proSimUniqueLoop, hmem, hlt, hstep, and_self, if_true]

theorem proSimUniqueLoop_exhausted (routeNames : List QString) (name : QString) :
    ∀ (d fuel j : Nat), j + d = 98 → d < fuel →
      (∀ m, j ≤ m → m ≤ 98 → proSimCandidate name m ∈ routeNames) →
      proSimUniqueLoop routeNames name fuel (proSimCandidate name j) (j + 1)
        = proSimCandidate name 98 := by
  intro d
  induction d with
  | zero =>
    intro fuel j hj hfuel _
    cases fuel with
    | zero => omega
    | succ f =>
      have : j = 98 := by omega
      subst this
      simp [proSimUniqueLoop]
  | succ d ih =>
    intro fuel j hj hfuel hused
    cases fuel with
    | zero => omega
    | succ f =>
      have hmem : proSimCandidate name j ∈ routeNames := hused j (le_refl _) (by omega)
      have hlt : j + 1 < 99 := by omega
      have hstep : arg12 name (Int.ofNat (j + 1)) 2 '0' = proSimCandidate name (j + 1) := rfl
      have hrec := ih f (j + 1) (by omega) (by omega)
        (fun m h1 h2 => hused m (by omega) h2)
      rw [← hrec]
      simp only [proSimUniqueLoop, hmem, hlt, hstep, and_self, if_true]

/-- The companyroutes.xml name loop stops at the first candidate that is not in use. -/
theorem proSimUniqueName_first_free (routeNames : List QString) (name : QString)
    (h : ∃ k, k ≤ 98 ∧ proSimCandidate name k ∉ routeNames) :
    ∃ k, k ≤ 98 ∧ proSimUniqueName routeNames name = proSimCandidate name k
      ∧ proSimCandidate name k ∉ routeNames
      ∧ ∀ j, j < k → proSimCandidate name j ∈ routeNames := by
  classical
  let P : Nat → Prop := fun k => k ≤ 98 ∧ proSimCandidate name k ∉ routeNames
  have hex : ∃ k, P k := h
  have hk : P (Nat.find hex) := Nat.find_spec hex
  have hmin : ∀ j, j < Nat.find hex → proSimCandidate name j ∈ routeNames := by
    intro j hj
    by_contra hne
    exact Nat.find_min hex hj ⟨by have := hk.1; omega, hne⟩
  refine ⟨Nat.find hex, hk.1, ?_, hk.2, hmin⟩
  have := proSimUniqueLoop_first_free routeNames name (Nat.find hex) 99 0
    (by have := hk.1; omega) (by have := hk.1; omega)
    (fun m _ h2 => hmin m (by omega)) (by simpa using hk.2)
  simpa [proSimUniqueName, proSimCandidate] using this

/-- When all 99 candidates are in use the companyroutes.xml loop gives up with the
candidate of counter 98. -/
theorem proSimUniqueName_exhausted (routeNames : List QString) (name : QString)
    (h : ∀ m, m ≤ 98 → proSimCandidate name m ∈ routeNames) :
    proSimUniqueName routeNames name = proSimCandidate name 98 := by
  have := proSimUniqueLoop_exhausted routeNames name 98 99 0 (by omega) (by omega)
    (fun m _ h2 => h m h2)
  simpa [proSimUniqueName, proSimCandidate] using this

/-- When all 99 candidates are in use the corte.in loop gives up with the candidate of
counter 98. -/
theorem corteInUniqueName_exhausted (routeNames : List QString) (name : QString)
    (h : ∀ m, m ≤ 98 → corteInCandidate name m ∈ routeNames) :
    corteInUniqueName routeNames name = corteInCandidate name 98 := by
  have := corteInUniqueLoop_exhausted routeNames name 98 99 0 (by omega) (by omega)
    (fun m _ h2 => h m h2)
  simpa [corteInUniqueName, corteInCandidate] using this

/-! ## What the corte.in read loop extracts -/

theorem isSpace_toUpper (c : Char) : isSpace c.toUpper = isSpace c := by
  have hupper : ∀ n, n < 123 → 97 ≤ n → isSpace (Char.ofNat (n - 32)) = false := by decide
  by_cases h : c.toNat ≥ 97 ∧ c.toNat ≤ 122
  · have h1 : isSpace c.toUpper = false := by
      simp only [Char.toUpper, h, and_self, if_true]
      exact hupper c.toNat (by omega) h.1
    have h2 : isSpace c = false := by
      cases hc : isSpace c with
      | false => rfl
      | true =>
        exfalso
        simp only [isSpace, Bool.or_eq_true, decide_eq_true_eq] at hc
        rcases hc with ((((hc | hc) | hc) | hc) | hc) | hc <;> (subst hc; revert h; decide)
    rw [h1, h2]
  · simp only [Char.toUpper, h, if_false]

theorem splitWords_toUpper (s : QString) :
    ∀ cur, splitWords (toUpper s) (toUpper cur) = (splitWords s cur).map toUpper := by
  induction s with
  | nil =>
    intro cur
    cases cur <;> simp [splitWords, toUpper]
  | cons c cs ih =>
    intro cur
    have hnil : toUpper ([] : QString) = [] := rfl
    have hcur : (toUpper cur = []) ↔ (cur = []) := by
      cases cur <;> simp [toUpper]
    have hsnoc : toUpper cur ++ [c.toUpper] = toUpper (cur ++ [c]) := by simp [toUpper]
    have hcons : toUpper (c :: cs) = c.toUpper :: toUpper cs := rfl
    rw [hcons]
    simp only [splitWords, isSpace_toUpper]
    by_cases hsp : isSpace c = true
    · by_cases hc : cur = []
      · subst hc
        simp only [hsp, if_true, hnil]
        exact ih []
      · have hc2 : ¬ toUpper cur = [] := fun h => hc (hcur.mp h)
        simp only [hsp, if_true, hc, hc2, if_false, List.map_cons]
        rw [← ih [], hnil]
    · simp only [hsp, Bool.false_eq_true, if_false]
      rw [hsnoc]
      exact ih _

theorem splitWords_words (s : QString) :
    ∀ cur, (∀ c ∈ cur, isSpace c = false) → ∀ w ∈ splitWords s cur, IsWord w := by
  induction s with
  | nil =>
    intro cur hcur w hw
    by_cases hc : cur = []
    · simp [splitWords, hc] at hw
    · simp only [splitWords, hc, if_false, List.mem_singleton] at hw
      subst hw
      exact ⟨hc, hcur⟩
  | cons c cs ih =>
    intro cur hcur w hw
    simp only [splitWords] at hw
    by_cases hsp : isSpace c = true
    · by_cases hc : cur = []
      · simp only [hsp, if_true, hc] at hw
        exact ih [] (by simp) w hw
      · simp only [hsp, if_true, hc, if_false, List.mem_cons] at hw
        rcases hw with hw | hw
        · subst hw
          exact ⟨hc, hcur⟩
        · exact ih [] (by simp) w hw
    · simp only [hsp, Bool.false_eq_true, if_false] at hw
      refine ih (cur ++ [c]) ?_ w hw
      intro d hd
      rw [List.mem_append, List.mem_singleton] at hd
      rcases hd with hd | hd
      · exact hcur d hd
      · subst hd
        simpa using hsp

theorem splitFields_word (rest : QString) :
    ∀ (w cur : QString), (∀ c ∈ w, c ≠ ' ') →
      splitFields ' ' (w ++ rest) cur = splitFields ' ' rest (cur ++ w) := by
  intro w
  induction w with
  | nil => intro cur _; simp
  | cons c cs ih =>
    intro cur hw
    have hc : c ≠ ' ' := hw c (List.mem_cons_self _ _)
    simp only [List.cons_append, splitFields, hc, if_false, List.append_eq]
    rw [ih (cur ++ [c]) (fun d hd => hw d (List.mem_cons_of_mem _ hd))]
    simp

theorem splitFields_intercalate :
    ∀ (words : List QString) (w : QString), (∀ v ∈ w :: words, ∀ c ∈ v, c ≠ ' ') →
      splitFields ' ' ([' '].intercalate (w :: words)) [] = w :: words := by
  intro words
  induction words with
  | nil =>
    intro w hw
    have := splitFields_word [] w [] (hw w (List.mem_cons_self _ _))
    simpa [List.intercalate, splitFields] using this
  | cons v vs ih =>
    intro w hw
    have hstep := splitFields_word (' ' :: [' '].intercalate (v :: vs)) w []
      (hw w (List.mem_cons_self _ _))
    have hrec := ih v (fun u hu => hw u (List.mem_cons_of_mem _ hu))
    have hform : [' '].intercalate (w :: v :: vs)
        = w ++ (' ' :: [' '].intercalate (v :: vs)) := by
      simp [List.intercalate, List.intersperse]
    rw [hform, hstep]
    simp only [List.nil_append, splitFields, if_true]
    rw [hrec]


theorem intercalate_ne_nil (w : QString) (words : List QString) (hw : w ≠ []) :
    [' '].intercalate (w :: words) ≠ [] := by
  cases words with
  | nil => simpa [List.intercalate] using hw
  | cons v vs =>
    cases w with
    | nil => exact absurd rfl hw
    | cons c cs => simp [List.intercalate, List.intersperse]

theorem sectionOf_simplified_line (raw : QString) :
    (let line := simplified (toUpper raw)
     if line = [] then none else some (sectionOf line ' ' 1 1)) = upperLineName raw := by
  have hup := splitWords_toUpper raw []
  have hnil : toUpper ([] : QString) = [] := rfl
  rw [hnil] at hup
  have hwords := splitWords_words (toUpper raw) [] (by simp)
  simp only [simplified, upperLineName]
  cases hs : splitWords raw [] with
  | nil =>
    rw [hs] at hup
    simp [hup, List.intercalate]
  | cons w words =>
    rw [hs] at hup
    rw [hup] at hwords ⊢
    have hnospace : ∀ v ∈ toUpper w :: words.map toUpper, ∀ c ∈ v, c ≠ ' ' := by
      intro v hv c hc hspace
      have := (hwords v (by simpa using hv)).2 c hc
      subst hspace
      exact absurd this (by decide)
    have hne : [' '].intercalate (toUpper w :: words.map toUpper) ≠ [] :=
      intercalate_ne_nil _ _ (hwords (toUpper w) (by simp)).1
    simp only [List.map_cons, hne, if_false, sectionOf,
      splitFields_intercalate (words.map toUpper) (toUpper w) hnospace]
    cases words with
    | nil => simp [List.intercalate, toUpper]
    | cons v vs => simp [List.intercalate, List.intersperse]

/-- The names taken by the read loop of the corte.in appender are, line by line, the
upper-cased second tokens (the empty name for a line of one token). -/
theorem corteInRouteNames_eq (content : QString) :
    corteInRouteNames content = (readLines content []).filterMap upperLineName := by
  unfold corteInRouteNames
  congr 1
  funext raw
  exact sectionOf_simplified_line raw

/-- A name in upper case that the read loop has not extracted is not the second
token of any line. -/
theorem not_mem_existingLineNames (content name : QString) (hupper : toUpper name = name)
    (h : name ∉ corteInRouteNames content) : name ∉ existingLineNames content := by
  intro hmem
  apply h
  rw [corteInRouteNames_eq]
  simp only [existingLineNames, List.mem_filterMap] at hmem ⊢
  obtain ⟨raw, hraw, hname⟩ := hmem
  refine ⟨raw, hraw, ?_⟩
  simp only [lineName, upperLineName] at hname ⊢
  cases hs : splitWords raw [] with
  | nil => simp [hs] at hname
  | cons w words =>
    rw [hs] at hname
    cases words with
    | nil => simp at hname
    | cons v vs =>
      simp only [List.get?_cons_succ, List.get?_cons_zero, Option.some.injEq] at hname
      subst hname
      simp [hupper]


/-! ## Reading a corte.in file again after the append -/

theorem readLines_append_newline (b : QString) :
    ∀ (a cur : QString),
      readLines (a ++ '\n' :: b) cur = readLines (a ++ ['\n']) cur ++ readLines b [] := by
  intro a
  induction a with
  | nil => intro cur; simp [readLines]
  | cons c cs ih =>
    intro cur
    by_cases hc : c = '\n'
    · subst hc
      simp only [List.cons_append, readLines, if_true, List.append_eq]
      rw [ih []]
    · simp only [List.cons_append, readLines, hc, if_false, List.append_eq]
      exact ih _

theorem readLines_single_line :
    ∀ (s cur : QString), '\n' ∉ s →
      readLines s cur = if cur ++ s = [] then [] else [cur ++ s] := by
  intro s
  induction s with
  | nil => intro cur _; simp [readLines]
  | cons c cs ih =>
    intro cur hs
    have hc : c ≠ '\n' := fun h => hs (by simp [h])
    have hcs : '\n' ∉ cs := fun h => hs (List.mem_cons_of_mem _ h)
    simp only [readLines, hc, if_false]
    rw [ih (cur ++ [c]) hcs]
    simp

theorem splitWords_append_space (c : Char) (hc : isSpace c = true) :
    ∀ (s cur : QString), splitWords (s ++ [c]) cur = splitWords s cur := by
  intro s
  induction s with
  | nil =>
    intro cur
    by_cases h : cur = [] <;> simp [splitWords, hc, h]
  | cons d ds ih =>
    intro cur
    simp only [List.cons_append, splitWords]
    by_cases hd : isSpace d = true
    · by_cases h : cur = [] <;> simp [hd, h, ih]
    · simp [hd, ih]

theorem upperLineName_append_newline (line : QString) :
    upperLineName (line ++ ['\n']) = upperLineName line := by
  simp only [upperLineName, splitWords_append_space '\n' (by decide)]

theorem upperLineName_newline : upperLineName ['\n'] = none := by decide

/-- A line break added at the end of a file adds no name. -/
theorem filterMap_readLines_append_newline :
    ∀ (s cur : QString),
      (readLines (s ++ ['\n']) cur).filterMap upperLineName
        = (readLines s cur).filterMap upperLineName := by
  intro s
  induction s with
  | nil =>
    intro cur
    by_cases h : cur = []
    · subst h
      simp [readLines, upperLineName_newline]
    · simp only [List.nil_append, readLines, if_true, h, if_false, List.filterMap_cons,
        upperLineName_append_newline]
  | cons c cs ih =>
    intro cur
    by_cases hc : c = '\n'
    · subst hc
      simp only [List.cons_append, readLines, if_true, List.filterMap_cons, List.append_eq]
      rw [ih []]
    · simp only [List.cons_append, readLines, hc, if_false, List.append_eq]
      exact ih _

theorem splitWords_word_space (rest : QString) (c : Char) (hc : isSpace c = true) :
    ∀ (w cur : QString), (∀ d ∈ w, isSpace d = false) → cur ++ w ≠ [] →
      splitWords (w ++ c :: rest) cur = (cur ++ w) :: splitWords rest [] := by
  intro w
  induction w with
  | nil =>
    intro cur _ hne
    have h : cur ≠ [] := by simpa using hne
    simp [splitWords, hc, h]
  | cons d ds ih =>
    intro cur hw hne
    have hd : isSpace d = false := hw d (List.mem_cons_self _ _)
    simp only [List.cons_append, splitWords, hd, Bool.false_eq_true, if_false, List.append_eq]
    rw [ih (cur ++ [d]) (fun e he => hw e (List.mem_cons_of_mem _ he)) (by simp)]
    simp

/-- The read loop takes the upper-cased name from a record line. -/
theorem upperLineName_corteInRecord (name txt : QString) (hname : IsWord name) :
    upperLineName (corteInRecord name txt) = some (toUpper name) := by
  have h1 := splitWords_word_space (name ++ ' ' :: txt) ' ' (by decide) "RTE".toList []
    (by decide) (by decide)
  have h2 := splitWords_word_space txt ' ' (by decide) name [] hname.2
    (by simpa using hname.1)
  have hform : corteInRecord name txt = "RTE".toList ++ ' ' :: (name ++ ' ' :: txt) := by
    simp [corteInRecord]
  simp only [upperLineName, hform, h1, h2, List.nil_append]
  rfl

/-- The names the read loop takes from the file after the append: those of the file
before, followed by the upper-cased new name. -/
theorem corteInRouteNames_append (content name txt : QString) (hname : IsWord name)
    (htxt : '\n' ∉ txt) (hcr : content.getLast? ≠ some '\r') :
    corteInRouteNames
        (content ++ (if fileEndsWithEol content then [] else ['\n']) ++ corteInRecord name txt)
      = corteInRouteNames content ++ [toUpper name] := by
  have hrecord : '\n' ∉ corteInRecord name txt := by
    intro h
    simp only [corteInRecord, List.mem_append] at h
    rcases h with ((h | h) | h) | h
    · exact absurd h (by decide)
    · have := hname.2 _ h
      exact absurd this (by decide)
    · exact absurd h (by decide)
    · exact htxt h
  have hne : corteInRecord name txt ≠ [] := by simp [corteInRecord]
  have hlines : readLines (corteInRecord name txt) [] = [corteInRecord name txt] := by
    rw [readLines_single_line _ _ hrecord]
    simp [hne]
  rw [corteInRouteNames_eq, corteInRouteNames_eq]
  by_cases hend : fileEndsWithEol content = true
  · -- the file ends with a line break, which is not a carriage return
    obtain ⟨a, ha⟩ : ∃ a, content = a ++ ['\n'] := by
      rcases List.eq_nil_or_concat content with h | ⟨a, c, h⟩
      · subst h
        simp [fileEndsWithEol] at hend
      · subst h
        refine ⟨a, ?_⟩
        have hlast : (a.concat c).getLast? = some c := by simp
        rw [hlast] at hcr
        simp only [fileEndsWithEol, hlast, Bool.or_eq_true, decide_eq_true_eq] at hend
        rcases hend with h | h
        · rw [h]
          simp
        · exact absurd (by rw [h]) hcr
    simp only [hend, if_true, List.append_nil]
    rw [ha, List.append_assoc, List.singleton_append, readLines_append_newline, hlines,
      List.filterMap_append]
    simp [upperLineName_corteInRecord name txt hname]
  · simp only [hend, Bool.false_eq_true, if_false]
    rw [List.append_assoc, List.singleton_append, readLines_append_newline, hlines,
      List.filterMap_append, filterMap_readLines_append_newline]
    simp [upperLineName_corteInRecord name txt hname]


/-! ## Shape of the corte.in candidates -/

theorem digits_of_number : ∀ i, i < 100 →
    ∀ c ∈ number (Int.ofNat i), c ∈ "0123456789".toList := by
  decide

theorem number_ne_nil : ∀ i, i < 100 → number (Int.ofNat i) ≠ [] := by
  decide

theorem digit_plain : ∀ c ∈ "0123456789".toList, isSpace c = false ∧ c.toUpper = c := by
  decide

theorem argInt_digits (i : Nat) (hi : i < 100) (width : Nat) :
    argInt (Int.ofNat i) width '0' ≠ []
      ∧ ∀ c ∈ argInt (Int.ofNat i) width '0', isSpace c = false ∧ c.toUpper = c := by
  constructor
  · intro h
    exact number_ne_nil i hi (List.append_eq_nil.mp h).2
  · intro c hc
    simp only [argInt, List.mem_append, List.mem_replicate] at hc
    rcases hc with hc | hc
    · rw [hc.2]
      decide
    · exact digit_plain c (digits_of_number i hi c hc)

theorem toUpper_eq_iff (w : QString) : toUpper w = w ↔ ∀ c ∈ w, c.toUpper = c := by
  induction w with
  | nil => simp [toUpper]
  | cons c cs ih =>
    simp only [toUpper, List.map_cons, List.cons.injEq, List.mem_cons, forall_eq_or_imp] at ih ⊢
    rw [ih]

theorem corteInNextName_upperWord (name : QString) (i : Nat) (hi : i < 100)
    (hname : IsUpperWord name) : IsUpperWord (corteInNextName name i) := by
  obtain ⟨hdigits_ne, hdigits⟩ := argInt_digits i hi (8 - (left name 6).length)
  have hup := (toUpper_eq_iff name).mp hname.2
  refine ⟨⟨?_, ?_⟩, (toUpper_eq_iff _).mpr ?_⟩
  · simp only [corteInNextName, arg12]
    intro h
    exact hdigits_ne (List.append_eq_nil.mp h).2
  · intro c hc
    simp only [corteInNextName, arg12, List.mem_append] at hc
    rcases hc with hc | hc
    · exact hname.1.2 c (List.mem_of_mem_take hc)
    · exact (hdigits c hc).1
  · intro c hc
    simp only [corteInNextName, arg12, List.mem_append] at hc
    rcases hc with hc | hc
    · exact hup c (List.mem_of_mem_take hc)
    · exact (hdigits c hc).2

/-- Every candidate for an upper case, one word base name is an upper case word. -/
theorem corteInCandidate_upperWord (name : QString) (hname : IsUpperWord name) :
    ∀ k, k ≤ 98 → IsUpperWord (corteInCandidate name k) := by
  intro k
  induction k with
  | zero => intro _; exact hname
  | succ k ih =>
    intro hk
    exact corteInNextName_upperWord _ (k + 1) (by omega) (ih (by omega))

/-! ## corte.in: the name of the appended record -/

/-- C1 (as amended): for every readable, writable corte.in file and every ident pair
such that one of the 99 candidates (base name, then counters 1..98) is not among the
names which the read loop extracts (field 1 of every upper-cased, simplified
non-blank line), `exportFlighplanAsCorteIn` succeeds and appends the record of the
first such candidate: that name is not among the extracted names and all earlier
candidates are. When the name has no lower case letter, it is not the second
whitespace-separated token of any existing line. -/
theorem exportFlighplanAsCorteIn_unique_name (file : TextFile) (content : QString)
    (flightplan : Flightplan) (txt : QString)
    (hc : file.content = some content) (hr : file.readable = true)
    (hw : file.writable = true)
    (hfree : ∃ k, k ≤ 98 ∧
      corteInCandidate (flightplan.departureIdent ++ flightplan.destinationIdent) k
        ∉ corteInRouteNames content) :
    ∃ k, k ≤ 98 ∧
      exportFlighplanAsCorteIn file flightplan txt =
        (file.write (content ++ (if fileEndsWithEol content then [] else ['\n']) ++
          corteInRecord
            (corteInCandidate (flightplan.departureIdent ++ flightplan.destinationIdent) k)
            txt),
         Outcome.returned true)
      ∧ corteInCandidate (flightplan.departureIdent ++ flightplan.destinationIdent) k
          ∉ corteInRouteNames content
      ∧ (∀ j, j < k →
          corteInCandidate (flightplan.departureIdent ++ flightplan.destinationIdent) j
            ∈ corteInRouteNames content)
      ∧ (toUpper (corteInCandidate (flightplan.departureIdent ++ flightplan.destinationIdent) k)
            = corteInCandidate (flightplan.departureIdent ++ flightplan.destinationIdent) k →
          corteInCandidate (flightplan.departureIdent ++ flightplan.destinationIdent) k
            ∉ existingLineNames content) := by
  obtain ⟨k, hk, hname, hnot, hmin⟩ := corteInUniqueName_first_free _ _ hfree
  refine ⟨k, hk, ?_, hnot, hmin, fun hupper => not_mem_existingLineNames _ _ hupper hnot⟩
  simp only [exportFlighplanAsCorteIn, hc, hr, hw, hname, if_true]

/-- Witness for C1: with the existing names AAAABBBB and AAAABBBB1 the base name
AAAABBBB is taken and the record is appended under the first free candidate. -/
theorem exportFlighplanAsCorteIn_unique_name_witness :
    exportFlighplanAsCorteIn
        ⟨some "RTE AAAABBBB AAAA DCT BBBB\nRTE AAAABBBB1 AAAA X BBBB\n".toList, true, true⟩
        planAaaaBbbb "AAAA Y BBBB".toList =
      (⟨some ("RTE AAAABBBB AAAA DCT BBBB\nRTE AAAABBBB1 AAAA X BBBB\n"
          ++ "RTE AAAABB01 AAAA Y BBBB").toList, true, true⟩, Outcome.returned true)
    ∧ ∃ k, k ≤ 98 ∧
      exportFlighplanAsCorteIn
          ⟨some "RTE AAAABBBB AAAA DCT BBBB\nRTE AAAABBBB1 AAAA X BBBB\n".toList, true, true⟩
          planAaaaBbbb "AAAA Y BBBB".toList =
        ((⟨some "RTE AAAABBBB AAAA DCT BBBB\nRTE AAAABBBB1 AAAA X BBBB\n".toList, true, true⟩ :
            TextFile).write
          ("RTE AAAABBBB AAAA DCT BBBB\nRTE AAAABBBB1 AAAA X BBBB\n".toList ++
            (if fileEndsWithEol "RTE AAAABBBB AAAA DCT BBBB\nRTE AAAABBBB1 AAAA X BBBB\n".toList
              then [] else ['\n']) ++
            corteInRecord
              (corteInCandidate (planAaaaBbbb.departureIdent ++ planAaaaBbbb.destinationIdent) k)
              "AAAA Y BBBB".toList),
         Outcome.returned true)
      ∧ corteInCandidate (planAaaaBbbb.departureIdent ++ planAaaaBbbb.destinationIdent) k
          ∉ corteInRouteNames "RTE AAAABBBB AAAA DCT BBBB\nRTE AAAABBBB1 AAAA X BBBB\n".toList
      ∧ (∀ j, j < k →
          corteInCandidate (planAaaaBbbb.departureIdent ++ planAaaaBbbb.destinationIdent) j
            ∈ corteInRouteNames "RTE AAAABBBB AAAA DCT BBBB\nRTE AAAABBBB1 AAAA X BBBB\n".toList)
      ∧ (toUpper (corteInCandidate (planAaaaBbbb.departureIdent ++ planAaaaBbbb.destinationIdent) k)
            = corteInCandidate (planAaaaBbbb.departureIdent ++ planAaaaBbbb.destinationIdent) k →
          corteInCandidate (planAaaaBbbb.departureIdent ++ planAaaaBbbb.destinationIdent) k
            ∉ existingLineNames
                "RTE AAAABBBB AAAA DCT BBBB\nRTE AAAABBBB1 AAAA X BBBB\n".toList) :=
  ⟨by decide,
    exportFlighplanAsCorteIn_unique_name _ _ planAaaaBbbb "AAAA Y BBBB".toList rfl rfl rfl
      ⟨1, by decide, by decide⟩⟩

/-- Counterexample for C1 as stated: the file holds the single line
`rte eglleham x`, whose second token is `eglleham`. The base name `EGLLEHAM` of a
plan from EGLL to EHAM is not the second token of any existing line, yet the
record is appended under `EGLLEH01`, not under the first free candidate. -/
theorem exportFlighplanAsCorteIn_first_free_counterexample :
    corteInCandidate "EGLLEHAM".toList 0 ∉ existingLineNames "rte eglleham x\n".toList
      ∧ exportFlighplanAsCorteIn ⟨some "rte eglleham x\n".toList, true, true⟩ planEgllEham
          "EGLL DCT EHAM".toList =
        (⟨some "rte eglleham x\nRTE EGLLEH01 EGLL DCT EHAM".toList, true, true⟩,
          Outcome.returned true)
      ∧ "EGLLEH01".toList ≠ corteInCandidate "EGLLEHAM".toList 0 := by
  decide


/-! ## Lemmas on the XML reader loop -/

theorem readElementText_pending_length (tokens : List Token) :
    ∀ result, (readElementText tokens result).2.pending.length ≤ tokens.length := by
  induction tokens with
  | nil => intro result; simp [readElementText]
  | cons token rest ih =>
    intro result
    cases token <;> simp [readElementText] <;> exact Nat.le_succ_of_le (ih _)

theorem readRoutesLoop_fuel :
    ∀ (n f1 f2 : Nat) (reader : QXmlStreamReader) (routes : List RouteEntry),
      reader.pending.length ≤ n → n < f1 → n < f2 →
      readRoutesLoop f1 reader routes = readRoutesLoop f2 reader routes := by
  intro n
  induction n with
  | zero =>
    intro f1 f2 reader routes hlen h1 h2
    obtain ⟨pending, error⟩ := reader
    have hp : pending = [] := List.length_eq_zero.mp (Nat.le_zero.mp hlen)
    subst hp
    cases f1 with
    | zero => omega
    | succ f1 =>
      cases f2 with
      | zero => omega
      | succ f2 => simp [readRoutesLoop, QXmlStreamReader.atEnd]
  | succ n ih =>
    intro f1 f2 reader routes hlen h1 h2
    obtain ⟨pending, error⟩ := reader
    cases f1 with
    | zero => omega
    | succ f1 =>
      cases f2 with
      | zero => omega
      | succ f2 =>
        cases error with
        | true => simp [readRoutesLoop, QXmlStreamReader.atEnd]
        | false =>
          cases pending with
          | nil => simp [readRoutesLoop, QXmlStreamReader.atEnd]
          | cons token rest =>
            have hrest : rest.length ≤ n := by simpa using hlen
            have hf1 : n < f1 := by omega
            have hf2 : n < f2 := by omega
            cases token with
            | StartElement elementName attributes =>
              by_cases hroute : elementName = "route".toList
              · have hlen2 := readElementText_pending_length rest []
                simp only [readRoutesLoop, QXmlStreamReader.atEnd, QXmlStreamReader.readNext,
                  hroute, List.isEmpty_cons, Bool.or_self, Bool.false_eq_true, if_false, if_true]
                exact ih f1 f2 _ _ (le_trans hlen2 hrest) hf1 hf2
              · simp only [readRoutesLoop, QXmlStreamReader.atEnd, QXmlStreamReader.readNext,
                  hroute, List.isEmpty_cons, Bool.or_self, Bool.false_eq_true, if_false]
                exact ih f1 f2 _ _ hrest hf1 hf2
            | Invalid =>
              simp only [readRoutesLoop, QXmlStreamReader.atEnd, QXmlStreamReader.readNext,
                List.isEmpty_cons, Bool.or_self, Bool.false_eq_true, if_false]
              exact ih f1 f2 _ _ (by simp) hf1 hf2
            | _ =>
              simp only [readRoutesLoop, QXmlStreamReader.atEnd, QXmlStreamReader.readNext,
                List.isEmpty_cons, Bool.or_self, Bool.false_eq_true, if_false]
              exact ih f1 f2 _ _ hrest hf1 hf2


/-- The read loop never ends with the exception of its error test: an error of the
reader makes `atEnd()` true, which ends the loop before the test is reached. -/
theorem readRoutesLoop_ok :
    ∀ (fuel : Nat) (reader : QXmlStreamReader) (routes : List RouteEntry),
      ∃ result, readRoutesLoop fuel reader routes = Except.ok result := by
  intro fuel
  induction fuel with
  | zero => intro reader routes; exact ⟨routes, rfl⟩
  | succ fuel ih =>
    intro reader routes
    obtain ⟨pending, error⟩ := reader
    cases error with
    | true => exact ⟨routes, by simp [readRoutesLoop, QXmlStreamReader.atEnd]⟩
    | false =>
      cases pending with
      | nil => exact ⟨routes, by simp [readRoutesLoop, QXmlStreamReader.atEnd]⟩
      | cons token rest =>
        cases token with
        | StartElement elementName attributes =>
          by_cases hroute : elementName = "route".toList
          · simp only [readRoutesLoop, QXmlStreamReader.atEnd, QXmlStreamReader.readNext,
              hroute, List.isEmpty_cons, Bool.or_self, Bool.false_eq_true, if_false, if_true]
            exact ih _ _
          · simp only [readRoutesLoop, QXmlStreamReader.atEnd, QXmlStreamReader.readNext,
              hroute, List.isEmpty_cons, Bool.or_self, Bool.false_eq_true, if_false]
            exact ih _ _
        | _ =>
          simp only [readRoutesLoop, QXmlStreamReader.atEnd, QXmlStreamReader.readNext,
            List.isEmpty_cons, Bool.or_self, Bool.false_eq_true, if_false]
          exact ih _ _

theorem readElementText_writeCharacters (text : QString) (rest : List Token) :
    readElementText
        ((if text = [] then [] else [Token.Characters text])
          ++ Token.EndElement "route".toList :: rest) []
      = (text, ⟨rest, false⟩) := by
  by_cases h : text = []
  · subst h
    simp [readElementText]
  · simp [h, readElementText]

theorem readRoutesLoop_entries :
    ∀ (routes acc : List RouteEntry) (tail : List Token) (fuel : Nat),
      (routes.flatMap writeRouteElement ++ tail).length < fuel →
      readRoutesLoop fuel ⟨routes.flatMap writeRouteElement ++ tail, false⟩ acc
        = readRoutesLoop fuel ⟨tail, false⟩ (acc ++ routes) := by
  intro routes
  induction routes with
  | nil => intro acc tail fuel _; simp
  | cons entry rest ih =>
    intro acc tail fuel hfuel
    obtain ⟨name, text⟩ := entry
    have hlen : 3 + (rest.flatMap writeRouteElement ++ tail).length < fuel := by
      have : (([(name, text)] ++ rest).flatMap writeRouteElement ++ tail).length < fuel := hfuel
      simp only [List.flatMap_append, List.flatMap_cons, List.flatMap_nil, List.append_nil,
        writeRouteElement, List.length_append, List.length_cons, List.length_nil] at this
      simp only [List.length_append]
      omega
    obtain ⟨f, rfl⟩ : ∃ f, fuel = f + 2 := ⟨fuel - 2, by omega⟩
    have hstep : readRoutesLoop (f + 2)
        ⟨((name, text) :: rest).flatMap writeRouteElement ++ tail, false⟩ acc
        = readRoutesLoop f ⟨rest.flatMap writeRouteElement ++ tail, false⟩
            (acc ++ [(name, text)]) := by
      have hread := readElementText_writeCharacters text (rest.flatMap writeRouteElement ++ tail)
      simp only [List.flatMap_cons, writeRouteElement, List.append_assoc, List.cons_append,
        List.nil_append, List.singleton_append] at hread ⊢
      simp only [readRoutesLoop, QXmlStreamReader.atEnd, QXmlStreamReader.readNext,
        List.isEmpty_cons, Bool.or_self, Bool.false_eq_true, if_false, if_true, hread,
        attributeValue, List.find?, decide_True]
    rw [hstep, ih _ _ _ (by omega)]
    have htail : tail.length < f := by
      simp only [List.length_append] at hlen
      omega
    rw [readRoutesLoop_fuel tail.length f (f + 2) ⟨tail, false⟩ _ (le_refl _) htail (by omega)]
    simp

/-- Reading back a written ledger gives the entries that were written. -/
theorem readRoutes_writeCompanyRoutes (routes : List RouteEntry) :
    readRoutes (writeCompanyRoutes routes) = Except.ok routes := by
  unfold readRoutes writeCompanyRoutes
  generalize hfuel : ([Token.StartDocument, Token.StartElement "companyroutes".toList []]
      ++ routes.flatMap writeRouteElement
      ++ (if routes.isEmpty then [] else [Token.Characters "\n".toList])
      ++ [Token.EndElement "companyroutes".toList, Token.EndDocument]).length + 1 = fuel
  have hlen : 2 + (routes.flatMap writeRouteElement
      ++ ((if routes.isEmpty then [] else [Token.Characters "\n".toList])
      ++ [Token.EndElement "companyroutes".toList, Token.EndDocument])).length + 1 = fuel := by
    rw [← hfuel]
    simp only [List.length_append, List.length_cons, List.length_nil]
    omega
  obtain ⟨f, rfl⟩ : ∃ f, fuel = f + 2 := ⟨fuel - 2, by omega⟩
  have hstart : readRoutesLoop (f + 2)
      ⟨[Token.StartDocument, Token.StartElement "companyroutes".toList []]
        ++ routes.flatMap writeRouteElement
        ++ (if routes.isEmpty then [] else [Token.Characters "\n".toList])
        ++ [Token.EndElement "companyroutes".toList, Token.EndDocument], false⟩ []
      = readRoutesLoop f ⟨routes.flatMap writeRouteElement
        ++ ((if routes.isEmpty then [] else [Token.Characters "\n".toList])
        ++ [Token.EndElement "companyroutes".toList, Token.EndDocument]), false⟩ [] := by
    simp only [List.append_assoc, List.cons_append, List.nil_append]
    simp [readRoutesLoop, QXmlStreamReader.atEnd, QXmlStreamReader.readNext]
  rw [hstart, readRoutesLoop_entries routes [] _ f (by omega)]
  have hf : ((if routes.isEmpty then [] else [Token.Characters "\n".toList])
      ++ [Token.EndElement "companyroutes".toList, Token.EndDocument]).length < f := by
    simp only [List.length_append] at hlen ⊢
    omega
  by_cases hempty : routes.isEmpty
  · simp only [hempty, if_true, List.nil_append] at hf ⊢
    obtain ⟨g, rfl⟩ : ∃ g, f = g + 3 := ⟨f - 3, by simp at hf; omega⟩
    simp [readRoutesLoop, QXmlStreamReader.atEnd, QXmlStreamReader.readNext]
  · simp only [hempty, Bool.false_eq_true, if_false] at hf ⊢
    obtain ⟨g, rfl⟩ : ∃ g, f = g + 4 := ⟨f - 4, by simp at hf; omega⟩
    simp [readRoutesLoop, QXmlStreamReader.atEnd, QXmlStreamReader.readNext]


/-! ## UFMC -/

theorem getLast_eq_getD_of_ne_nil {α : Type} (l : List α) (d : α) (h : l ≠ []) :
    l.getLast? = some (l.getD (l.length - 1) d) := by
  rw [List.getLast?_eq_getElem?, List.getD_eq_getElem?_getD]
  have hlt : l.length - 1 < l.length := by
    have := List.length_pos.mpr h
    omega
  simp [List.getElem?_eq_getElem hlt]

/-- C6: for a token list `t` of `n ≥ 2` tokens whose second-to-last token is not
`DCT`, `exportFlighplanAsUFmc` writes, one per line, `r(t[0])`, `r(t[n-1])`, then
`r(t[1]) .. r(t[n-2])`, then the sentinel `99` (`n + 1` lines), where `r` turns
the exact token `DCT` into `DIRECT` and keeps every other token. -/
theorem exportFlighplanAsUFmc_layout (file : TextFile) (t : List QString)
    (hw : file.writable = true) (hn : 2 ≤ t.length)
    (hd : t.getD (t.length - 2) [] ≠ DCT) :
    exportFlighplanAsUFmc file t =
        (file.write (streamLines
          ([replaceInString (t.getD 0 []), replaceInString (t.getD (t.length - 1) [])]
            ++ ((t.drop 1).take (t.length - 2)).map replaceInString ++ ["99".toList])),
          Outcome.returned true)
      ∧ ([replaceInString (t.getD 0 []), replaceInString (t.getD (t.length - 1) [])]
            ++ ((t.drop 1).take (t.length - 2)).map replaceInString
            ++ ["99".toList]).length = t.length + 1 := by
  have hlist : ufmcList t = t.map replaceInString := by
    unfold ufmcList
    rw [if_neg (fun h => hd h.2)]
  have hne : t ≠ [] := by
    intro h
    subst h
    simp at hn
  have hhead : (t.map replaceInString).head? = some (replaceInString (t.getD 0 [])) := by
    cases t with
    | nil => exact absurd rfl hne
    | cons a rest => simp
  have hlast : (t.map replaceInString).getLast?
      = some (replaceInString (t.getD (t.length - 1) [])) := by
    rw [List.getLast?_map, getLast_eq_getD_of_ne_nil t [] hne]
    rfl
  constructor
  · simp only [exportFlighplanAsUFmc, hw, if_true, hlist, ufmcLines, hhead, hlast,
      List.length_map, List.map_drop, List.map_take]
  · simp only [List.length_append, List.length_map, List.length_take, List.length_drop,
      List.length_cons, List.length_nil]
    omega

/-- Witness for C6: KJFK DCT GAYEL Q818 WOZEE CYYZ gives the lines KJFK, CYYZ,
DIRECT, GAYEL, Q818, WOZEE, 99. -/
theorem exportFlighplanAsUFmc_layout_witness :
    exportFlighplanAsUFmc ⟨none, true, true⟩
        ["KJFK".toList, "DCT".toList, "GAYEL".toList, "Q818".toList, "WOZEE".toList,
          "CYYZ".toList]
      = (⟨some "KJFK\nCYYZ\nDIRECT\nGAYEL\nQ818\nWOZEE\n99\n".toList, true, true⟩,
          Outcome.returned true) :=
  (exportFlighplanAsUFmc_layout ⟨none, true, true⟩
    ["KJFK".toList, "DCT".toList, "GAYEL".toList, "Q818".toList, "WOZEE".toList,
      "CYYZ".toList] rfl (by decide) (by decide)).1.trans (by decide)


/-! ## companyroutes.xml -/

theorem proSimReadPhase_error (fs : ProSimFiles) (outcome : Outcome)
    (h : proSimReadPhase fs = Except.error outcome) : outcome ≠ Outcome.returned true := by
  unfold proSimReadPhase at h
  split at h
  · split at h
    · split at h
      · split at h
        · exact absurd h (by simp)
        · cases h
          simp
      · cases h
        simp
    · exact absurd h (by simp)
  · exact absurd h (by simp)

theorem copyToBackup_flags (fs : ProSimFiles) :
    (copyToBackup fs).1.file = fs.file ∧ (copyToBackup fs).1.readable = fs.readable
      ∧ (copyToBackup fs).1.writable = fs.writable := by
  unfold copyToBackup
  split
  · split <;> simp
  · simp

/-- What a successful call of the ProSim export has done. -/
theorem exportFlighplanAsProSim_success (fs fs' : ProSimFiles) (route : Route)
    (routeString : QString)
    (h : exportFlighplanAsProSim fs route routeString = (fs', Outcome.returned true)) :
    ∃ name, buildDefaultFilenameShort route [] [] = some name
      ∧ proSimReadPhase fs = Except.ok (proSimExistingRoutes fs)
      ∧ fs.writable = true
      ∧ fs' = ⟨some (writeCompanyRoutes (proSimExistingRoutes fs ++
            [(proSimUniqueName ((proSimExistingRoutes fs).map Prod.fst) name, routeString)])),
          fs.readable, fs.writable, (copyToBackup (rollFile 1 fs)).1.backupFile,
          (copyToBackup (rollFile 1 fs)).1.rolled⟩ := by
  unfold exportFlighplanAsProSim at h
  cases hread : proSimReadPhase fs with
  | error outcome =>
    rw [hread] at h
    simp only [Prod.mk.injEq] at h
    exact absurd h.2 (proSimReadPhase_error fs outcome hread)
  | ok routes =>
    have hex : proSimExistingRoutes fs = routes := by simp [proSimExistingRoutes, hread]
    rw [hread] at h
    simp only at h
    cases hname : buildDefaultFilenameShort route [] [] with
    | none =>
      rw [hname] at h
      simp at h
    | some name =>
      rw [hname] at h
      simp only at h
      have hflags := copyToBackup_flags (rollFile 1 fs)
      have hr1 : (rollFile 1 fs).readable = fs.readable := rfl
      have hw1 : (rollFile 1 fs).writable = fs.writable := rfl
      rw [hr1, hw1] at hflags
      by_cases hw : (copyToBackup (rollFile 1 fs)).1.writable = true
      · rw [if_pos hw] at h
        simp only [Prod.mk.injEq, and_true] at h
        refine ⟨name, rfl, by rw [hex], ?_, ?_⟩
        · rw [← hflags.2.2]
          exact hw
        · rw [hex, ← h, hflags.2.1, hflags.2.2]
      · rw [if_neg hw] at h
        simp at h


/-- C2: for every existing ledger, from which the read phase keeps the ordered
entry list `L` (the empty list for a missing file or a file of size zero), a
successful `exportFlighplanAsProSim` writes a ledger whose ordered entry list is
`L` followed by one new entry holding the new name and the new route string:
prior entries keep position, name and text, and the new entry is last. -/
theorem exportFlighplanAsProSim_appends (fs fs' : ProSimFiles) (route : Route)
    (routeString : QString)
    (h : exportFlighplanAsProSim fs route routeString = (fs', Outcome.returned true)) :
    ∃ newname,
      fs'.file = some (writeCompanyRoutes (proSimExistingRoutes fs ++ [(newname, routeString)]))
      ∧ readRoutes (writeCompanyRoutes (proSimExistingRoutes fs ++ [(newname, routeString)]))
          = Except.ok (proSimExistingRoutes fs ++ [(newname, routeString)])
      ∧ (fs.file = none ∨ fs.file = some [] → proSimExistingRoutes fs = []) := by
  obtain ⟨name, _, _, _, hfs⟩ := exportFlighplanAsProSim_success fs fs' route routeString h
  refine ⟨proSimUniqueName ((proSimExistingRoutes fs).map Prod.fst) name, ?_, ?_, ?_⟩
  · rw [hfs]
  · exact readRoutes_writeCompanyRoutes _
  · intro hfile
    rcases hfile with hnone | hempty
    · simp [proSimExistingRoutes, proSimReadPhase, hnone]
    · simp [proSimExistingRoutes, proSimReadPhase, hempty]

/-- C3: for every ordered list of (name, route text) entries, the document of the
ledger writer, read with the reader loop, yields the same ordered list. -/
theorem companyroutes_round_trip (routes : List RouteEntry) :
    readRoutes (writeCompanyRoutes routes) = Except.ok routes :=
  readRoutes_writeCompanyRoutes routes

/-- C9: after two successive successful calls of `exportFlighplanAsProSim` exactly
one backup file exists, and its content is the ledger as it was right before the
second write (the ledger exists at that point). -/
theorem exportFlighplanAsProSim_backup_rotation (fs fs1 fs2 : ProSimFiles)
    (route1 route2 : Route) (routeString1 routeString2 : QString)
    (h1 : exportFlighplanAsProSim fs route1 routeString1 = (fs1, Outcome.returned true))
    (h2 : exportFlighplanAsProSim fs1 route2 routeString2 = (fs2, Outcome.returned true)) :
    backupCount fs2 = 1 ∧ fs2.backupFile = fs1.file ∧ fs1.file ≠ none := by
  obtain ⟨name1, _, _, _, hfs1⟩ := exportFlighplanAsProSim_success fs fs1 route1 routeString1 h1
  obtain ⟨name2, _, hread2, _, hfs2⟩ :=
    exportFlighplanAsProSim_success fs1 fs2 route2 routeString2 h2
  have hfile : fs1.file = some (writeCompanyRoutes (proSimExistingRoutes fs ++
      [(proSimUniqueName ((proSimExistingRoutes fs).map Prod.fst) name1, routeString1)])) := by
    rw [hfs1]
  have hne : writeCompanyRoutes (proSimExistingRoutes fs ++
      [(proSimUniqueName ((proSimExistingRoutes fs).map Prod.fst) name1, routeString1)]) ≠ [] := by
    simp [writeCompanyRoutes]
  have hreadable : fs1.readable = true := by
    by_contra hr
    unfold proSimReadPhase at hread2
    rw [hfile] at hread2
    simp [hne, hr] at hread2
  have hback : (copyToBackup (rollFile 1 fs1)).1.backupFile = fs1.file
      ∧ (copyToBackup (rollFile 1 fs1)).1.rolled = [] := by
    simp [copyToBackup, rollFile, hfile, hreadable]
  refine ⟨?_, ?_, ?_⟩
  · rw [hfs2]
    simp [backupCount, hback.1, hback.2, hfile]
  · rw [hfs2]
    exact hback.1
  · rw [hfile]
    simp

/-- C10: the name of the new companyroutes.xml entry is the short file name base
`B = buildDefaultFilenameShort("", "")` when `B` is not an existing name; otherwise
it is the whole of `B` followed by the two digits of the counter `k`, for the lowest
`k` in 1..98 for which that string is not an existing name. -/
theorem exportFlighplanAsProSim_name_choice (fs fs' : ProSimFiles) (route : Route)
    (routeString : QString)
    (h : exportFlighplanAsProSim fs route routeString = (fs', Outcome.returned true)) :
    ∃ B newname, buildDefaultFilenameShort route [] [] = some B
      ∧ fs'.file = some (writeCompanyRoutes (proSimExistingRoutes fs ++ [(newname, routeString)]))
      ∧ (B ∉ (proSimExistingRoutes fs).map Prod.fst → newname = B)
      ∧ (B ∈ (proSimExistingRoutes fs).map Prod.fst →
          ∀ k, 1 ≤ k → k ≤ 98 →
            B ++ [digitChar (k / 10), digitChar (k % 10)] ∉ (proSimExistingRoutes fs).map Prod.fst →
            (∀ j, 1 ≤ j → j < k →
              B ++ [digitChar (j / 10), digitChar (j % 10)]
                ∈ (proSimExistingRoutes fs).map Prod.fst) →
            newname = B ++ [digitChar (k / 10), digitChar (k % 10)]) := by
  obtain ⟨B, hB, _, _, hfs⟩ := exportFlighplanAsProSim_success fs fs' route routeString h
  have hcand : ∀ k, 1 ≤ k → k ≤ 98 →
      proSimCandidate B k = B ++ [digitChar (k / 10), digitChar (k % 10)] := by
    intro k h1 h98
    obtain ⟨j, rfl⟩ : ∃ j, k = j + 1 := ⟨k - 1, by omega⟩
    simp only [proSimCandidate, arg12]
    rw [argInt_two_digits (j + 1) (by omega)]
  refine ⟨B, proSimUniqueName ((proSimExistingRoutes fs).map Prod.fst) B, hB, by rw [hfs], ?_, ?_⟩
  · intro hfree
    simp [proSimUniqueName, proSimUniqueLoop, hfree]
  · intro hused k h1 h98 hfree hmin
    have := proSimUniqueLoop_first_free ((proSimExistingRoutes fs).map Prod.fst) B k 99 0
      (by omega) (by omega)
      (by
        intro m _ hm
        cases m with
        | zero => exact hused
        | succ m =>
          rw [hcand (m + 1) (by omega) (by omega)]
          exact hmin (m + 1) (by omega) (by omega))
      (by
        rw [Nat.zero_add, hcand k h1 h98]
        exact hfree)
    simp only [Nat.zero_add] at this
    rw [hcand k h1 h98] at this
    exact this


/-- Witness for C2: a third entry is added after the two entries of the ledger. -/
theorem exportFlighplanAsProSim_appends_witness :
    exportFlighplanAsProSim filesTwo routeEgllEham "EGLL DCT EHAM".toList
        = (filesThree, Outcome.returned true)
      ∧ proSimExistingRoutes filesTwo = ledgerTwo
      ∧ ∃ newname,
        filesThree.file = some (writeCompanyRoutes
          (proSimExistingRoutes filesTwo ++ [(newname, "EGLL DCT EHAM".toList)]))
        ∧ readRoutes (writeCompanyRoutes
            (proSimExistingRoutes filesTwo ++ [(newname, "EGLL DCT EHAM".toList)]))
          = Except.ok (proSimExistingRoutes filesTwo ++ [(newname, "EGLL DCT EHAM".toList)])
        ∧ (filesTwo.file = none ∨ filesTwo.file = some [] → proSimExistingRoutes filesTwo = []) :=
  ⟨by decide, by decide,
    exportFlighplanAsProSim_appends filesTwo filesThree routeEgllEham "EGLL DCT EHAM".toList
      (by decide)⟩

/-- Witness for C9: two calls in a row; the single backup holds the ledger of three
entries that the second call found. -/
theorem exportFlighplanAsProSim_backup_rotation_witness :
    backupCount filesFour = 1 ∧ filesFour.backupFile = filesThree.file
      ∧ filesThree.file ≠ none :=
  exportFlighplanAsProSim_backup_rotation filesTwo filesThree filesFour routeEgllEham
    routeEgllEham "EGLL DCT EHAM".toList "EGLL X EHAM".toList (by decide) (by decide)


/-- Witness for C10: EGLLEHAM is in use, EGLLEHAM01 is the first free name. -/
theorem exportFlighplanAsProSim_name_choice_witness :
    exportFlighplanAsProSim filesThree routeEgllEham "EGLL X EHAM".toList
        = (filesFour, Outcome.returned true)
      ∧ ∃ B newname, buildDefaultFilenameShort routeEgllEham [] [] = some B
        ∧ filesFour.file = some (writeCompanyRoutes
            (proSimExistingRoutes filesThree ++ [(newname, "EGLL X EHAM".toList)]))
        ∧ (B ∉ (proSimExistingRoutes filesThree).map Prod.fst → newname = B)
        ∧ (B ∈ (proSimExistingRoutes filesThree).map Prod.fst →
            ∀ k, 1 ≤ k → k ≤ 98 →
              B ++ [digitChar (k / 10), digitChar (k % 10)]
                ∉ (proSimExistingRoutes filesThree).map Prod.fst →
              (∀ j, 1 ≤ j → j < k →
                B ++ [digitChar (j / 10), digitChar (j % 10)]
                  ∈ (proSimExistingRoutes filesThree).map Prod.fst) →
              newname = B ++ [digitChar (k / 10), digitChar (k % 10)]) :=
  ⟨by decide,
    exportFlighplanAsProSim_name_choice filesThree filesFour routeEgllEham "EGLL X EHAM".toList
      (by decide)⟩

/-- C7 (evaluation at the failing input): for a destination that is not well-formed
the call returns `true` and replaces the content of the destination by a new ledger
made of the routes read before the error and of the new route. -/
theorem exportFlighplanAsProSim_malformed_overwritten :
    Token.Invalid ∈ malformedLedger
      ∧ exportFlighplanAsProSim ⟨some malformedLedger, true, true, none, []⟩ routeEgllEham
          "EGLL DCT EHAM".toList
        = (⟨some (writeCompanyRoutes
              [("KDSMKOKC".toList, "KDSM DSM J25 TUL KOKC".toList),
               ("EGLLEHAM".toList, "EGLL DCT EHAM".toList)]),
            true, true, some malformedLedger, []⟩, Outcome.returned true)
      ∧ writeCompanyRoutes
          [("KDSMKOKC".toList, "KDSM DSM J25 TUL KOKC".toList),
           ("EGLLEHAM".toList, "EGLL DCT EHAM".toList)] ≠ malformedLedger := by
  decide

/-- The exception of the read loop never leaves `exportFlighplanAsProSim`. -/
theorem exportFlighplanAsProSim_never_throws (fs : ProSimFiles) (route : Route)
    (routeString message : QString) :
    (exportFlighplanAsProSim fs route routeString).2 ≠ Outcome.threw message := by
  have hread : ∀ outcome, proSimReadPhase fs = Except.error outcome →
      outcome = Outcome.returned false := by
    intro outcome h
    obtain ⟨file, readable, writable, backupFile, rolled⟩ := fs
    cases file with
    | none => simp [proSimReadPhase] at h
    | some content =>
      obtain ⟨result, hresult⟩ := readRoutesLoop_ok (content.length + 1) ⟨content, false⟩ []
      by_cases hne : content = []
      · simp [proSimReadPhase, hne] at h
      · cases readable with
        | true => simp [proSimReadPhase, hne, readRoutes, hresult] at h
        | false =>
          simp [proSimReadPhase, hne] at h
          exact h.symm
  unfold exportFlighplanAsProSim
  cases hphase : proSimReadPhase fs with
  | error outcome =>
    rw [hread outcome hphase]
    simp
  | ok routes =>
    simp only
    split
    · simp
    · split <;> simp

/-- C8 (evaluation at the failing input): when the destination file does not exist
`exportFlighplanAsCorteIn` returns `false` and creates no file. -/
theorem exportFlighplanAsCorteIn_missing_file (readable writable : Bool)
    (flightplan : Flightplan) (txt : QString) :
    exportFlighplanAsCorteIn ⟨none, readable, writable⟩ flightplan txt
      = (⟨none, readable, writable⟩, Outcome.returned false) :=
  rfl

/-- For an existing file without content the corte.in appender succeeds: the file
then holds a line break and the one new record under the base name. -/
theorem exportFlighplanAsCorteIn_empty_file (flightplan : Flightplan) (txt : QString) :
    exportFlighplanAsCorteIn ⟨some [], true, true⟩ flightplan txt
      = (⟨some ('\n' :: corteInRecord
            (flightplan.departureIdent ++ flightplan.destinationIdent) txt), true, true⟩,
          Outcome.returned true) := by
  simp [exportFlighplanAsCorteIn, corteInRouteNames, readLines, corteInUniqueName,
    corteInUniqueLoop, fileEndsWithEol, TextFile.write]


/-- Counterexample for C4 as stated: the names of `ledgerFull` are pairwise distinct,
the append succeeds, and the new entry is written under EGLLEHAM98, a name the ledger
already holds. -/
theorem ledger_name_uniqueness_counterexample :
    (ledgerFull.map Prod.fst).Nodup
      ∧ exportFlighplanAsProSim ⟨some (writeCompanyRoutes ledgerFull), true, true, none, []⟩
          routeEgllEham "EGLL DCT EHAM".toList
        = (⟨some (writeCompanyRoutes
              (ledgerFull ++ [("EGLLEHAM98".toList, "EGLL DCT EHAM".toList)])),
            true, true, some (writeCompanyRoutes ledgerFull), []⟩, Outcome.returned true)
      ∧ ¬ ((ledgerFull ++ [("EGLLEHAM98".toList, "EGLL DCT EHAM".toList)]).map Prod.fst).Nodup := by
  decide!


/-- What a successful call of the corte.in export has done. -/
theorem exportFlighplanAsCorteIn_success (file file' : TextFile) (content : QString)
    (flightplan : Flightplan) (txt : QString) (hc : file.content = some content)
    (h : exportFlighplanAsCorteIn file flightplan txt = (file', Outcome.returned true)) :
    file' = file.write (content ++ (if fileEndsWithEol content then [] else ['\n']) ++
      corteInRecord (corteInUniqueName (corteInRouteNames content)
        (flightplan.departureIdent ++ flightplan.destinationIdent)) txt) := by
  unfold exportFlighplanAsCorteIn at h
  rw [hc] at h
  simp only at h
  by_cases hr : file.readable = true
  · rw [if_pos hr] at h
    by_cases hw : file.writable = true
    · rw [if_pos hw] at h
      simp only [Prod.mk.injEq, and_true] at h
      exact h.symm
    · rw [if_neg hw] at h
      simp at h
  · rw [if_neg hr] at h
    simp at h

/-- C4 (as amended): in both ledger dialects, if the names of the existing records
(for corte.in: as the read loop extracts them) are pairwise distinct and one of the
99 candidate names is not among them, then after a successful append the names of
the records, the existing ones followed by the new one, are pairwise distinct.
These are the names read from the resulting file: always for companyroutes.xml,
and for corte.in when the base name is one upper case word, the route string has no
line break and the file did not end with a carriage return. -/
theorem ledger_names_stay_distinct :
    (∀ (file file' : TextFile) (content : QString) (flightplan : Flightplan) (txt : QString),
        file.content = some content →
        exportFlighplanAsCorteIn file flightplan txt = (file', Outcome.returned true) →
        (corteInRouteNames content).Nodup →
        (∃ k, k ≤ 98 ∧
          corteInCandidate (flightplan.departureIdent ++ flightplan.destinationIdent) k
            ∉ corteInRouteNames content) →
        ∃ name,
          file'.content = some (content ++ (if fileEndsWithEol content then [] else ['\n']) ++
            corteInRecord name txt)
          ∧ (corteInRouteNames content ++ [name]).Nodup
          ∧ (IsUpperWord (flightplan.departureIdent ++ flightplan.destinationIdent) →
              '\n' ∉ txt → content.getLast? ≠ some '\r' →
              corteInRouteNames (content ++ (if fileEndsWithEol content then [] else ['\n']) ++
                  corteInRecord name txt)
                = corteInRouteNames content ++ [name]))
      ∧ (∀ (fs fs' : ProSimFiles) (route : Route) (routeString : QString),
        exportFlighplanAsProSim fs route routeString = (fs', Outcome.returned true) →
        ((proSimExistingRoutes fs).map Prod.fst).Nodup →
        (∃ B k, buildDefaultFilenameShort route [] [] = some B ∧ k ≤ 98 ∧
          proSimCandidate B k ∉ (proSimExistingRoutes fs).map Prod.fst) →
        ∃ routes,
          fs'.file = some (writeCompanyRoutes routes)
          ∧ readRoutes (writeCompanyRoutes routes) = Except.ok routes
          ∧ (routes.map Prod.fst).Nodup) := by
  constructor
  · intro file file' content flightplan txt hc h hnodup hfree
    obtain ⟨k, hk, hname, hnot, _⟩ := corteInUniqueName_first_free _ _ hfree
    have hfile := exportFlighplanAsCorteIn_success file file' content flightplan txt hc h
    refine ⟨corteInUniqueName (corteInRouteNames content)
      (flightplan.departureIdent ++ flightplan.destinationIdent), ?_, ?_, ?_⟩
    · rw [hfile]
      rfl
    · rw [hname]
      exact List.Nodup.append hnodup (List.nodup_singleton _)
        (by
          intro a ha hb
          rw [List.mem_singleton] at hb
          subst hb
          exact hnot ha)
    · intro hbase htxt hcr
      have hword := corteInCandidate_upperWord _ hbase k hk
      rw [hname, corteInRouteNames_append content _ txt hword.1 htxt hcr, hword.2]
  · intro fs fs' route routeString h hnodup hfree
    obtain ⟨B, k, hB, hk, hnot⟩ := hfree
    obtain ⟨name, hname, _, _, hfs⟩ := exportFlighplanAsProSim_success fs fs' route routeString h
    have hBn : B = name := by
      rw [hB] at hname
      exact Option.some.inj hname
    subst hBn
    obtain ⟨k', _, hnew, hnot', _⟩ :=
      proSimUniqueName_first_free ((proSimExistingRoutes fs).map Prod.fst) B ⟨k, hk, hnot⟩
    refine ⟨proSimExistingRoutes fs ++
      [(proSimUniqueName ((proSimExistingRoutes fs).map Prod.fst) B, routeString)], ?_,
      readRoutes_writeCompanyRoutes _, ?_⟩
    · rw [hfs]
    · rw [List.map_append, hnew]
      exact List.Nodup.append hnodup (List.nodup_singleton _)
        (by
          intro a ha hb
          simp only [List.map_cons, List.map_nil, List.mem_singleton] at hb
          subst hb
          exact hnot' ha)

/-- Witness for C4: a corte.in file of two records and the ledger `filesThree`, each
appended to once. -/
theorem ledger_names_stay_distinct_witness :
    (∃ name,
        (⟨some "RTE AAAABBBB AAAA DCT BBBB\nRTE AAAABBBB1 AAAA X BBBB\nRTE AAAABB01 AAAA Y BBBB".toList,
            true, true⟩ : TextFile).content
          = some ("RTE AAAABBBB AAAA DCT BBBB\nRTE AAAABBBB1 AAAA X BBBB\n".toList ++
              (if fileEndsWithEol "RTE AAAABBBB AAAA DCT BBBB\nRTE AAAABBBB1 AAAA X BBBB\n".toList
                then [] else ['\n']) ++
              corteInRecord name "AAAA Y BBBB".toList)
        ∧ (corteInRouteNames "RTE AAAABBBB AAAA DCT BBBB\nRTE AAAABBBB1 AAAA X BBBB\n".toList
            ++ [name]).Nodup
        ∧ (IsUpperWord (planAaaaBbbb.departureIdent ++ planAaaaBbbb.destinationIdent) →
            '\n' ∉ "AAAA Y BBBB".toList →
            "RTE AAAABBBB AAAA DCT BBBB\nRTE AAAABBBB1 AAAA X BBBB\n".toList.getLast?
              ≠ some '\r' →
            corteInRouteNames
                ("RTE AAAABBBB AAAA DCT BBBB\nRTE AAAABBBB1 AAAA X BBBB\n".toList ++
                  (if fileEndsWithEol
                      "RTE AAAABBBB AAAA DCT BBBB\nRTE AAAABBBB1 AAAA X BBBB\n".toList
                    then [] else ['\n']) ++
                  corteInRecord name "AAAA Y BBBB".toList)
              = corteInRouteNames
                  "RTE AAAABBBB AAAA DCT BBBB\nRTE AAAABBBB1 AAAA X BBBB\n".toList
                ++ [name]))
      ∧ (∃ routes,
        filesFour.file = some (writeCompanyRoutes routes)
        ∧ readRoutes (writeCompanyRoutes routes) = Except.ok routes
        ∧ (routes.map Prod.fst).Nodup) :=
  ⟨ledger_names_stay_distinct.1
      ⟨some "RTE AAAABBBB AAAA DCT BBBB\nRTE AAAABBBB1 AAAA X BBBB\n".toList, true, true⟩ _
      "RTE AAAABBBB AAAA DCT BBBB\nRTE AAAABBBB1 AAAA X BBBB\n".toList planAaaaBbbb
      "AAAA Y BBBB".toList rfl (by decide) (by decide) ⟨1, by decide, by decide⟩,
    ledger_names_stay_distinct.2 filesThree filesFour routeEgllEham "EGLL X EHAM".toList
      (by decide) (by decide) ⟨"EGLLEHAM".toList, 1, by decide, by decide, by decide⟩⟩

/-! ## Key=value dialects (IvAp and X-IvAp) -/

theorem ivapLines_keys (exportData : RouteExportData) :
    lineKeys ((ivapLines exportData RouteExportType.IVAP).drop 1) = ivapKeys
      ∧ lineKeys ((ivapLines exportData RouteExportType.XIVAP).drop 1) = xivapKeys := by
  constructor <;>
    simp [lineKeys, ivapLines, ivapCommonLines, writeIvapLine, writeIvapLineInt, ivapKeys,
      xivapKeys, lineKey, List.takeWhile]

/-- C18: for every export data record the keys written by `exportFlighplanAsIvap`
after the header `[FLIGHTPLAN]` do not depend on the values and are, for IvAp, ID,
ALTICAO2 and the common list SPEEDTYPE .. RULES, and for X-IvAp, CALLSIGN, LIVERY,
AIRLINE, PIC, ALT2ICAO, FMCROUTE and the same common list; ENDURANCE and EET carry
`minToHourMinStr` of the endurance and enroute minutes, LEVEL carries the cruise
altitude divided by 100 as an integer. -/
theorem exportFlighplanAsIvap_key_order (exportData : RouteExportData)
    (content : Option QString) (readable : Bool) :
    (∀ type, exportFlighplanAsIvap ⟨content, readable, true⟩ exportData type
        = (⟨some (streamLines (ivapLines exportData type)), readable, true⟩,
            Outcome.returned true))
      ∧ (∀ type, (ivapLines exportData type).head? = some "[FLIGHTPLAN]".toList)
      ∧ lineKeys ((ivapLines exportData RouteExportType.IVAP).drop 1) = ivapKeys
      ∧ lineKeys ((ivapLines exportData RouteExportType.XIVAP).drop 1) = xivapKeys
      ∧ xivapKeys.drop 6 = ivapKeys.drop 2
      ∧ (∀ type,
          "ENDURANCE=".toList ++ minToHourMinStr exportData.enduranceMinutes
              ∈ ivapLines exportData type
            ∧ "EET=".toList ++ minToHourMinStr exportData.enrouteMinutes
              ∈ ivapLines exportData type
            ∧ "LEVEL=".toList ++ number (Int.tdiv exportData.cruiseAltitude 100)
              ∈ ivapLines exportData type) := by
  refine ⟨fun type => rfl, ?_, (ivapLines_keys exportData).1, (ivapLines_keys exportData).2,
    by decide, ?_⟩
  · intro type
    simp [ivapLines]
  · intro type
    cases type <;> simp [ivapLines, ivapCommonLines, writeIvapLine, writeIvapLineInt]

/-- Witness for C18: the ENDURANCE, EET and LEVEL lines of the sample data. -/
theorem exportFlighplanAsIvap_key_order_witness :
    "ENDURANCE=0244".toList ∈ ivapLines sampleExportData RouteExportType.IVAP
      ∧ "EET=0053".toList ∈ ivapLines sampleExportData RouteExportType.IVAP
      ∧ "LEVEL=330".toList ∈ ivapLines sampleExportData RouteExportType.IVAP :=
  ((exportFlighplanAsIvap_key_order sampleExportData none true).2.2.2.2.2
    RouteExportType.IVAP)

/-- C17 (as amended): for every export data record the IvAp lines are the X-IvAp
lines after removing the empty lines, removing the lines of the keys LIVERY,
AIRLINE, PIC and FMCROUTE, and renaming the key CALLSIGN to ID and the key ALT2ICAO
to ALTICAO2; the keys of IvAp that X-IvAp lacks are ID and ALTICAO2. -/
theorem ivap_from_xivap (exportData : RouteExportData) :
    transformLines ["LIVERY".toList, "AIRLINE".toList, "PIC".toList, "FMCROUTE".toList]
        [("CALLSIGN".toList, "ID".toList), ("ALT2ICAO".toList, "ALTICAO2".toList)]
        (ivapLines exportData RouteExportType.XIVAP)
      = ivapLines exportData RouteExportType.IVAP
    ∧ ∀ key ∈ lineKeys (ivapLines exportData RouteExportType.IVAP),
        key ∉ lineKeys (ivapLines exportData RouteExportType.XIVAP) →
        key = "ID".toList ∨ key = "ALTICAO2".toList := by
  constructor
  · simp [transformLines, ivapLines, ivapCommonLines, writeIvapLine, writeIvapLineInt, lineKey,
      List.takeWhile, renameKey]
  · have hkeys : ∀ type, lineKeys (ivapLines exportData type)
        = "[FLIGHTPLAN]".toList :: lineKeys ((ivapLines exportData type).drop 1) := by
      intro type
      simp [ivapLines, lineKeys, lineKey, List.takeWhile]
    rw [hkeys, hkeys, (ivapLines_keys exportData).1, (ivapLines_keys exportData).2]
    decide

/-- Counterexample for C17 as stated: with the sample data, removing the empty lines
and the lines of LIVERY, AIRLINE, PIC, ALT2ICAO and FMCROUTE from the X-IvAp lines and
renaming CALLSIGN to ID does not give the IvAp lines, which hold the line of the
key ALTICAO2, a key that X-IvAp does not write. -/
theorem ivap_from_xivap_counterexample :
    transformLines
        ["LIVERY".toList, "AIRLINE".toList, "PIC".toList, "ALT2ICAO".toList, "FMCROUTE".toList]
        [("CALLSIGN".toList, "ID".toList)]
        (ivapLines sampleExportData RouteExportType.XIVAP)
      ≠ ivapLines sampleExportData RouteExportType.IVAP
    ∧ "ALTICAO2".toList ∈ lineKeys (ivapLines sampleExportData RouteExportType.IVAP)
    ∧ "ALTICAO2".toList ∉ lineKeys (ivapLines sampleExportData RouteExportType.XIVAP)
    ∧ "ALTICAO2".toList ≠ "ID".toList := by
  decide

/-- Witness for C17: the sample data. -/
theorem ivap_from_xivap_witness :
    transformLines ["LIVERY".toList, "AIRLINE".toList, "PIC".toList, "FMCROUTE".toList]
        [("CALLSIGN".toList, "ID".toList), ("ALT2ICAO".toList, "ALTICAO2".toList)]
        (ivapLines sampleExportData RouteExportType.XIVAP)
      = ivapLines sampleExportData RouteExportType.IVAP
    ∧ ∀ key ∈ lineKeys (ivapLines sampleExportData RouteExportType.IVAP),
        key ∉ lineKeys (ivapLines sampleExportData RouteExportType.XIVAP) →
        key = "ID".toList ∨ key = "ALTICAO2".toList :=
  ivap_from_xivap sampleExportData

/-! ## vPilot VFP -/

/-- C19: for non-negative totals of `e` enroute minutes and `f` endurance minutes,
`exportFlighplanAsVfp` writes EnrouteHours = `e / 60`, EnrouteMinutes = `e % 60`,
FuelHours = `f / 60` and FuelMinutes = `f % 60` in decimal; hours times 60 plus
minutes is the total and the minutes lie in 0..59. -/
theorem exportFlighplanAsVfp_duration_split (exportData : RouteExportData)
    (he : 0 ≤ exportData.enrouteMinutes) (hf : 0 ≤ exportData.enduranceMinutes) :
    exportFlighplanAsVfp exportData true
        = (some (vfpWriterCalls exportData), Outcome.returned true)
      ∧ writtenAttribute (vfpWriterCalls exportData) "EnrouteHours".toList
          = some (number (exportData.enrouteMinutes / 60))
      ∧ writtenAttribute (vfpWriterCalls exportData) "EnrouteMinutes".toList
          = some (number (exportData.enrouteMinutes % 60))
      ∧ writtenAttribute (vfpWriterCalls exportData) "FuelHours".toList
          = some (number (exportData.enduranceMinutes / 60))
      ∧ writtenAttribute (vfpWriterCalls exportData) "FuelMinutes".toList
          = some (number (exportData.enduranceMinutes % 60))
      ∧ exportData.enrouteMinutes / 60 * 60 + exportData.enrouteMinutes % 60
          = exportData.enrouteMinutes
      ∧ exportData.enduranceMinutes / 60 * 60 + exportData.enduranceMinutes % 60
          = exportData.enduranceMinutes
      ∧ 0 ≤ exportData.enrouteMinutes % 60 ∧ exportData.enrouteMinutes % 60 ≤ 59
      ∧ 0 ≤ exportData.enduranceMinutes % 60 ∧ exportData.enduranceMinutes % 60 ≤ 59 := by
  have hdiv : ∀ total : Int, 0 ≤ total → Int.tdiv total 60 = total / 60 := by
    intro total h
    exact Int.tdiv_eq_ediv h (by decide)
  have hmod : ∀ total : Int, total - total / 60 * 60 = total % 60 := by
    intro total
    omega
  refine ⟨rfl, ?_, ?_, ?_, ?_, by omega, by omega, by omega, by omega, by omega, by omega⟩
  · simp [writtenAttribute, vfpWriterCalls, List.findSome?, hdiv _ he]
  · simp [writtenAttribute, vfpWriterCalls, List.findSome?, hdiv _ he, hmod]
  · simp [writtenAttribute, vfpWriterCalls, List.findSome?, hdiv _ hf]
  · simp [writtenAttribute, vfpWriterCalls, List.findSome?, hdiv _ hf, hmod]

/-- Witness for C19: 53 minutes en route are 0 hours 53 minutes, 164 minutes of
endurance are 2 hours 44 minutes. -/
theorem exportFlighplanAsVfp_duration_split_witness :
    (writtenAttribute (vfpWriterCalls sampleExportData) "EnrouteHours".toList = some "0".toList
      ∧ writtenAttribute (vfpWriterCalls sampleExportData) "EnrouteMinutes".toList
          = some "53".toList
      ∧ writtenAttribute (vfpWriterCalls sampleExportData) "FuelHours".toList = some "2".toList
      ∧ writtenAttribute (vfpWriterCalls sampleExportData) "FuelMinutes".toList
          = some "44".toList) :=
  have h := exportFlighplanAsVfp_duration_split sampleExportData (by decide) (by decide)
  ⟨h.2.1.trans (by decide), h.2.2.1.trans (by decide), h.2.2.2.1.trans (by decide),
    h.2.2.2.2.1.trans (by decide)⟩

/-! ## corte.in: what is appended -/

/-- C20: after a successful `exportFlighplanAsCorteIn` on a file with content `C`, the
content is `C`, then one line break exactly when `C` does not end with a line break,
then `RTE `, the name, a blank and the route string; `C` is kept as a prefix and
nothing else is written. -/
theorem exportFlighplanAsCorteIn_framing (file file' : TextFile) (content : QString)
    (flightplan : Flightplan) (txt : QString) (hc : file.content = some content)
    (h : exportFlighplanAsCorteIn file flightplan txt = (file', Outcome.returned true)) :
    ∃ name eol,
      file'.content = some (content ++ eol ++ ("RTE ".toList ++ name ++ " ".toList ++ txt))
      ∧ (eol = ['\n'] ∨ eol = [])
      ∧ (eol = ['\n'] ↔ fileEndsWithEol content = false)
      ∧ content <+: content ++ eol ++ ("RTE ".toList ++ name ++ " ".toList ++ txt)
      ∧ file'.readable = file.readable ∧ file'.writable = file.writable := by
  have hfile := exportFlighplanAsCorteIn_success file file' content flightplan txt hc h
  refine ⟨corteInUniqueName (corteInRouteNames content)
      (flightplan.departureIdent ++ flightplan.destinationIdent),
    (if fileEndsWithEol content then [] else ['\n']), ?_, ?_, ?_, ?_, ?_, ?_⟩
  · rw [hfile]
    rfl
  · cases fileEndsWithEol content <;> simp
  · cases fileEndsWithEol content <;> simp
  · rw [List.append_assoc]
    exact List.prefix_append _ _
  · rw [hfile]
    rfl
  · rw [hfile]
    rfl

/-- Witness for C20: a file that ends with a line break gets no further line break,
a file that does not gets one. -/
theorem exportFlighplanAsCorteIn_framing_witness :
    (∃ name eol,
      (⟨some "RTE A B\nRTE EGLLEHAM EGLL DCT EHAM".toList, true, true⟩ : TextFile).content
          = some ("RTE A B\n".toList ++ eol
              ++ ("RTE ".toList ++ name ++ " ".toList ++ "EGLL DCT EHAM".toList))
      ∧ (eol = ['\n'] ∨ eol = [])
      ∧ (eol = ['\n'] ↔ fileEndsWithEol "RTE A B\n".toList = false)
      ∧ "RTE A B\n".toList <+: "RTE A B\n".toList ++ eol
          ++ ("RTE ".toList ++ name ++ " ".toList ++ "EGLL DCT EHAM".toList)
      ∧ (⟨some "RTE A B\nRTE EGLLEHAM EGLL DCT EHAM".toList, true, true⟩ : TextFile).readable
          = (⟨some "RTE A B\n".toList, true, true⟩ : TextFile).readable
      ∧ (⟨some "RTE A B\nRTE EGLLEHAM EGLL DCT EHAM".toList, true, true⟩ : TextFile).writable
          = (⟨some "RTE A B\n".toList, true, true⟩ : TextFile).writable)
    ∧ exportFlighplanAsCorteIn ⟨some "RTE A B".toList, true, true⟩ planEgllEham
        "EGLL DCT EHAM".toList
      = (⟨some "RTE A B\nRTE EGLLEHAM EGLL DCT EHAM".toList, true, true⟩,
          Outcome.returned true) :=
  ⟨exportFlighplanAsCorteIn_framing ⟨some "RTE A B\n".toList, true, true⟩ _
      "RTE A B\n".toList planEgllEham "EGLL DCT EHAM".toList rfl (by decide),
    by decide⟩

/-! ## Default file names -/

theorem cleanFilename_legal (filename : QString) :
    ∀ c ∈ cleanFilename filename, c ∉ illegalFilenameChars := by
  intro c hc
  simp only [cleanFilename, List.mem_filter, Bool.not_eq_true', List.contains_eq_any_beq,
    List.any_eq_false, beq_iff_eq] at hc
  intro hmem
  exact hc.2 c hmem rfl

theorem cleanFilename_ne_nil (filename : QString)
    (h : ∃ c ∈ filename, c ∉ illegalFilenameChars) : cleanFilename filename ≠ [] := by
  obtain ⟨c, hc, hlegal⟩ := h
  intro hnil
  have hmem : c ∈ cleanFilename filename := by
    simp only [cleanFilename, List.mem_filter, Bool.not_eq_true', List.contains_eq_any_beq,
      List.any_eq_false, beq_iff_eq]
    exact ⟨hc, fun x hx hxc => hlegal (hxc ▸ hx)⟩
  rw [hnil] at hmem
  exact absurd hmem (List.not_mem_nil _)

/-- C11 (as amended): for a route with valid departure and destination leg indices,
`buildDefaultFilenameShort(sep, suffix)` is the cleaned concatenation of departure
ident, separator, destination ident and suffix; it holds no character that is
illegal in file paths, and it is not empty whenever that concatenation holds a
character that is legal in file paths. -/
theorem buildDefaultFilenameShort_spec (route : Route) (sep suffix : QString)
    (departure destination : FlightplanEntry)
    (hdep : listAt route.flightplan.entries route.departureAirportLegIndex = some departure)
    (hdest : listAt route.flightplan.entries route.destinationAirportLegIndex
      = some destination) :
    buildDefaultFilenameShort route sep suffix
        = some (cleanFilename
            (departure.icaoIdent ++ sep ++ destination.icaoIdent ++ suffix))
      ∧ (∀ c ∈ cleanFilename (departure.icaoIdent ++ sep ++ destination.icaoIdent ++ suffix),
          c ∉ illegalFilenameChars)
      ∧ ((∃ c ∈ departure.icaoIdent ++ sep ++ destination.icaoIdent ++ suffix,
            c ∉ illegalFilenameChars) →
          cleanFilename (departure.icaoIdent ++ sep ++ destination.icaoIdent ++ suffix) ≠ []) := by
  refine ⟨?_, cleanFilename_legal _, cleanFilename_ne_nil _⟩
  simp only [buildDefaultFilenameShort, hdep, hdest]

/-- Witness for C11: EGLL and EHAM with separator `_` and suffix `.fpl`. -/
theorem buildDefaultFilenameShort_spec_witness :
    buildDefaultFilenameShort routeEgllEham "_".toList ".fpl".toList
        = some "EGLL_EHAM.fpl".toList
      ∧ "EGLL_EHAM.fpl".toList ≠ [] :=
  have h := buildDefaultFilenameShort_spec routeEgllEham "_".toList ".fpl".toList
    ⟨"EGLL".toList⟩ ⟨"EHAM".toList⟩ (by decide) (by decide)
  ⟨h.1.trans (by decide), by decide⟩

/-- Counterexample for C11 as stated: the departure ident `/` and the destination
ident `:` are not empty, the leg indices are valid, and the short file name is
empty. -/
theorem buildDefaultFilenameShort_empty_counterexample :
    listAt routeIllegalIdents.flightplan.entries routeIllegalIdents.departureAirportLegIndex
        = some ⟨"/".toList⟩
      ∧ listAt routeIllegalIdents.flightplan.entries
          routeIllegalIdents.destinationAirportLegIndex = some ⟨":".toList⟩
      ∧ "/".toList ≠ [] ∧ ":".toList ≠ []
      ∧ buildDefaultFilenameShort routeIllegalIdents [] [] = some [] := by
  decide

/-- C12: for a route with valid departure and destination leg indices,
`buildDefaultFilenameLong(extension, suffix)` is the cleaned concatenation of the
rules (`IFR `, `VFR ` or nothing), the departure (`Name (Ident)` when the airport
name is not empty, the ident otherwise), ` to `, the destination formed in the
same way, the extension and the suffix; `buildDefaultFilename` is the short form
when the short name option is set and the long form otherwise. -/
theorem buildDefaultFilenameLong_spec (route : Route) (sep extension suffix : QString)
    (departure destination : FlightplanEntry)
    (hdep : listAt route.flightplan.entries route.departureAirportLegIndex = some departure)
    (hdest : listAt route.flightplan.entries route.destinationAirportLegIndex
      = some destination) :
    buildDefaultFilenameLong route extension suffix
        = some (cleanFilename (
            (match route.flightplan.flightplanType with
              | FlightplanType.IFR => "IFR ".toList
              | FlightplanType.VFR => "VFR ".toList
              | FlightplanType.other => [])
            ++ (if route.flightplan.departureAiportName = [] then departure.icaoIdent
                else route.flightplan.departureAiportName ++ " (".toList
                  ++ route.flightplan.departureIdent ++ ")".toList)
            ++ " to ".toList
            ++ (if route.flightplan.destinationAiportName = [] then destination.icaoIdent
                else route.flightplan.destinationAiportName ++ " (".toList
                  ++ route.flightplan.destinationIdent ++ ")".toList)
            ++ extension ++ suffix))
      ∧ buildDefaultFilename true route sep suffix extension
          = buildDefaultFilenameShort route sep suffix
      ∧ buildDefaultFilename false route sep suffix extension
          = buildDefaultFilenameLong route extension suffix := by
  refine ⟨?_, rfl, rfl⟩
  unfold buildDefaultFilenameLong
  simp only [hdep, hdest, Option.map_some']
  cases route.flightplan.flightplanType <;>
    by_cases h1 : route.flightplan.departureAiportName = [] <;>
    by_cases h2 : route.flightplan.destinationAiportName = [] <;>
    simp [h1, h2]

/-- Witness for C12: an IFR plan from Heathrow (EGLL) to an airport without name. -/
theorem buildDefaultFilenameLong_spec_witness :
    buildDefaultFilenameLong routeHeathrow ".pln".toList []
        = some "IFR Heathrow (EGLL) to EHAM.pln".toList
      ∧ buildDefaultFilename true routeHeathrow [] ".pln".toList []
          = some "EGLLEHAM.pln".toList :=
  have h := buildDefaultFilenameLong_spec routeHeathrow [] ".pln".toList [] ⟨"EGLL".toList⟩
    ⟨"EHAM".toList⟩ (by decide) (by decide)
  ⟨h.1.trans (by decide), by decide⟩

/-! ## Validation before an export -/

/-- C13: whenever `routeValidate` puts a warning to the user (endpoint warning:
departure or destination invalid and `validateDepartureAndDestination` set; parking
warning: both valid, `validateParking` set and the parking invalid), the answer
Cancel makes it return `false` and the answer Save makes it return `true`; whenever
it puts no warning it returns `true`. -/
theorem routeValidate_cancel_save (route : RouteValidity)
    (validateParking validateDepartureAndDestination : Bool) :
    ((((route.hasValidDeparture = false ∨ route.hasValidDestination = false)
          ∧ validateDepartureAndDestination = true)
        ∨ (route.hasValidDeparture = true ∧ route.hasValidDestination = true
          ∧ validateParking = true ∧ route.hasValidParking = false)) →
      (∀ result, warningShown
          (routeValidate route validateParking validateDepartureAndDestination result).2 = true)
      ∧ (routeValidate route validateParking validateDepartureAndDestination
          StandardButton.Cancel).1 = false
      ∧ (routeValidate route validateParking validateDepartureAndDestination
          StandardButton.Save).1 = true)
    ∧ (¬ (((route.hasValidDeparture = false ∨ route.hasValidDestination = false)
          ∧ validateDepartureAndDestination = true)
        ∨ (route.hasValidDeparture = true ∧ route.hasValidDestination = true
          ∧ validateParking = true ∧ route.hasValidParking = false)) →
      ∀ result, routeValidate route validateParking validateDepartureAndDestination result
        = (true, []))
    ∧ (∀ result, warningShown
          (routeValidate route validateParking validateDepartureAndDestination result).2 = false →
        (routeValidate route validateParking validateDepartureAndDestination result).1
          = true) := by
  obtain ⟨departure, destination, parking⟩ := route
  refine ⟨?_, ?_, ?_⟩
  · intro h
    refine ⟨?_, ?_, ?_⟩
    · intro result
      cases departure <;> cases destination <;> cases parking <;> cases validateParking <;>
        cases validateDepartureAndDestination <;> cases result <;>
        simp_all [routeValidate, warningShown]
    · cases departure <;> cases destination <;> cases parking <;> cases validateParking <;>
        cases validateDepartureAndDestination <;> simp_all [routeValidate]
    · cases departure <;> cases destination <;> cases parking <;> cases validateParking <;>
        cases validateDepartureAndDestination <;> simp_all [routeValidate]
  · intro h result
    cases departure <;> cases destination <;> cases parking <;> cases validateParking <;>
      cases validateDepartureAndDestination <;> simp_all [routeValidate]
  · intro result
    cases departure <;> cases destination <;> cases parking <;> cases validateParking <;>
      cases validateDepartureAndDestination <;> cases result <;>
      simp [routeValidate, warningShown]

/-- Witness for C13: a route without valid destination, checked as the exports do. -/
theorem routeValidate_cancel_save_witness :
    (∀ result, warningShown (routeValidate ⟨true, false, false⟩ false true result).2 = true)
      ∧ (routeValidate ⟨true, false, false⟩ false true StandardButton.Cancel).1 = false
      ∧ (routeValidate ⟨true, false, false⟩ false true StandardButton.Save).1 = true :=
  (routeValidate_cancel_save ⟨true, false, false⟩ false true).1
    (Or.inl ⟨Or.inr rfl, rfl⟩)

/-- C14 (evaluation at the failing input): a route with valid departure and
destination and no parking selected, parking validated. When the parking warning is
answered with Select Start Position (`QMessageBox::Yes`), `routeValidate` emits
`selectDepartureParking` and returns `true`, so the export goes on; the answer Show
Departure on Map (`QMessageBox::YesToAll`) of the same warning emits `showRect` and
returns `false`. -/
theorem routeValidate_select_start_position :
    routeValidate ⟨true, true, false⟩ true true StandardButton.Yes
        = (true, [ValidateEvent.deleteSplashScreen, ValidateEvent.showParkingWarning,
            ValidateEvent.selectDepartureParking])
      ∧ routeValidate ⟨true, true, false⟩ true true StandardButton.YesToAll
        = (false, [ValidateEvent.deleteSplashScreen, ValidateEvent.showParkingWarning,
            ValidateEvent.showRect]) := by
  decide

/-! ## The current route of `NavApp` -/

theorem writingEncoder_run (env : ExportEnvironment) : EncoderRun (writingEncoder env) := by
  unfold writingEncoder EncoderRun
  split <;> simp

theorem catchingEncoder_run (env : ExportEnvironment) : EncoderRun (catchingEncoder env) := by
  unfold catchingEncoder EncoderRun
  split <;> simp

theorem embeddedEncoder_run (outcome : Outcome) : EncoderRun (embeddedEncoder outcome) := by
  unfold embeddedEncoder EncoderRun
  split
  · rename_i h
    simp [h]
  · simp

theorem runEncoder_run (env : ExportEnvironment) (encoder : Encoder) :
    EncoderRun (runEncoder env encoder) := by
  cases encoder <;>
    first
      | exact writingEncoder_run env
      | exact catchingEncoder_run env
      | exact embeddedEncoder_run _

theorem finishExport_statusOrError (events : List ExportEvent)
    (run : List ExportEvent × Outcome) (hevents : BeforeEncoder events) (hrun : EncoderRun run) :
    StatusOrError (finishExport events run) := by
  obtain ⟨hs, he, _⟩ := hevents
  obtain ⟨hrs, hre⟩ := hrun
  obtain ⟨runEvents, outcome⟩ := run
  simp only at hrs hre
  unfold finishExport StatusOrError
  cases outcome with
  | returned value =>
    cases value with
    | true =>
      have hne : ExportEvent.errorHandler ∉ runEvents := fun h => hre h rfl
      simp [he, hne]
    | false => simp [hs, hrs]
  | threw message => simp [hs, hrs]
  | aborted => simp [hs, hrs]

theorem exportToChosenFile_statusOrError (env : ExportEnvironment) (events : List ExportEvent)
    (name : DefaultName) (run : List ExportEvent × Outcome) (hevents : BeforeEncoder events)
    (hrun : EncoderRun run) :
    StatusOrError (exportToChosenFile env events name run)
      ∧ (env.routeFile = [] →
          ExportEvent.encoderCalled ∉ (exportToChosenFile env events name run).1
            ∧ ExportEvent.setStatusMessage ∉ (exportToChosenFile env events name run).1) := by
  obtain ⟨hs, he, hc⟩ := hevents
  unfold exportToChosenFile
  cases defaultFilename env name with
  | none => simp [StatusOrError, hs, hc]
  | some filename =>
    by_cases hfile : env.routeFile = []
    · simp [StatusOrError, hfile, hs, hc]
    · simp only [hfile, ne_eq, not_false_eq_true, if_true, false_implies, and_true]
      exact finishExport_statusOrError _ _ (by simp [BeforeEncoder, hs, he, hc]) hrun

theorem validate_beforeEncoder (events : List ValidateEvent) :
    BeforeEncoder (events.map ExportEvent.validate) := by
  simp [BeforeEncoder]

theorem exportValidated_statusOrError (env : ExportEnvironment)
    (validateDepartureAndDestination : Bool) (name : DefaultName)
    (run : List ExportEvent × Outcome) (hrun : EncoderRun run) :
    StatusOrError (exportValidated env validateDepartureAndDestination name run)
      ∧ (env.routeFile = [] →
          ExportEvent.encoderCalled
              ∉ (exportValidated env validateDepartureAndDestination name run).1
            ∧ ExportEvent.setStatusMessage
              ∉ (exportValidated env validateDepartureAndDestination name run).1)
      ∧ ((routeValidate env.validity false validateDepartureAndDestination env.answer).1
            = false →
          ExportEvent.encoderCalled
              ∉ (exportValidated env validateDepartureAndDestination name run).1
            ∧ ExportEvent.setStatusMessage
              ∉ (exportValidated env validateDepartureAndDestination name run).1) := by
  unfold exportValidated
  obtain ⟨valid, events⟩ :=
    routeValidate env.validity false validateDepartureAndDestination env.answer
  have hbefore := validate_beforeEncoder events
  cases valid with
  | true =>
    have h := exportToChosenFile_statusOrError env _ name run hbefore hrun
    exact ⟨h.1, h.2, fun hfalse => absurd hfalse (by simp)⟩
  | false =>
    simp only [StatusOrError, hbefore.1, hbefore.2.2, not_false_eq_true, and_self,
      implies_true, and_true, false_and, false_iff]
    simp

theorem exportWithDialog_statusOrError (env : ExportEnvironment) (name : DefaultName)
    (encoder : RouteExportData → Encoder) :
    StatusOrError (exportWithDialog env name encoder)
      ∧ (env.routeFile = [] →
          ExportEvent.encoderCalled ∉ (exportWithDialog env name encoder).1
            ∧ ExportEvent.setStatusMessage ∉ (exportWithDialog env name encoder).1)
      ∧ ((routeValidate env.validity false true env.answer).1 = false →
          ExportEvent.encoderCalled ∉ (exportWithDialog env name encoder).1
            ∧ ExportEvent.setStatusMessage ∉ (exportWithDialog env name encoder).1)
      ∧ (env.dialogData = none →
          ExportEvent.encoderCalled ∉ (exportWithDialog env name encoder).1
            ∧ ExportEvent.setStatusMessage ∉ (exportWithDialog env name encoder).1) := by
  unfold exportWithDialog
  obtain ⟨valid, events⟩ := routeValidate env.validity false true env.answer
  have hbefore := validate_beforeEncoder events
  have hdialog : BeforeEncoder (events.map ExportEvent.validate ++ [ExportEvent.routeExportDialog]) := by
    simp [BeforeEncoder]
  cases valid with
  | true =>
    cases hdata : env.dialogData with
    | none =>
      simp only [StatusOrError, hdialog.1, hdialog.2.2, not_false_eq_true, and_self,
        implies_true, and_true, false_and, false_iff]
      simp
    | some data =>
      have h := exportToChosenFile_statusOrError env _ name (runEncoder env (encoder data))
        hdialog (runEncoder_run env (encoder data))
      exact ⟨h.1, h.2, fun hfalse => absurd hfalse (by simp),
        fun hnone => absurd hnone (by simp)⟩
  | false =>
    simp only [StatusOrError, hbefore.1, hbefore.2.2, not_false_eq_true, and_self,
      implies_true, and_true, false_and, false_iff]
    simp

theorem contract_of_exportValidated (env : ExportEnvironment) (operation : ExportOperation)
    (validateDepartureAndDestination : Bool) (name : DefaultName)
    (run : List ExportEvent × Outcome) (hrun : EncoderRun run)
    (hval : operationValidation operation = some (false, validateDepartureAndDestination))
    (hdia : operationHasDialog operation = false)
    (heq : routeExport env operation
      = exportValidated env validateDepartureAndDestination name run) :
    OperationContract env operation := by
  have h := exportValidated_statusOrError env validateDepartureAndDestination name run hrun
  rw [← heq] at h
  refine ⟨h.1.1, h.1.2, ?_, fun hd => absurd hd (by simp [hdia]), h.2.1⟩
  intro vp vdd hv hfalse
  rw [hval] at hv
  simp only [Option.some.injEq, Prod.mk.injEq] at hv
  rw [← hv.1, ← hv.2] at hfalse
  exact h.2.2 hfalse

theorem contract_of_exportWithDialog (env : ExportEnvironment) (operation : ExportOperation)
    (name : DefaultName) (encoder : RouteExportData → Encoder)
    (hval : operationValidation operation = some (false, true))
    (heq : routeExport env operation = exportWithDialog env name encoder) :
    OperationContract env operation := by
  have h := exportWithDialog_statusOrError env name encoder
  rw [← heq] at h
  refine ⟨h.1.1, h.1.2, ?_, fun _ hnone => h.2.2.2 hnone, h.2.1⟩
  intro vp vdd hv hfalse
  rw [hval] at hv
  simp only [Option.some.injEq, Prod.mk.injEq] at hv
  rw [← hv.1, ← hv.2] at hfalse
  exact h.2.2.1 hfalse

/-- C15: for every export operation and every behaviour of what it calls, the status
message is set exactly when the operation returns `true`, and never together with
a call of the error handler; when the validation fails, the export dialog is
declined or the file dialog returns an empty path, no encoder is called and no
status message is set. -/
theorem routeExport_status_or_error (env : ExportEnvironment) (operation : ExportOperation) :
    (ExportEvent.setStatusMessage ∈ (routeExport env operation).1
        ↔ (routeExport env operation).2 = Outcome.returned true)
      ∧ ¬ (ExportEvent.setStatusMessage ∈ (routeExport env operation).1
          ∧ ExportEvent.errorHandler ∈ (routeExport env operation).1)
      ∧ (∀ validateParking validateDepartureAndDestination,
          operationValidation operation
            = some (validateParking, validateDepartureAndDestination) →
          (routeValidate env.validity validateParking validateDepartureAndDestination
            env.answer).1 = false →
          ExportEvent.encoderCalled ∉ (routeExport env operation).1
            ∧ ExportEvent.setStatusMessage ∉ (routeExport env operation).1)
      ∧ (operationHasDialog operation = true → env.dialogData = none →
          ExportEvent.encoderCalled ∉ (routeExport env operation).1
            ∧ ExportEvent.setStatusMessage ∉ (routeExport env operation).1)
      ∧ (env.routeFile = [] →
          ExportEvent.encoderCalled ∉ (routeExport env operation).1
            ∧ ExportEvent.setStatusMessage ∉ (routeExport env operation).1) := by
  cases operation
  case Html =>
    have hrun : EncoderRun
        (if env.textFile.writable then ([ExportEvent.encoderCalled], Outcome.returned true)
         else ([ExportEvent.errorHandler], Outcome.returned false)) := by
      unfold EncoderRun
      split <;> simp
    have h := exportToChosenFile_statusOrError env [] (DefaultName.shortOrLong [] ".html".toList)
      _ (by simp [BeforeEncoder]) hrun
    exact ⟨h.1.1, h.1.2, fun vp vdd hv => absurd hv (by simp [operationValidation]),
      fun hd => absurd hd (by simp [operationHasDialog]), h.2⟩
  case Vfp => exact contract_of_exportWithDialog env _ _ _ rfl rfl
  case XIvap => exact contract_of_exportWithDialog env _ _ _ rfl rfl
  case Ivap => exact contract_of_exportWithDialog env _ _ _ rfl rfl
  case Tfdi =>
    exact contract_of_exportValidated env _ true _ _ (catchingEncoder_run env) rfl rfl rfl
  case Gpx =>
    exact contract_of_exportValidated env _ false _ _ (runEncoder_run env _) rfl rfl rfl
  all_goals
    exact contract_of_exportValidated env _ true _ _ (runEncoder_run env _) rfl rfl rfl

/-- Witness for C15: the UFMC export in an environment where everything succeeds sets
the status message and returns `true`; with a file that cannot be written it calls
the error handler and returns `false`. -/
theorem routeExport_status_or_error_witness :
    routeExport sampleEnvironment ExportOperation.UFmc
        = ([ExportEvent.saveFileDialog, ExportEvent.encoderCalled,
            ExportEvent.setStatusMessage], Outcome.returned true)
      ∧ routeExport sampleEnvironmentReadOnly ExportOperation.UFmc
        = ([ExportEvent.saveFileDialog, ExportEvent.encoderCalled, ExportEvent.errorHandler],
            Outcome.returned false)
      ∧ OperationContract sampleEnvironment ExportOperation.UFmc :=
  ⟨by decide, by decide, routeExport_status_or_error sampleEnvironment ExportOperation.UFmc⟩

/-! ## UFMC: the direct token before the destination -/

theorem replaceInString_ne_DCT (s : QString) : replaceInString s ≠ DCT := by
  unfold replaceInString
  by_cases h : s = DCT
  · rw [if_pos h]
    decide
  · rw [if_neg h]
    exact h

/-- A list of at least three items is a first item, a middle part and two last items. -/
theorem list_three_split {α : Type} (t : List α) (hn : 3 ≤ t.length) :
    ∃ a mid y z, t = a :: (mid ++ [y, z]) := by
  rcases List.eq_nil_or_concat t with h | ⟨l1, z, h⟩
  · subst h
    simp at hn
  · subst h
    rcases List.eq_nil_or_concat l1 with h | ⟨l2, y, h⟩
    · subst h
      simp at hn
    · subst h
      cases l2 with
      | nil => simp at hn
      | cons a mid => exact ⟨a, mid, y, z, by simp⟩

theorem getD_middle_last {α : Type} (a y z d : α) (mid : List α) :
    (a :: (mid ++ [y, z])).getD (mid.length + 1) d = y
      ∧ (a :: (mid ++ [y, z])).getD (mid.length + 2) d = z
      ∧ (a :: (mid ++ [y, z])).eraseIdx (mid.length + 1) = a :: (mid ++ [z]) := by
  refine ⟨?_, ?_, ?_⟩
  · simp [List.getD_eq_getElem?_getD, List.getElem_append_right]
  · simp [List.getD_eq_getElem?_getD, List.getElem_append_right]
  · simp only [List.eraseIdx_cons_succ, List.cons.injEq, true_and]
    rw [List.eraseIdx_append_of_length_le (le_refl _)]
    simp

/-- The token list after the removal of a `DCT` in second-to-last position. -/
theorem ufmcList_last_direct (a z : QString) (mid : List QString) :
    ufmcList (a :: (mid ++ [DCT, z])) = (a :: (mid ++ [z])).map replaceInString := by
  obtain ⟨h1, -, h3⟩ := getD_middle_last a DCT z [] mid
  have hlen : (a :: (mid ++ [DCT, z])).length - 2 = mid.length + 1 := by simp
  unfold ufmcList
  rw [hlen, h1, h3, if_pos ⟨by simp, rfl⟩]

/-- The lines written for a token list with a `DCT` in second-to-last position. -/
theorem ufmcLines_last_direct (a z : QString) (mid : List QString) :
    ufmcLines (ufmcList (a :: (mid ++ [DCT, z])))
      = some ([replaceInString a, replaceInString z] ++ mid.map replaceInString
          ++ ["99".toList]) := by
  rw [ufmcList_last_direct]
  have hlast : (replaceInString a :: (mid.map replaceInString ++ [replaceInString z])).getLast?
      = some (replaceInString z) := by
    rw [← List.cons_append, List.getLast?_append]
    rfl
  simp [ufmcLines, hlast]

/-- C24 (as amended): for a token list `t` of `n ≥ 3` tokens whose second-to-last
token is `DCT` and which has no two adjacent `DCT` tokens, `exportFlighplanAsUFmc`
removes that one token and writes `r(t[0])`, `r(t[n-1])`, `r(t[1]) .. r(t[n-3])`,
`99` (`n` lines). No line equals `DCT`. For `n ≥ 4` the line before the sentinel is
`r(t[n-3])` where `t[n-3]` is not `DCT`: it is no renamed `DCT`, and it reads
`DIRECT` only if the token `t[n-3]` itself reads `DIRECT`. -/
theorem exportFlighplanAsUFmc_last_direct (file : TextFile) (t : List QString)
    (hw : file.writable = true) (hn : 3 ≤ t.length)
    (hd : t.getD (t.length - 2) [] = DCT)
    (hadj : ∀ i, i + 1 < t.length → t.getD i [] = DCT → t.getD (i + 1) [] ≠ DCT) :
    ufmcList t = (t.eraseIdx (t.length - 2)).map replaceInString
      ∧ (ufmcList t).length + 1 = t.length
      ∧ exportFlighplanAsUFmc file t =
          (file.write (streamLines
            ([replaceInString (t.getD 0 []), replaceInString (t.getD (t.length - 1) [])]
              ++ ((t.drop 1).take (t.length - 3)).map replaceInString ++ ["99".toList])),
            Outcome.returned true)
      ∧ ([replaceInString (t.getD 0 []), replaceInString (t.getD (t.length - 1) [])]
            ++ ((t.drop 1).take (t.length - 3)).map replaceInString
            ++ ["99".toList]).length = t.length
      ∧ (∀ line ∈ [replaceInString (t.getD 0 []), replaceInString (t.getD (t.length - 1) [])]
            ++ ((t.drop 1).take (t.length - 3)).map replaceInString ++ ["99".toList],
          line ≠ DCT)
      ∧ (4 ≤ t.length →
          ([replaceInString (t.getD 0 []), replaceInString (t.getD (t.length - 1) [])]
              ++ ((t.drop 1).take (t.length - 3)).map replaceInString
              ++ ["99".toList]).getD (t.length - 2) []
            = replaceInString (t.getD (t.length - 3) [])
          ∧ t.getD (t.length - 3) [] ≠ DCT
          ∧ (t.getD (t.length - 3) [] ≠ "DIRECT".toList →
              replaceInString (t.getD (t.length - 3) []) ≠ "DIRECT".toList)) := by
  obtain ⟨a, mid, y, z, rfl⟩ := list_three_split t hn
  obtain ⟨h1, h2, h3⟩ := getD_middle_last a y z [] mid
  have hlen : (a :: (mid ++ [y, z])).length = mid.length + 3 := by simp
  have hy : y = DCT := by
    rw [hlen, show mid.length + 3 - 2 = mid.length + 1 by omega, h1] at hd
    exact hd
  subst hy
  have hdrop : ((a :: (mid ++ [DCT, z])).drop 1).take ((a :: (mid ++ [DCT, z])).length - 3)
      = mid := by
    rw [hlen]
    simp
  have hfirst : (a :: (mid ++ [DCT, z])).getD 0 [] = a := rfl
  have hlast : (a :: (mid ++ [DCT, z])).getD ((a :: (mid ++ [DCT, z])).length - 1) [] = z := by
    rw [hlen, show mid.length + 3 - 1 = mid.length + 2 by omega, h2]
  rw [hdrop, hfirst, hlast]
  refine ⟨?_, ?_, ?_, ?_, ?_, ?_⟩
  · rw [hlen, show mid.length + 3 - 2 = mid.length + 1 by omega, h3]
    exact ufmcList_last_direct a z mid
  · rw [ufmcList_last_direct, hlen]
    simp
  · simp only [exportFlighplanAsUFmc, hw, if_true, ufmcLines_last_direct]
  · rw [hlen]
    simp
  · intro line hline
    simp only [List.mem_append, List.mem_cons, List.mem_map, List.mem_singleton,
      List.not_mem_nil, or_false] at hline
    rcases hline with ((rfl | rfl) | ⟨s, -, rfl⟩) | rfl
    · exact replaceInString_ne_DCT _
    · exact replaceInString_ne_DCT _
    · exact replaceInString_ne_DCT _
    · decide
  · intro h4
    rcases List.eq_nil_or_concat mid with hmid | ⟨front, x, hmid⟩
    · subst hmid
      simp at h4
    · rw [List.concat_eq_append] at hmid
      subst hmid
      have hlen2 : (a :: (front ++ [x] ++ [DCT, z])).length = front.length + 4 := by simp
      have hx : (a :: (front ++ [x] ++ [DCT, z])).getD
          ((a :: (front ++ [x] ++ [DCT, z])).length - 3) [] = x := by
        rw [hlen2, show front.length + 4 - 3 = front.length + 1 by omega]
        simp [List.getD_eq_getElem?_getD, List.getElem_append_right]
      have hline : ([replaceInString a, replaceInString z]
            ++ (front ++ [x]).map replaceInString
            ++ ["99".toList]).getD ((a :: (front ++ [x] ++ [DCT, z])).length - 2) []
          = replaceInString x := by
        rw [hlen2, show front.length + 4 - 2 = front.length + 2 by omega]
        simp [List.getD_eq_getElem?_getD, List.getElem_append_right]
      have hnot : x ≠ DCT := by
        intro hxd
        have hnext := hadj (front.length + 1) (by rw [hlen2]; omega)
          (by
            have := hx
            rw [hlen2, show front.length + 4 - 3 = front.length + 1 by omega] at this
            rw [this]
            exact hxd)
        apply hnext
        have := hd
        rw [hlen2, show front.length + 4 - 2 = front.length + 1 + 1 by omega] at this
        exact this
      rw [hx, hline]
      refine ⟨rfl, hnot, ?_⟩
      intro hdirect
      unfold replaceInString
      rw [if_neg hnot]
      exact hdirect

/-- Witness for C24: KJFK DCT CYYZ gives the lines KJFK, CYYZ, 99. -/
theorem exportFlighplanAsUFmc_last_direct_witness :
    exportFlighplanAsUFmc ⟨none, true, true⟩ ["KJFK".toList, "DCT".toList, "CYYZ".toList]
      = (⟨some "KJFK\nCYYZ\n99\n".toList, true, true⟩, Outcome.returned true) :=
  (exportFlighplanAsUFmc_last_direct ⟨none, true, true⟩
    ["KJFK".toList, "DCT".toList, "CYYZ".toList] rfl (by decide) (by decide)
    (by
      intro i hi
      have hcases : i = 0 ∨ i = 1 := by
        simp only [List.length_cons, List.length_nil] at hi
        omega
      rcases hcases with rfl | rfl <;> decide)).2.2.1.trans (by decide)

/-- Counterexample for C24 as stated: KJFK DIRECT DCT CYYZ has four tokens, `DCT` in
second-to-last position and no two adjacent `DCT` tokens; the line before the
sentinel comes from the middle token `DIRECT` and reads `DIRECT`. -/
theorem exportFlighplanAsUFmc_last_direct_counterexample :
    3 ≤ ["KJFK".toList, "DIRECT".toList, "DCT".toList, "CYYZ".toList].length
      ∧ ["KJFK".toList, "DIRECT".toList, "DCT".toList, "CYYZ".toList].getD 2 [] = DCT
      ∧ (∀ i, i < 3 →
          ¬ (["KJFK".toList, "DIRECT".toList, "DCT".toList, "CYYZ".toList].getD i [] = DCT
            ∧ ["KJFK".toList, "DIRECT".toList, "DCT".toList, "CYYZ".toList].getD (i + 1) []
              = DCT))
      ∧ exportFlighplanAsUFmc ⟨none, true, true⟩
          ["KJFK".toList, "DIRECT".toList, "DCT".toList, "CYYZ".toList]
        = (⟨some "KJFK\nCYYZ\nDIRECT\n99\n".toList, true, true⟩, Outcome.returned true) := by
  decide

/-- C27: for a token list `[X]` or `[DCT, X]`, one token `X` is left after the removal
of a `DCT` in second-to-last position, and `exportFlighplanAsUFmc` writes `r(X)`,
`r(X)`, `99`: the token is both the departure line and the destination line, so
there are more lines before the sentinel than tokens. These are the only token lists
that leave exactly one token. -/
theorem exportFlighplanAsUFmc_single_token (file : TextFile) (t : List QString) (X : QString)
    (hw : file.writable = true) (ht : t = [X] ∨ t = [DCT, X]) :
    ufmcList t = [replaceInString X]
      ∧ exportFlighplanAsUFmc file t =
          (file.write (streamLines [replaceInString X, replaceInString X, "99".toList]),
            Outcome.returned true)
      ∧ (ufmcList t).length < [replaceInString X, replaceInString X].length
      ∧ ∀ s : List QString, (ufmcList s).length = 1 → ∃ Y, s = [Y] ∨ s = [DCT, Y] := by
  have hlist : ufmcList t = [replaceInString X] := by
    rcases ht with rfl | rfl
    · simp [ufmcList]
    · simp [ufmcList, List.eraseIdx]
  refine ⟨hlist, ?_, ?_, ?_⟩
  · simp [exportFlighplanAsUFmc, hw, hlist, ufmcLines]
  · rw [hlist]
    simp
  · intro s hs
    unfold ufmcList at hs
    by_cases hcond : 2 ≤ s.length ∧ s.getD (s.length - 2) [] = DCT
    · rw [if_pos hcond, List.length_map, List.length_eraseIdx] at hs
      have hlt : s.length - 2 < s.length := by omega
      rw [if_pos hlt] at hs
      have h2 : s.length = 2 := by omega
      match s, h2, hcond with
      | [y, z], _, hcond =>
        refine ⟨z, Or.inr ?_⟩
        have : y = DCT := hcond.2
        rw [this]
    · rw [if_neg hcond, List.length_map] at hs
      match s, hs with
      | [y], _ => exact ⟨y, Or.inl rfl⟩

/-- Witness for C27: the single token CYYZ and the list DCT CYYZ both give the lines
CYYZ, CYYZ, 99. -/
theorem exportFlighplanAsUFmc_single_token_witness :
    exportFlighplanAsUFmc ⟨none, true, true⟩ ["CYYZ".toList]
        = (⟨some "CYYZ\nCYYZ\n99\n".toList, true, true⟩, Outcome.returned true)
      ∧ exportFlighplanAsUFmc ⟨none, true, true⟩ ["DCT".toList, "CYYZ".toList]
        = (⟨some "CYYZ\nCYYZ\n99\n".toList, true, true⟩, Outcome.returned true) :=
  ⟨(exportFlighplanAsUFmc_single_token ⟨none, true, true⟩ ["CYYZ".toList] "CYYZ".toList rfl
      (Or.inl rfl)).2.1.trans (by decide),
   (exportFlighplanAsUFmc_single_token ⟨none, true, true⟩ ["DCT".toList, "CYYZ".toList]
      "CYYZ".toList rfl (Or.inr rfl)).2.1.trans (by decide)⟩

/-! ## corte.in: the candidates of the name loop -/

theorem number_length_two : ∀ k, k < 100 → (number (Int.ofNat k)).length ≤ 2 := by
  decide

/-- A counter below 100 padded to a width of at least two is the counter on two
digits behind zeros. -/
theorem argInt_wide (k : Nat) (hk : k < 100) (width : Nat) (hwidth : 2 ≤ width) :
    argInt (Int.ofNat k) width '0'
      = List.replicate (width - 2) '0' ++ argInt (Int.ofNat k) 2 '0' := by
  have hlen := number_length_two k hk
  unfold argInt
  rw [← List.append_assoc, ← List.replicate_add]
  congr 2
  omega

theorem argInt_two_length (k : Nat) (hk : k < 100) :
    (argInt (Int.ofNat k) 2 '0').length = 2 := by
  rw [argInt_two_digits k hk]
  rfl

/-- From the first pass on, a candidate is the first six characters of the base name,
filled with zeros up to six characters, and the counter on two digits. -/
theorem corteInCandidate_shape (name : QString) :
    ∀ k, 1 ≤ k → k ≤ 99 →
      corteInCandidate name k
        = left name 6 ++ List.replicate (6 - (left name 6).length) '0'
            ++ argInt (Int.ofNat k) 2 '0' := by
  intro k
  induction k with
  | zero => intro h; omega
  | succ k ih =>
    intro _ hk
    have hleft : (left name 6).length ≤ 6 := by
      simp only [left, List.length_take]
      omega
    cases k with
    | zero =>
      show corteInNextName name 1 = _
      simp only [corteInNextName, arg12]
      rw [argInt_wide 1 (by omega) _ (by omega), List.append_assoc]
      congr 3
      omega
    | succ j =>
      have hprev := ih (by omega) (by omega)
      show corteInNextName (corteInCandidate name (j + 1)) (j + 1 + 1) = _
      have htake : left (corteInCandidate name (j + 1)) 6
          = left name 6 ++ List.replicate (6 - (left name 6).length) '0' := by
        rw [hprev]
        unfold left
        apply List.take_left'
        rw [← left]
        simp only [List.length_append, List.length_replicate]
        omega
      have hlen6 : (left (corteInCandidate name (j + 1)) 6).length = 6 := by
        rw [htake]
        simp only [List.length_append, List.length_replicate]
        omega
      simp only [corteInNextName, arg12]
      rw [hlen6, htake]

theorem left_min (name : QString) : left name (min 6 name.length) = left name 6 := by
  unfold left
  by_cases h : name.length ≤ 6
  · rw [min_eq_right h, List.take_of_length_le (le_refl _), List.take_of_length_le h]
  · rw [min_eq_left (by omega)]

/-- From the first pass on, a candidate is the base name cut to six characters and
the counter padded to the rest of eight characters; it has eight characters. -/
theorem corteInCandidate_padded (name : QString) (k : Nat) (h1 : 1 ≤ k) (h98 : k ≤ 98) :
    corteInCandidate name k
        = left name (min 6 name.length)
            ++ argInt (Int.ofNat k) (8 - min 6 name.length) '0'
      ∧ (corteInCandidate name k).length = 8 := by
  have hshape := corteInCandidate_shape name k h1 (by omega)
  have hlen : (left name 6).length = min 6 name.length := by
    simp [left]
  have hmin : min 6 name.length ≤ 6 := min_le_left _ _
  constructor
  · rw [hshape, left_min, argInt_wide k (by omega) (8 - min 6 name.length) (by omega), hlen,
      List.append_assoc]
    congr 3
    omega
  · have h2 := argInt_two_length k (by omega)
    rw [hshape, List.length_append, List.length_append, h2, List.length_replicate, hlen]
    omega

/-- C23: for every base name `B` and every `k` in `1..98`, the `k`-th candidate of the
name loop of `exportFlighplanAsCorteIn` is the first `min(6, |B|)` characters of `B`
followed by `k` padded with zeros to the width `8 - min(6, |B|)`, and has exactly
eight characters, although each pass cuts the previous candidate, not `B`, to six
characters. It is the name chosen when the earlier candidates are in use and it is
not; when `B` is not in use the name is `B` as it is. -/
theorem corteIn_suffix_arithmetic (routeNames : List QString) (B : QString) (k : Nat)
    (h1 : 1 ≤ k) (h98 : k ≤ 98) :
    corteInCandidate B k
        = left B (min 6 B.length) ++ argInt (Int.ofNat k) (8 - min 6 B.length) '0'
      ∧ (corteInCandidate B k).length = 8
      ∧ corteInCandidate B k
          = left (corteInCandidate B (k - 1)) 6
              ++ argInt (Int.ofNat k) (8 - (left (corteInCandidate B (k - 1)) 6).length) '0'
      ∧ ((∀ j, j < k → corteInCandidate B j ∈ routeNames) →
          corteInCandidate B k ∉ routeNames →
          corteInUniqueName routeNames B = corteInCandidate B k)
      ∧ (B ∉ routeNames → corteInUniqueName routeNames B = B) := by
  obtain ⟨hshape, hlen⟩ := corteInCandidate_padded B k h1 h98
  refine ⟨hshape, hlen, ?_, ?_, ?_⟩
  · obtain ⟨j, rfl⟩ : ∃ j, k = j + 1 := ⟨k - 1, by omega⟩
    rfl
  · intro hused hfree
    obtain ⟨m, -, hname, hnot, hmin⟩ :=
      corteInUniqueName_first_free routeNames B ⟨k, h98, hfree⟩
    have hmk : m = k := by
      rcases Nat.lt_trichotomy m k with h | h | h
      · exact absurd (hused m h) hnot
      · exact h
      · exact absurd (hmin k h) hfree
    rw [hname, hmk]
  · intro hfree
    obtain ⟨m, -, hname, -, hmin⟩ :=
      corteInUniqueName_first_free routeNames B ⟨0, by omega, hfree⟩
    have hm : m = 0 := by
      by_contra hne
      exact hfree (hmin 0 (by omega))
    rw [hname, hm]
    rfl

/-- Witness for C23: the base name AB with AB and AB000001 in use gets the second
candidate, AB000002; the twelfth candidate for EGLLEHAM is EGLLEH12. -/
theorem corteIn_suffix_arithmetic_witness :
    corteInUniqueName ["AB".toList, "AB000001".toList] "AB".toList = "AB000002".toList
      ∧ corteInCandidate "EGLLEHAM".toList 12 = "EGLLEH12".toList :=
  ⟨((corteIn_suffix_arithmetic ["AB".toList, "AB000001".toList] "AB".toList 2 (by decide)
      (by decide)).2.2.2.1 (by decide) (by decide)).trans (by decide),
   (corteIn_suffix_arithmetic [] "EGLLEHAM".toList 12 (by decide) (by decide)).1.trans
      (by decide)⟩

/-! ## corte.in: the format of the appended record -/

/-- C21 (as amended): for every flight plan and every existing corte.in file that can
be read and written, `exportFlighplanAsCorteIn` appends the record
`RTE <name> <route string>`. The name is the concatenation `B` of departure and
destination ident when `B` is not among the names read from the file, and has
exactly eight characters otherwise; it has between six and eight characters whenever
`B` has. -/
theorem exportFlighplanAsCorteIn_record_format (file : TextFile) (content : QString)
    (flightplan : Flightplan) (txt : QString)
    (hc : file.content = some content) (hr : file.readable = true)
    (hw : file.writable = true) :
    ∃ name,
      exportFlighplanAsCorteIn file flightplan txt =
          (file.write (content ++ (if fileEndsWithEol content then [] else ['\n'])
            ++ ("RTE ".toList ++ name ++ " ".toList ++ txt)), Outcome.returned true)
        ∧ (flightplan.departureIdent ++ flightplan.destinationIdent ∉ corteInRouteNames content →
            name = flightplan.departureIdent ++ flightplan.destinationIdent)
        ∧ (flightplan.departureIdent ++ flightplan.destinationIdent ∈ corteInRouteNames content →
            name.length = 8)
        ∧ (6 ≤ (flightplan.departureIdent ++ flightplan.destinationIdent).length →
            (flightplan.departureIdent ++ flightplan.destinationIdent).length ≤ 8 →
            6 ≤ name.length ∧ name.length ≤ 8) := by
  have hrun : exportFlighplanAsCorteIn file flightplan txt =
      (file.write (content ++ (if fileEndsWithEol content then [] else ['\n'])
        ++ ("RTE ".toList ++ corteInUniqueName (corteInRouteNames content)
              (flightplan.departureIdent ++ flightplan.destinationIdent)
            ++ " ".toList ++ txt)), Outcome.returned true) := by
    simp only [exportFlighplanAsCorteIn, hc, hr, hw, if_true, corteInRecord]
  generalize flightplan.departureIdent ++ flightplan.destinationIdent = B at hrun ⊢
  have hcases : (B ∉ corteInRouteNames content ∧
        corteInUniqueName (corteInRouteNames content) B = B)
      ∨ (B ∈ corteInRouteNames content ∧
        (corteInUniqueName (corteInRouteNames content) B).length = 8) := by
    by_cases hB : B ∈ corteInRouteNames content
    · right
      refine ⟨hB, ?_⟩
      by_cases hfree : ∃ k, k ≤ 98 ∧ corteInCandidate B k ∉ corteInRouteNames content
      · obtain ⟨m, hm, hname, hnot, -⟩ := corteInUniqueName_first_free _ B hfree
        have hpos : 1 ≤ m := by
          rcases Nat.eq_zero_or_pos m with h0 | h0
          · subst h0
            exact absurd hB hnot
          · exact h0
        rw [hname]
        exact (corteInCandidate_padded B m hpos hm).2
      · have hall : ∀ m, m ≤ 98 → corteInCandidate B m ∈ corteInRouteNames content := by
          intro m hm
          by_contra hne
          exact hfree ⟨m, hm, hne⟩
        rw [corteInUniqueName_exhausted _ B hall]
        exact (corteInCandidate_padded B 98 (by omega) (by omega)).2
    · left
      refine ⟨hB, ?_⟩
      obtain ⟨m, -, hname, -, hmin⟩ :=
        corteInUniqueName_first_free (corteInRouteNames content) B ⟨0, by omega, hB⟩
      have hm : m = 0 := by
        by_contra hne
        exact hB (hmin 0 (by omega))
      rw [hname, hm]
      rfl
  refine ⟨corteInUniqueName (corteInRouteNames content) B, hrun, ?_, ?_, ?_⟩
  · intro hB
    rcases hcases with h | h
    · exact h.2
    · exact absurd h.1 hB
  · intro hB
    rcases hcases with h | h
    · exact absurd hB h.1
    · exact h.2
  · intro h6 h8
    rcases hcases with h | h
    · rw [h.2]
      exact ⟨h6, h8⟩
    · rw [h.2]
      exact ⟨by omega, by omega⟩

/-- Witness for C21: a plan from EGLL to EHAM and a file that holds the name EGLLEHAM;
the record is appended under the name EGLLEH01. -/
theorem exportFlighplanAsCorteIn_record_format_witness :
    ∃ name,
      exportFlighplanAsCorteIn ⟨some "RTE EGLLEHAM EGLL DCT EHAM\n".toList, true, true⟩
          planEgllEham "EGLL X EHAM".toList =
          ((⟨some "RTE EGLLEHAM EGLL DCT EHAM\n".toList, true, true⟩ : TextFile).write
            ("RTE EGLLEHAM EGLL DCT EHAM\n".toList
              ++ (if fileEndsWithEol "RTE EGLLEHAM EGLL DCT EHAM\n".toList then [] else ['\n'])
              ++ ("RTE ".toList ++ name ++ " ".toList ++ "EGLL X EHAM".toList)),
            Outcome.returned true)
        ∧ (planEgllEham.departureIdent ++ planEgllEham.destinationIdent
              ∉ corteInRouteNames "RTE EGLLEHAM EGLL DCT EHAM\n".toList →
            name = planEgllEham.departureIdent ++ planEgllEham.destinationIdent)
        ∧ (planEgllEham.departureIdent ++ planEgllEham.destinationIdent
              ∈ corteInRouteNames "RTE EGLLEHAM EGLL DCT EHAM\n".toList →
            name.length = 8)
        ∧ (6 ≤ (planEgllEham.departureIdent ++ planEgllEham.destinationIdent).length →
            (planEgllEham.departureIdent ++ planEgllEham.destinationIdent).length ≤ 8 →
            6 ≤ name.length ∧ name.length ≤ 8) :=
  exportFlighplanAsCorteIn_record_format
    ⟨some "RTE EGLLEHAM EGLL DCT EHAM\n".toList, true, true⟩
    "RTE EGLLEHAM EGLL DCT EHAM\n".toList planEgllEham "EGLL X EHAM".toList rfl rfl rfl

/-- Counterexample for C21 as stated: into a file that holds the name EGLLEHAM, the
plan from EGLL to the waypoint REDFA is appended under the name EGLLREDFA of nine
characters, and the plan from CH to BPK under the name CHBPK of five characters. -/
theorem exportFlighplanAsCorteIn_record_format_counterexample :
    exportFlighplanAsCorteIn ⟨some "RTE EGLLEHAM EGLL DCT EHAM\n".toList, true, true⟩
          planEgllRedfa "EGLL DCT REDFA".toList
        = (⟨some "RTE EGLLEHAM EGLL DCT EHAM\nRTE EGLLREDFA EGLL DCT REDFA".toList, true, true⟩,
            Outcome.returned true)
      ∧ "EGLLREDFA".toList.length = 9
      ∧ exportFlighplanAsCorteIn ⟨some "RTE EGLLEHAM EGLL DCT EHAM\n".toList, true, true⟩
          planChBpk "CH DCT BPK".toList
        = (⟨some "RTE EGLLEHAM EGLL DCT EHAM\nRTE CHBPK CH DCT BPK".toList, true, true⟩,
            Outcome.returned true)
      ∧ "CHBPK".toList.length = 5 := by
  decide

/-! ## vPilot VFP: the shape of the document -/

/-- C22 (as amended): `exportFlighplanAsVfp` writes one element, the root `FlightPlan`,
without child elements and without text. All attributes are written between the start
and the end of that element: the two name space attributes and nineteen attributes
for flight rules, equipment with prefix and suffix, cruise altitude and speed,
departure, destination, alternate, route, remarks, the heavy flag as `true` or
`false`, departure time and actual departure time, enroute and fuel hours and
minutes, and voice type. Callsign, pilot in command, airline, livery, wake category,
transponder code and number of passengers are not written, nor are the second
alternate, the aircraft type and the flight type: a record changed in these fields
gives the same document. -/
theorem exportFlighplanAsVfp_document_shape (exportData : RouteExportData) :
    exportFlighplanAsVfp exportData true
        = (some (vfpWriterCalls exportData), Outcome.returned true)
      ∧ vfpWriterCalls exportData
          = [WriterCall.writeStartDocument "1.0".toList,
              WriterCall.writeStartElement "FlightPlan".toList]
            ++ (writtenAttributes (vfpWriterCalls exportData)).map
                (fun a => WriterCall.writeAttribute a.1 a.2)
            ++ [WriterCall.writeEndElement, WriterCall.writeEndDocument]
      ∧ startedElements (vfpWriterCalls exportData) = ["FlightPlan".toList]
      ∧ (writtenAttributes (vfpWriterCalls exportData)).map Prod.fst = vfpAttributeNames
      ∧ writtenAttribute (vfpWriterCalls exportData) "IsHeavy".toList
          = some (if exportData.heavy then "true".toList else "false".toList)
      ∧ writtenAttribute (vfpWriterCalls exportData) "FlightType".toList
          = some exportData.flightRules
      ∧ writtenAttribute (vfpWriterCalls exportData) "EquipmentPrefix".toList
          = some exportData.equipmentPrefix
      ∧ writtenAttribute (vfpWriterCalls exportData) "EquipmentSuffix".toList
          = some exportData.equipmentSuffix
      ∧ writtenAttribute (vfpWriterCalls exportData) "Remarks".toList
          = some exportData.remarks
      ∧ writtenAttribute (vfpWriterCalls exportData) "VoiceType".toList
          = some exportData.voiceType
      ∧ writtenAttribute (vfpWriterCalls exportData) "DepartureTime".toList
          = some (timeToStringHHmm exportData.departureTime)
      ∧ writtenAttribute (vfpWriterCalls exportData) "DepartureTimeAct".toList
          = some (if exportData.departureTimeActual.isNone then "0".toList
              else timeToStringHHmm exportData.departureTimeActual)
      ∧ ∀ (callsign pilotInCommand airline livery wakeCategory transponder alternate2
            aircraftType flightType : QString) (passengers : Int),
          vfpWriterCalls { exportData with
              callsign := callsign, pilotInCommand := pilotInCommand, airline := airline,
              livery := livery, wakeCategory := wakeCategory, transponder := transponder,
              alternate2 := alternate2, aircraftType := aircraftType,
              flightType := flightType, passengers := passengers }
            = vfpWriterCalls exportData := by
  refine ⟨rfl, rfl, rfl, rfl, ?_, ?_, ?_, ?_, ?_, ?_, ?_, ?_, ?_⟩
  · simp [writtenAttribute, vfpWriterCalls]
  · simp [writtenAttribute, vfpWriterCalls]
  · simp [writtenAttribute, vfpWriterCalls]
  · simp [writtenAttribute, vfpWriterCalls]
  · simp [writtenAttribute, vfpWriterCalls]
  · simp [writtenAttribute, vfpWriterCalls]
  · simp [writtenAttribute, vfpWriterCalls]
  · simp [writtenAttribute, vfpWriterCalls]
  · intro _ _ _ _ _ _ _ _ _ _
    rfl

/-- Witness for C22: the sample record is not heavy and has no actual departure time;
the attributes `IsHeavy` and `DepartureTimeAct` are `false` and `0`. -/
theorem exportFlighplanAsVfp_document_shape_witness :
    writtenAttribute (vfpWriterCalls sampleExportData) "IsHeavy".toList = some "false".toList
      ∧ writtenAttribute (vfpWriterCalls sampleExportData) "DepartureTimeAct".toList
          = some "0".toList
      ∧ (writtenAttributes (vfpWriterCalls sampleExportData)).length = 21 :=
  ⟨(exportFlighplanAsVfp_document_shape sampleExportData).2.2.2.2.1.trans (by decide),
   (exportFlighplanAsVfp_document_shape sampleExportData).2.2.2.2.2.2.2.2.2.2.2.1.trans
      (by decide),
   by decide⟩

/-- Counterexample for C22 as stated: the document written for the sample record does
not change when the callsign VPI333, the pilot in command, the airline, the livery,
the wake category, the transponder code and the number of passengers are replaced,
and none of its attribute values is the callsign. -/
theorem exportFlighplanAsVfp_document_shape_counterexample :
    sampleExportData.callsign = "VPI333".toList
      ∧ exportFlighplanAsVfp
          { sampleExportData with
              callsign := "DLH4AB".toList, pilotInCommand := "OTHER".toList,
              airline := "DLH".toList, livery := "NEW".toList, wakeCategory := "H".toList,
              transponder := "C".toList, passengers := 120 } true
        = exportFlighplanAsVfp sampleExportData true
      ∧ (∀ a ∈ writtenAttributes (vfpWriterCalls sampleExportData),
          a.2 ≠ sampleExportData.callsign) := by
  decide

/-! ## Key=value dialects: empty lines in the text -/

theorem digitChar_no_line_feed : ∀ d, d < 10 → Nat.digitChar d ≠ '\n' := by
  decide

theorem toDigitsCore_no_line_feed :
    ∀ (fuel n : Nat) (acc : List Char), (∀ c ∈ acc, c ≠ '\n') →
      ∀ c ∈ Nat.toDigitsCore 10 fuel n acc, c ≠ '\n' := by
  intro fuel
  induction fuel with
  | zero =>
    intro n acc hacc c hc
    exact hacc c hc
  | succ fuel ih =>
    intro n acc hacc c hc
    have hcons : ∀ x ∈ Nat.digitChar (n % 10) :: acc, x ≠ '\n' := by
      intro x hx
      rcases List.mem_cons.mp hx with rfl | hx
      · exact digitChar_no_line_feed _ (Nat.mod_lt _ (by omega))
      · exact hacc x hx
    unfold Nat.toDigitsCore at hc
    simp only at hc
    split at hc
    · exact hcons c hc
    · exact ih _ _ hcons c hc

theorem number_no_line_feed (n : Int) : '\n' ∉ number n := by
  have hdigits : ∀ m : Nat, ∀ c ∈ Nat.toDigits 10 m, c ≠ '\n' := by
    intro m c hc
    exact toDigitsCore_no_line_feed _ _ [] (by simp) c hc
  intro hmem
  unfold number at hmem
  split at hmem
  · rcases List.mem_cons.mp hmem with h | h
    · exact absurd h (by decide)
    · exact hdigits _ _ h rfl
  · exact hdigits _ _ hmem rfl

theorem argInt_no_line_feed (a : Int) (width : Nat) : '\n' ∉ argInt a width '0' := by
  intro hmem
  simp only [argInt, List.mem_append, List.mem_replicate] at hmem
  rcases hmem with h | h
  · exact absurd h.2 (by decide)
  · exact number_no_line_feed a h

theorem minToHourMinStr_no_line_feed (minutes : Int) : '\n' ∉ minToHourMinStr minutes := by
  intro hmem
  simp only [minToHourMinStr, List.mem_append] at hmem
  rcases hmem with h | h
  · exact argInt_no_line_feed _ _ h
  · exact argInt_no_line_feed _ _ h

theorem timeToStringHHmm_no_line_feed (time : QTime) : '\n' ∉ timeToStringHHmm time := by
  intro hmem
  unfold timeToStringHHmm at hmem
  split at hmem
  · simp only [List.mem_append] at hmem
    rcases hmem with h | h
    · exact argInt_no_line_feed _ _ h
    · exact argInt_no_line_feed _ _ h
  · simp at hmem

theorem splitFields_line (sep : Char) (rest : QString) :
    ∀ (line cur : QString), sep ∉ line →
      splitFields sep (line ++ sep :: rest) cur = (cur ++ line) :: splitFields sep rest [] := by
  intro line
  induction line with
  | nil => intro cur _; simp [splitFields]
  | cons c cs ih =>
    intro cur hline
    have hc : c ≠ sep := fun h => hline (by simp [h])
    have hcs : sep ∉ cs := fun h => hline (List.mem_cons_of_mem _ h)
    simp only [List.cons_append, splitFields, if_neg hc, List.append_eq]
    rw [ih (cur ++ [c]) hcs]
    simp

/-- The lines of the text streamed for lines without line feed are these lines. -/
theorem textLines_streamLines (lines : List QString) (h : ∀ line ∈ lines, '\n' ∉ line) :
    textLines (streamLines lines) = lines := by
  have hsplit : ∀ ls : List QString, (∀ line ∈ ls, '\n' ∉ line) →
      splitFields '\n' (streamLines ls) [] = ls ++ [[]] := by
    intro ls
    induction ls with
    | nil => intro _; rfl
    | cons l rest ih =>
      intro hls
      have hstream : streamLines (l :: rest) = l ++ '\n' :: streamLines rest := by
        simp [streamLines]
      rw [hstream, splitFields_line '\n' _ l [] (hls l (List.mem_cons_self _ _)),
        ih (fun line hline => hls line (List.mem_cons_of_mem _ hline))]
      simp
  unfold textLines
  rw [hsplit lines h]
  simp

/-- No line streamed by `exportFlighplanAsIvap` holds a line feed when no value of the
record does. -/
theorem ivapLines_no_line_feed (exportData : RouteExportData) (type : RouteExportType)
    (h : ∀ value ∈ ivapTexts exportData, '\n' ∉ value) :
    ∀ line ∈ ivapLines exportData type, '\n' ∉ line := by
  have hS : ∀ key value : QString, '\n' ∉ key → '\n' ∉ value →
      ∀ line ∈ writeIvapLine key value type, '\n' ∉ line := by
    intro key value hk hv line hline
    simp only [writeIvapLine, List.mem_append, List.mem_singleton] at hline
    rcases hline with rfl | hline
    · simp only [List.mem_append, not_or]
      exact ⟨⟨hk, by decide⟩, hv⟩
    · split at hline
      · rw [List.mem_singleton.mp hline]
        simp
      · simp at hline
  have hI : ∀ (key : QString) (value : Int), '\n' ∉ key →
      ∀ line ∈ writeIvapLineInt key value type, '\n' ∉ line := by
    intro key value hk line hline
    simp only [writeIvapLineInt, List.mem_append, List.mem_singleton] at hline
    rcases hline with rfl | hline
    · simp only [List.mem_append, not_or]
      exact ⟨⟨hk, by decide⟩, number_no_line_feed value⟩
    · split at hline
      · rw [List.mem_singleton.mp hline]
        simp
      · simp at hline
  have hheader : ∀ line ∈ ["[FLIGHTPLAN]".toList], '\n' ∉ line := by decide
  have hempty : ∀ line ∈ [([] : QString)], '\n' ∉ line := by decide
  unfold ivapLines ivapCommonLines
  by_cases ht : type = RouteExportType.XIVAP
  · rw [if_pos ht]
    simp only [List.forall_mem_append]
    and_intros
    all_goals
      first
        | exact hheader
        | exact hempty
        | exact hI _ _ (by decide)
        | exact hS _ _ (by decide) (minToHourMinStr_no_line_feed _)
        | exact hS _ _ (by decide) (timeToStringHHmm_no_line_feed _)
        | exact hS _ _ (by decide) (by decide)
        | exact hS _ _ (by decide) (h _ (by simp [ivapTexts]))
  · rw [if_neg ht]
    simp only [List.forall_mem_append]
    and_intros
    all_goals
      first
        | exact hheader
        | exact hI _ _ (by decide)
        | exact hS _ _ (by decide) (minToHourMinStr_no_line_feed _)
        | exact hS _ _ (by decide) (timeToStringHHmm_no_line_feed _)
        | exact hS _ _ (by decide) (by decide)
        | exact hS _ _ (by decide) (h _ (by simp [ivapTexts]))

/-- C25: for every export data record whose values hold no line feed, the text
written for IvAp has no empty line, and in the text written for X-IvAp the header
`[FLIGHTPLAN]` and each of the 26 `KEY=VALUE` lines are followed by exactly one empty
line: the text has twice as many lines as it has header and key lines. -/
theorem exportFlighplanAsIvap_blank_lines (file : TextFile) (exportData : RouteExportData)
    (hw : file.writable = true) (h : ∀ value ∈ ivapTexts exportData, '\n' ∉ value) :
    (∃ text,
        exportFlighplanAsIvap file exportData RouteExportType.IVAP
            = (file.write text, Outcome.returned true)
          ∧ (∀ line ∈ textLines text, line ≠ []))
      ∧ ∃ text keyLines,
        exportFlighplanAsIvap file exportData RouteExportType.XIVAP
            = (file.write text, Outcome.returned true)
          ∧ textLines text
              = ("[FLIGHTPLAN]".toList :: keyLines).flatMap (fun line => [line, []])
          ∧ (∀ line ∈ keyLines, '=' ∈ line)
          ∧ lineKeys keyLines = xivapKeys
          ∧ (textLines text).length = 2 * ("[FLIGHTPLAN]".toList :: keyLines).length := by
  constructor
  · refine ⟨streamLines (ivapLines exportData RouteExportType.IVAP), ?_, ?_⟩
    · simp only [exportFlighplanAsIvap, hw, if_true]
    · rw [textLines_streamLines _ (ivapLines_no_line_feed exportData _ h)]
      simp [ivapLines, ivapCommonLines, writeIvapLine, writeIvapLineInt]
  · refine ⟨streamLines (ivapLines exportData RouteExportType.XIVAP),
      ((ivapLines exportData RouteExportType.XIVAP).drop 1).filter (fun line => !line.isEmpty),
      ?_, ?_, ?_, ?_, ?_⟩
    · simp only [exportFlighplanAsIvap, hw, if_true]
    · rw [textLines_streamLines _ (ivapLines_no_line_feed exportData _ h)]
      simp [ivapLines, ivapCommonLines, writeIvapLine, writeIvapLineInt]
    · simp [ivapLines, ivapCommonLines, writeIvapLine, writeIvapLineInt]
    · have hkeys := (ivapLines_keys exportData).2
      unfold lineKeys at hkeys ⊢
      rw [List.filter_filter]
      simpa using hkeys
    · rw [textLines_streamLines _ (ivapLines_no_line_feed exportData _ h)]
      simp [ivapLines, ivapCommonLines, writeIvapLine, writeIvapLineInt]

/-- Witness for C25: the sample data, whose values hold no line feed. -/
theorem exportFlighplanAsIvap_blank_lines_witness :
    (∃ text,
        exportFlighplanAsIvap ⟨none, true, true⟩ sampleExportData RouteExportType.IVAP
            = ((⟨none, true, true⟩ : TextFile).write text, Outcome.returned true)
          ∧ (∀ line ∈ textLines text, line ≠ []))
      ∧ ∃ text keyLines,
        exportFlighplanAsIvap ⟨none, true, true⟩ sampleExportData RouteExportType.XIVAP
            = ((⟨none, true, true⟩ : TextFile).write text, Outcome.returned true)
          ∧ textLines text
              = ("[FLIGHTPLAN]".toList :: keyLines).flatMap (fun line => [line, []])
          ∧ (∀ line ∈ keyLines, '=' ∈ line)
          ∧ lineKeys keyLines = xivapKeys
          ∧ (textLines text).length = 2 * ("[FLIGHTPLAN]".toList :: keyLines).length :=
  exportFlighplanAsIvap_blank_lines ⟨none, true, true⟩ sampleExportData rfl (by decide)

/-! ## The ATC filing encoders and the state of the application -/

/-- The route that the ATC filing encoders write is the route string stored in the
record, as attribute `Route` and in the line `ROUTE=`; `createRouteExportData` takes
it from the current route with SID and STAR, not from the adjusted route. -/
theorem exportData_route_written (app : Application) (exportData : RouteExportData)
    (type : RouteExportType) :
    writtenAttribute (vfpWriterCalls exportData) "Route".toList = some exportData.route
      ∧ (ivapLines exportData type).filter (fun line => lineKey line = "ROUTE".toList)
          = ["ROUTE=".toList ++ exportData.route]
      ∧ ∀ initial : RouteExportData,
          (createRouteExportData app type initial).route = app.routeString := by
  refine ⟨?_, ?_, ?_⟩
  · simp [writtenAttribute, vfpWriterCalls]
  · cases type <;>
      simp [ivapLines, ivapCommonLines, writeIvapLine, writeIvapLineInt, lineKey,
        List.takeWhile]
  · intro initial
    unfold createRouteExportData
    cases type <;> rcases app.alternateIdents with _ | ⟨a, _ | ⟨b, rest⟩⟩ <;> rfl

/-- Of the state of the application, only the codec of the locale enters the bytes
that `exportFlighplanAsIvap` writes. -/
theorem ivapBytes_codec (app1 app2 : Application) (file : TextFile)
    (exportData : RouteExportData) (type : RouteExportType)
    (h : app1.localeCodec = app2.localeCodec) :
    ivapBytes app1 file exportData type = ivapBytes app2 file exportData type := by
  unfold ivapBytes
  rw [h]

end RouteExport
